import Mathlib

/-!
Verification of the roster-synchronization routine (`syncClassroomFromCode`)
of the classroom-engagement tracker.  The definitions below are a shallow
embedding of `server/services/googleClassroom.ts` (the two-path version) and
of the transaction wrapper in `server/db.ts`.  External collaborators (OAuth
token exchange, userinfo endpoint, classroom listing and roster endpoints)
are modelled as an environment record; the relational store is modelled as
lists of rows, with the `ON CONFLICT` upsert semantics of each SQL statement
translated directly from the statement text.
-/

set_option maxHeartbeats 1000000

namespace HighView

/-- Roles written by the reconciler; the users.role column only ever receives
these two values from this code path. -/
inductive Role where
  | teacher
  | student
deriving BEq, DecidableEq, Repr

/-- TS truthiness test for an optional string: `undefined`, `null` and the
empty string are falsy.  Returns the string itself when truthy, mirroring
guards such as `if (!course.id || !course.name)`. -/
def optTruthy : Option String → Option String
  | none => none
  | some s => if s = "" then none else some s

/-- `normalizeString` from googleClassroom.ts:
`value?.trim() ? value.trim() : null`. -/
def normalizeString : Option String → Option String
  | none => none
  | some s => if s.trim = "" then none else some s.trim

/-- classroom_v1.Schema$Course (the fields the reconciler reads). -/
structure Course where
  id : Option String
  name : Option String
  sectionName : Option String
  room : Option String
  courseState : Option String
deriving DecidableEq, Repr

/-- classroom_v1.Schema$Name. -/
structure PersonName where
  fullName : Option String
  givenName : Option String
  familyName : Option String
deriving DecidableEq, Repr

/-- classroom_v1.Schema$UserProfile (fields read by `toProfile` and
`upsertStudent`). -/
structure UserProfileApi where
  id : Option String
  name : Option PersonName
  emailAddress : Option String
  photoUrl : Option String
deriving DecidableEq, Repr

/-- classroom_v1.Schema$Teacher. -/
structure Teacher where
  profile : Option UserProfileApi
deriving DecidableEq, Repr

/-- classroom_v1.Schema$Student. -/
structure Student where
  userId : Option String
  profile : Option UserProfileApi
deriving DecidableEq, Repr

/-- The GoogleUserProfile record produced by `fetchUserProfile`/`toProfile`. -/
structure GoogleUserProfile where
  googleUserId : String
  email : Option String
  name : String
  avatarUrl : Option String
deriving DecidableEq, Repr

/-- OAuth credential pair returned by the code exchange. -/
structure Tokens where
  access_token : Option String
  refresh_token : Option String
  scope : Option String
  token_type : Option String
  expiry_date : Option Int
deriving DecidableEq, Repr

/-- Raw oauth2 userinfo payload (fields read by `fetchUserProfile`). -/
structure Userinfo where
  id : Option String
  name : Option String
  email : Option String
  picture : Option String
deriving DecidableEq, Repr

/-- Error raised by a provider call, carrying the HTTP-like status code the
catch clauses inspect. -/
structure ApiError where
  code : Option Nat
deriving DecidableEq, Repr

/-- Failure modes of the sync flow. -/
inductive SyncError where
  | authExchange
  | profileResolution
  | api (code : Option Nat)
  | writeFailed (k : Nat)
deriving DecidableEq, Repr

/-! ## Database rows -/

/-- A row of the `users` table. -/
structure UserRow where
  id : Nat
  google_user_id : String
  email : Option String
  name : String
  role : Role
  avatar_url : Option String
deriving DecidableEq, Repr

/-- A row of the `courses` table. -/
structure CourseRow where
  id : String
  name : String
  google_course_id : String
  sectionName : Option String
  room : Option String
  teacher_user_id : Option Nat
  course_state : Option String
deriving DecidableEq, Repr

/-- A row of the `course_teachers` join table. -/
structure CourseTeacherRow where
  course_id : String
  user_id : Nat
deriving DecidableEq, Repr

/-- A row of the `students` (enrollment) table. -/
structure StudentRow where
  id : String
  name : String
  cohort : Option String
  course_id : String
  user_id : Nat
  google_user_id : String
  email : Option String
deriving DecidableEq, Repr

/-- A row of the `user_tokens` table. -/
structure TokenRow where
  user_id : Nat
  access_token : String
  refresh_token : Option String
  scope : String
  token_type : Option String
  expiry_date : Option Int
deriving DecidableEq, Repr

/-- Database state.  `nextUserId` models the id generator backing the users
primary key: fresh inserts receive the current value and bump it. -/
structure DB where
  users : List UserRow
  courses : List CourseRow
  course_teachers : List CourseTeacherRow
  students : List StudentRow
  user_tokens : List TokenRow
  nextUserId : Nat
deriving DecidableEq, Repr

/-! ## Upsert operations (one per SQL statement in googleClassroom.ts) -/

/-- The `DO UPDATE SET` clause of the `users` upsert:
email coalesces, name overwrites, role is sticky at teacher, avatar
coalesces. -/
def updateUserRow (r : UserRow) (p : GoogleUserProfile) (role : Role) : UserRow :=
  { r with
    email := normalizeString p.email <|> r.email
    name := p.name
    role := if r.role = Role.teacher then r.role else role
    avatar_url := p.avatarUrl <|> r.avatar_url }

/-- Fresh `users` row built by the INSERT arm of the upsert. -/
def freshUserRow (p : GoogleUserProfile) (role : Role) (k : Nat) : UserRow :=
  { id := k
    google_user_id := p.googleUserId
    email := normalizeString p.email
    name := p.name
    role := role
    avatar_url := p.avatarUrl }

/-- `upsertUser`: INSERT INTO users ... ON CONFLICT (google_user_id)
DO UPDATE ... RETURNING id.  Returns the updated database and the id of the
inserted or conflicted row. -/
def upsertUser (db : DB) (p : GoogleUserProfile) (role : Role) : DB × Nat :=
  match db.users.find? (fun r => r.google_user_id = p.googleUserId) with
  | some r =>
    ({ db with
        users := db.users.map (fun q =>
          if q.google_user_id = p.googleUserId then updateUserRow q p role else q) },
      r.id)
  | none =>
    ({ db with
        users := db.users ++ [freshUserRow p role db.nextUserId]
        nextUserId := db.nextUserId + 1 },
      db.nextUserId)

/-- The `DO UPDATE SET` clause of the `courses` upsert. -/
def updateCourseRow (r : CourseRow) (cid cname : String) (c : Course)
    (primaryTeacherId : Option Nat) : CourseRow :=
  { r with
    name := cname
    google_course_id := cid
    sectionName := c.sectionName
    room := c.room
    teacher_user_id := primaryTeacherId <|> r.teacher_user_id
    course_state := c.courseState }

/-- Fresh `courses` row built by the INSERT arm. -/
def freshCourseRow (cid cname : String) (c : Course)
    (primaryTeacherId : Option Nat) : CourseRow :=
  { id := cid
    name := cname
    google_course_id := cid
    sectionName := c.sectionName
    room := c.room
    teacher_user_id := primaryTeacherId
    course_state := c.courseState }

/-- `upsertCourse`: returns early when `!course.id || !course.name`,
otherwise INSERT ... ON CONFLICT (id) DO UPDATE. -/
def upsertCourse (db : DB) (c : Course) (primaryTeacherId : Option Nat) : DB :=
  match optTruthy c.id, optTruthy c.name with
  | some cid, some cname =>
    match db.courses.find? (fun r => r.id = cid) with
    | some _ =>
      { db with
          courses := db.courses.map (fun r =>
            if r.id = cid then updateCourseRow r cid cname c primaryTeacherId else r) }
    | none =>
      { db with courses := db.courses ++ [freshCourseRow cid cname c primaryTeacherId] }
  | _, _ => db

/-- One INSERT ... ON CONFLICT (course_id, user_id) DO NOTHING step of
`upsertCourseTeachers`. -/
def insertCourseTeacher (l : List CourseTeacherRow) (cid : String) (uid : Nat) :
    List CourseTeacherRow :=
  if l.any (fun r => r.course_id = cid ∧ r.user_id = uid) then l
  else l ++ [{ course_id := cid, user_id := uid }]

/-- `upsertCourseTeachers`: DELETE all rows of the course, then insert the
given teacher ids one by one. -/
def upsertCourseTeachers (db : DB) (cid : String) (teacherIds : List Nat) : DB :=
  { db with
      course_teachers :=
        teacherIds.foldl (fun l t => insertCourseTeacher l cid t)
          (db.course_teachers.filter (fun r => ¬ r.course_id = cid)) }

/-- Deterministic enrollment id: `gcls-${course.id}-${student.userId}`. -/
def studentRowId (cid suid : String) : String :=
  "gcls-" ++ cid ++ "-" ++ suid

/-- Display-name fallback chain of `upsertStudent`. -/
def studentFullName (s : Student) : String :=
  (((s.profile.bind (fun pr => pr.name)).bind (fun n => n.fullName)) <|>
   ((s.profile.bind (fun pr => pr.name)).bind (fun n => n.givenName)) <|>
   ((s.profile.bind (fun pr => pr.name)).bind (fun n => n.familyName))).getD
    "Unnamed student"

/-- The `students` row produced for (student, course, userId).  Used by both
the INSERT and the DO UPDATE arm (every column is overwritten on conflict). -/
def studentRowFor (s : Student) (c : Course) (suid cid : String) (userId : Nat) :
    StudentRow :=
  { id := studentRowId cid suid
    name := studentFullName s
    cohort := c.sectionName <|> c.name
    course_id := cid
    user_id := userId
    google_user_id := suid
    email := normalizeString (s.profile.bind (fun pr => pr.emailAddress)) }

/-- `upsertStudent`: returns early when `!student.userId || !course.id`,
otherwise INSERT ... ON CONFLICT (id) DO UPDATE overwriting every column. -/
def upsertStudent (db : DB) (s : Student) (c : Course) (userId : Nat) : DB :=
  match optTruthy s.userId, optTruthy c.id with
  | some suid, some cid =>
    let row := studentRowFor s c suid cid userId
    match db.students.find? (fun r => r.id = studentRowId cid suid) with
    | some _ =>
      { db with
          students := db.students.map (fun r =>
            if r.id = studentRowId cid suid then { row with id := r.id } else r) }
    | none => { db with students := db.students ++ [row] }
  | _, _ => db

/-- The OAuth scopes requested by the frontend; used as the fallback scope
string when the token response carries none. -/
def classroomScopes : List String :=
  ["https://www.googleapis.com/auth/userinfo.email",
   "https://www.googleapis.com/auth/userinfo.profile",
   "https://www.googleapis.com/auth/classroom.courses.readonly",
   "https://www.googleapis.com/auth/classroom.profile.emails",
   "https://www.googleapis.com/auth/classroom.profile.photos",
   "https://www.googleapis.com/auth/classroom.rosters.readonly"]

/-- `storeUserTokens`: silently skipped when no access token is present,
otherwise INSERT ... ON CONFLICT (user_id) DO UPDATE with coalescing
refresh/scope/type/expiry. -/
def storeUserTokens (db : DB) (userId : Nat) (t : Tokens) : DB :=
  match optTruthy t.access_token with
  | none => db
  | some at0 =>
    let scopeValue := t.scope.getD (String.intercalate " " classroomScopes)
    let expiry : Option Int :=
      match t.expiry_date with
      | none => none
      | some e => if e = 0 then none else some (Int.fdiv e 1000)
    match db.user_tokens.find? (fun r => r.user_id = userId) with
    | some _ =>
      { db with
          user_tokens := db.user_tokens.map (fun r =>
            if r.user_id = userId then
              { r with
                  access_token := at0
                  refresh_token := t.refresh_token <|> r.refresh_token
                  scope := scopeValue
                  token_type := t.token_type <|> r.token_type
                  expiry_date := expiry <|> r.expiry_date }
            else r) }
    | none =>
      { db with
          user_tokens := db.user_tokens ++
            [{ user_id := userId
               access_token := at0
               refresh_token := t.refresh_token
               scope := scopeValue
               token_type := t.token_type
               expiry_date := expiry }] }

/-- `toProfile`: rejects a roster profile without a (truthy) id and full
name. -/
def toProfile (person : Option UserProfileApi) : Option GoogleUserProfile :=
  match person with
  | none => none
  | some p =>
    match optTruthy p.id, optTruthy (p.name.bind (fun n => n.fullName)) with
    | some i, some fn =>
      some { googleUserId := i
             email := normalizeString p.emailAddress
             name := fn
             avatarUrl := normalizeString p.photoUrl }
    | _, _ => none

/-- `fetchUserProfile`: fails unless the userinfo payload has a truthy id and
name. -/
def fetchUserProfile (u : Userinfo) : Except SyncError GoogleUserProfile :=
  match optTruthy u.id, optTruthy u.name with
  | some i, some n =>
    .ok { googleUserId := i, email := u.email, name := n, avatarUrl := u.picture }
  | _, _ => .error .profileResolution

/-- The `.catch` wrapper around a classroom course-list probe: a 403 yields
an empty course list, any other error is rethrown; a successful response
with no `courses` field also yields `[]` (the `?? []`). -/
def probeResult : Except ApiError (Option (List Course)) → Except SyncError (List Course)
  | .ok cs => .ok (cs.getD [])
  | .error e => if e.code = some 403 then .ok [] else .error (.api e.code)

/-! ## The sync flow -/

/-- External world as seen by one `syncClassroomFromCode` call.  `failAt`
injects a failure into the n-th database statement issued inside the write
transaction (counted from 0), modelling a write that raises. -/
structure Env where
  exchange : Except SyncError Tokens
  userinfo : Except SyncError Userinfo
  teacherList : Except ApiError (Option (List Course))
  studentList : Except ApiError (Option (List Course))
  teachersOf : String → List Teacher
  studentsOf : String → List Student
  failAt : Option Nat

/-- One entry of `courseBundles`: a course that passed the
`!course.id || !course.name` guard together with its fetched rosters.
`cid`/`cname` record the truthy id and name established by the guard. -/
structure Bundle where
  course : Course
  cid : String
  cname : String
  teachers : List Teacher
  students : List Student
deriving DecidableEq, Repr

/-- The fetch loop of the teacher path: skip unnamed courses, fetch both
rosters of each remaining course. -/
def buildBundles (env : Env) : List Course → List Bundle
  | [] => []
  | c :: rest =>
    match optTruthy c.id, optTruthy c.name with
    | some cid, some cname =>
      { course := c, cid := cid, cname := cname
        teachers := env.teachersOf cid
        students := env.studentsOf cid } :: buildBundles env rest
    | _, _ => buildBundles env rest

/-- Consume one database-statement slot inside the transaction; raises when
the injected failure index is hit. -/
def tick (failAt : Option Nat) (k : Nat) : Except SyncError Nat :=
  match failAt with
  | some j => if j = k then .error (.writeFailed k) else .ok (k + 1)
  | none => .ok (k + 1)

/-- Summary entry for one course on the teacher path. -/
structure TeacherCourseSummary where
  id : String
  name : String
  sectionName : Option String
  studentCount : Nat
deriving DecidableEq, Repr

/-- Summary entry for one course on the student path. -/
structure StudentCourseSummary where
  id : String
  name : String
  sectionName : Option String
  studentRecordId : String
deriving DecidableEq, Repr

/-- The `{id, name, email}` header of either summary. -/
structure PersonSummary where
  id : Nat
  name : String
  email : Option String
deriving DecidableEq, Repr

/-- Discriminated result of `syncClassroomFromCode`. -/
inductive SyncResult where
  | teacher (user : PersonSummary) (courses : List TeacherCourseSummary)
  | student (user : PersonSummary) (courses : List StudentCourseSummary)
deriving DecidableEq, Repr

/-- The teacher-upsert loop of one bundle, collecting the returned ids of
every resolvable roster teacher. -/
def applyTeacherUpserts (failAt : Option Nat) (db : DB) (k : Nat) :
    List Teacher → Except SyncError (DB × Nat × List Nat)
  | [] => .ok (db, k, [])
  | t :: rest =>
    match toProfile t.profile with
    | none => applyTeacherUpserts failAt db k rest
    | some p =>
      match tick failAt k with
      | .error e => .error e
      | .ok k1 =>
        let (db1, i) := upsertUser db p Role.teacher
        match applyTeacherUpserts failAt db1 k1 rest with
        | .error e => .error e
        | .ok (db2, k2, ids) => .ok (db2, k2, i :: ids)

/-- The student-upsert loop of one bundle: upsert the identity, then the
enrollment row (the latter is skipped, with no statement issued, when
`!student.userId || !course.id`). -/
def applyStudentUpserts (failAt : Option Nat) (db : DB) (k : Nat) (c : Course) :
    List Student → Except SyncError (DB × Nat)
  | [] => .ok (db, k)
  | s :: rest =>
    match toProfile s.profile with
    | none => applyStudentUpserts failAt db k c rest
    | some p =>
      match tick failAt k with
      | .error e => .error e
      | .ok k1 =>
        let (db1, i) := upsertUser db p Role.student
        match optTruthy s.userId, optTruthy c.id with
        | some _, some _ =>
          match tick failAt k1 with
          | .error e => .error e
          | .ok k2 => applyStudentUpserts failAt (upsertStudent db1 s c i) k2 c rest
        | _, _ => applyStudentUpserts failAt db1 k1 c rest

/-- The per-course merge loop of the teacher transaction. -/
def processBundles (failAt : Option Nat) (callerId : Nat) (db : DB) (k : Nat) :
    List Bundle → Except SyncError (DB × Nat × List TeacherCourseSummary)
  | [] => .ok (db, k, [])
  | b :: rest =>
    match applyTeacherUpserts failAt db k b.teachers with
    | .error e => .error e
    | .ok (db1, k1, teacherIds) =>
      let primary := teacherIds.headD callerId
      match tick failAt k1 with
      | .error e => .error e
      | .ok k2 =>
        let db2 := upsertCourse db1 b.course (some primary)
        match tick failAt k2 with
        | .error e => .error e
        | .ok k3 =>
          let db3 := upsertCourseTeachers db2 b.cid
            (if teacherIds.length > 0 then teacherIds else [callerId])
          match applyStudentUpserts failAt db3 k3 b.course b.students with
          | .error e => .error e
          | .ok (db4, k4) =>
            match processBundles failAt callerId db4 k4 rest with
            | .error e => .error e
            | .ok (db5, k5, sums) =>
              .ok (db5, k5,
                { id := b.cid, name := b.cname
                  sectionName := b.course.sectionName
                  studentCount := b.students.length } :: sums)

/-- `storeUserTokens` wrapped with the statement counter: no statement is
issued when the access token is absent. -/
def storeUserTokensT (failAt : Option Nat) (db : DB) (k : Nat) (userId : Nat)
    (t : Tokens) : Except SyncError (DB × Nat) :=
  match optTruthy t.access_token with
  | none => .ok (db, k)
  | some _ =>
    match tick failAt k with
    | .error e => .error e
    | .ok k1 => .ok (storeUserTokens db userId t, k1)

/-- Transaction body of the teacher path. -/
def teacherTxBody (failAt : Option Nat) (up : GoogleUserProfile) (tok : Tokens)
    (bundles : List Bundle) (db : DB) : Except SyncError (DB × SyncResult) :=
  match tick failAt 0 with
  | .error e => .error e
  | .ok k0 =>
    let (db1, callerId) := upsertUser db up Role.teacher
    match storeUserTokensT failAt db1 k0 callerId tok with
    | .error e => .error e
    | .ok (db2, k1) =>
      match processBundles failAt callerId db2 k1 bundles with
      | .error e => .error e
      | .ok (db3, _, sums) =>
        .ok (db3,
          .teacher { id := callerId, name := up.name, email := up.email } sums)

/-- The stand-in roster record the student path builds from the caller's own
profile. -/
def stubStudent (up : GoogleUserProfile) : Student :=
  { userId := some up.googleUserId
    profile := some
      { id := some up.googleUserId
        name := some { fullName := some up.name, givenName := none, familyName := none }
        emailAddress := up.email
        photoUrl := up.avatarUrl } }

/-- The per-course loop of the student transaction: upsert the course with no
primary teacher, then the caller's own enrollment row. -/
def processStudentCourses (failAt : Option Nat) (up : GoogleUserProfile)
    (studentUserId : Nat) (db : DB) (k : Nat) :
    List Course → Except SyncError (DB × Nat)
  | [] => .ok (db, k)
  | c :: rest =>
    match optTruthy c.id, optTruthy c.name with
    | some _, some _ =>
      match tick failAt k with
      | .error e => .error e
      | .ok k1 =>
        let db1 := upsertCourse db c none
        match tick failAt k1 with
        | .error e => .error e
        | .ok k2 =>
          processStudentCourses failAt up studentUserId
            (upsertStudent db1 (stubStudent up) c studentUserId) k2 rest
    | _, _ => processStudentCourses failAt up studentUserId db k rest

/-- Insert an enrollment row into a list sorted ascending by name
(model of `ORDER BY name ASC`). -/
def insertByName (r : StudentRow) : List StudentRow → List StudentRow
  | [] => [r]
  | x :: xs => if r.name ≤ x.name then r :: x :: xs else x :: insertByName r xs

/-- Sort enrollment rows ascending by name. -/
def sortByName : List StudentRow → List StudentRow
  | [] => []
  | x :: xs => insertByName x (sortByName xs)

/-- The re-read at the end of the student path:
`SELECT id, name, cohort, course_id FROM students WHERE user_id = $1 ORDER BY name ASC`. -/
def selectStudentsByUser (db : DB) (userId : Nat) : List StudentRow :=
  sortByName (db.students.filter (fun r => r.user_id = userId))

/-- Map one re-read row to a student-summary entry. -/
def studentSummaryRow (r : StudentRow) : StudentCourseSummary :=
  { id := r.course_id
    name := r.cohort.getD r.course_id
    sectionName := r.cohort
    studentRecordId := r.id }

/-- Transaction body of the student path. -/
def studentTxBody (failAt : Option Nat) (up : GoogleUserProfile) (tok : Tokens)
    (courses : List Course) (db : DB) : Except SyncError (DB × SyncResult) :=
  match tick failAt 0 with
  | .error e => .error e
  | .ok k0 =>
    let (db1, studentUserId) := upsertUser db up Role.student
    match storeUserTokensT failAt db1 k0 studentUserId tok with
    | .error e => .error e
    | .ok (db2, k1) =>
      match processStudentCourses failAt up studentUserId db2 k1 courses with
      | .error e => .error e
      | .ok (db3, _) =>
        .ok (db3,
          .student { id := studentUserId, name := up.name, email := up.email }
            ((selectStudentsByUser db3 studentUserId).map studentSummaryRow))

/-- `withTransaction` from server/db.ts: run the handler, commit its state on
success, roll back to the incoming state on any error and rethrow. -/
def withTransaction (db : DB) (handler : DB → Except SyncError (DB × SyncResult)) :
    DB × Except SyncError SyncResult :=
  match handler db with
  | .ok (db2, a) => (db2, .ok a)
  | .error e => (db, .error e)

/-- `syncClassroomFromCode`: exchange the code, resolve the caller profile,
probe teacher-owned classrooms (403 tolerated as empty), and run the teacher
path when at least one such classroom exists, otherwise probe
student-enrolled classrooms and run the student path. -/
def syncClassroomFromCode (env : Env) (db : DB) : DB × Except SyncError SyncResult :=
  match env.exchange with
  | .error e => (db, .error e)
  | .ok tokens =>
    match env.userinfo with
    | .error e => (db, .error e)
    | .ok ui =>
      match fetchUserProfile ui with
      | .error e => (db, .error e)
      | .ok userProfile =>
        match probeResult env.teacherList with
        | .error e => (db, .error e)
        | .ok teacherCourses =>
          if teacherCourses.length > 0 then
            let bundles := buildBundles env teacherCourses
            withTransaction db (teacherTxBody env.failAt userProfile tokens bundles)
          else
            match probeResult env.studentList with
            | .error e => (db, .error e)
            | .ok studentCourses =>
              withTransaction db (studentTxBody env.failAt userProfile tokens studentCourses)

/-! ## Failure-free (pure) forms of the transaction bodies

With no injected failure every `tick` succeeds, so the bodies compute these
pure functions; the bridge lemmas below establish the correspondence. -/

/-- Pure form of `applyTeacherUpserts`. -/
def pureTeacherUpserts (db : DB) : List Teacher → DB × List Nat
  | [] => (db, [])
  | t :: rest =>
    match toProfile t.profile with
    | none => pureTeacherUpserts db rest
    | some p =>
      let (db1, i) := upsertUser db p Role.teacher
      let (db2, ids) := pureTeacherUpserts db1 rest
      (db2, i :: ids)

/-- Pure form of `applyStudentUpserts`. -/
def pureStudentUpserts (db : DB) (c : Course) : List Student → DB
  | [] => db
  | s :: rest =>
    match toProfile s.profile with
    | none => pureStudentUpserts db c rest
    | some p =>
      let (db1, i) := upsertUser db p Role.student
      pureStudentUpserts (upsertStudent db1 s c i) c rest

/-- Pure form of `processBundles`. -/
def pureBundles (callerId : Nat) (db : DB) : List Bundle → DB × List TeacherCourseSummary
  | [] => (db, [])
  | b :: rest =>
    let (db1, teacherIds) := pureTeacherUpserts db b.teachers
    let db2 := upsertCourse db1 b.course (some (teacherIds.headD callerId))
    let db3 := upsertCourseTeachers db2 b.cid
      (if teacherIds.length > 0 then teacherIds else [callerId])
    let db4 := pureStudentUpserts db3 b.course b.students
    let (db5, sums) := pureBundles callerId db4 rest
    (db5,
      { id := b.cid, name := b.cname, sectionName := b.course.sectionName
        studentCount := b.students.length } :: sums)

/-- Pure form of `teacherTxBody`. -/
def pureTeacherTx (up : GoogleUserProfile) (tok : Tokens) (bundles : List Bundle)
    (db : DB) : DB × SyncResult :=
  let (db1, callerId) := upsertUser db up Role.teacher
  let db2 := storeUserTokens db1 callerId tok
  let (db3, sums) := pureBundles callerId db2 bundles
  (db3, .teacher { id := callerId, name := up.name, email := up.email } sums)

/-- Pure form of `processStudentCourses`. -/
def pureStudentCourses (up : GoogleUserProfile) (sid : Nat) (db : DB) :
    List Course → DB
  | [] => db
  | c :: rest =>
    match optTruthy c.id, optTruthy c.name with
    | some _, some _ =>
      pureStudentCourses up sid
        (upsertStudent (upsertCourse db c none) (stubStudent up) c sid) rest
    | _, _ => pureStudentCourses up sid db rest

/-- Pure form of `studentTxBody`. -/
def pureStudentTx (up : GoogleUserProfile) (tok : Tokens) (courses : List Course)
    (db : DB) : DB × SyncResult :=
  let (db1, sid) := upsertUser db up Role.student
  let db2 := storeUserTokens db1 sid tok
  let db3 := pureStudentCourses up sid db2 courses
  (db3,
    .student { id := sid, name := up.name, email := up.email }
      ((selectStudentsByUser db3 sid).map studentSummaryRow))

/-! ## A generic keyed upsert fold

All three upsert tables (users, courses, students) follow the same
INSERT-or-UPDATE-by-unique-key pattern; this section captures it once. -/

section TableFold

variable {Row Op : Type}

/-- One INSERT ... ON CONFLICT (key) DO UPDATE step over a row list plus an
id-generator counter. -/
def tstep (key : Row → String) (opKey : Op → String) (upd : Row → Op → Row)
    (fresh : Op → Nat → Row) (st : List Row × Nat) (o : Op) : List Row × Nat :=
  match st.1.find? (fun r => key r = opKey o) with
  | some _ => (st.1.map (fun r => if key r = opKey o then upd r o else r), st.2)
  | none => (st.1 ++ [fresh o st.2], st.2 + 1)

/-- Iterated upsert steps. -/
def tfold (key : Row → String) (opKey : Op → String) (upd : Row → Op → Row)
    (fresh : Op → Nat → Row) (st : List Row × Nat) (L : List Op) : List Row × Nat :=
  L.foldl (tstep key opKey upd fresh) st

/-- The ops of `L` whose key is `g`. -/
def opsFor (opKey : Op → String) (g : String) (L : List Op) : List Op :=
  L.filter (fun o => opKey o = g)

/-- Fold the update clause of a chain of ops over one row. -/
def rowFold (upd : Row → Op → Row) (r : Row) (L : List Op) : Row :=
  L.foldl upd r

/-- String membership by equality test. -/
def memStr (g : String) (gs : List String) : Bool :=
  gs.any (fun x => x = g)

/-- The rows appended (and then updated in place) by the fold, given the keys
`gs` already present. -/
def newRows (key : Row → String) (opKey : Op → String) (upd : Row → Op → Row)
    (fresh : Op → Nat → Row) (gs : List String) (k : Nat) : List Op → List Row
  | [] => []
  | o :: L =>
    if memStr (opKey o) gs then newRows key opKey upd fresh gs k L
    else
      rowFold upd (fresh o k) (opsFor opKey (opKey o) L) ::
        newRows key opKey upd fresh (gs ++ [opKey o]) (k + 1) L

end TableFold

/-! ## Table-specific op records -/

/-- One `upsertUser` call. -/
structure UOp where
  p : GoogleUserProfile
  role : Role

/-- Key functions of the users table. -/
def ukey (r : UserRow) : String := r.google_user_id

/-- Key of a users op. -/
def uopKey (o : UOp) : String := o.p.googleUserId

/-- Update clause of a users op. -/
def uupd (r : UserRow) (o : UOp) : UserRow := updateUserRow r o.p o.role

/-- Insert clause of a users op. -/
def ufresh (o : UOp) (k : Nat) : UserRow := freshUserRow o.p o.role k

/-- One effective `upsertCourse` call (guards already passed). -/
structure COp where
  course : Course
  cid : String
  cname : String
  primary : Option Nat

/-- Key of a courses row. -/
def ckey (r : CourseRow) : String := r.id

/-- Key of a courses op. -/
def copKey (o : COp) : String := o.cid

/-- Update clause of a courses op. -/
def cupd (r : CourseRow) (o : COp) : CourseRow :=
  updateCourseRow r o.cid o.cname o.course o.primary

/-- Insert clause of a courses op (the id generator is unused: the key is the
external course id). -/
def cfresh (o : COp) (_ : Nat) : CourseRow :=
  freshCourseRow o.cid o.cname o.course o.primary

/-- One effective `upsertStudent` call (guards already passed). -/
structure SOp where
  s : Student
  c : Course
  suid : String
  cid : String
  uid : Nat

/-- Key of a students row. -/
def skey (r : StudentRow) : String := r.id

/-- Key of a students op: the deterministic enrollment id. -/
def sopKey (o : SOp) : String := studentRowId o.cid o.suid

/-- Update clause of a students op: every column overwritten. -/
def supd (r : StudentRow) (o : SOp) : StudentRow :=
  { studentRowFor o.s o.c o.suid o.cid o.uid with id := r.id }

/-- Insert clause of a students op. -/
def sfresh (o : SOp) (_ : Nat) : StudentRow :=
  studentRowFor o.s o.c o.suid o.cid o.uid

/-! ## Op-sequence extraction -/

/-- The id recorded for the google user id `g`, defaulting to 0 when absent
(the lemmas using it always establish presence). -/
def idOf (us : List UserRow) (g : String) : Option Nat :=
  (us.find? (fun r => r.google_user_id = g)).map (fun r => r.id)

/-- Defaulted form of `idOf`. -/
def idOfD (us : List UserRow) (g : String) : Nat :=
  (idOf us g).getD 0

/-- The resolvable profiles of a teacher roster. -/
def resolvedTeacherProfiles (ts : List Teacher) : List GoogleUserProfile :=
  ts.filterMap (fun t => toProfile t.profile)

/-- The resolvable profiles of a student roster. -/
def resolvedStudentProfiles (ss : List Student) : List GoogleUserProfile :=
  ss.filterMap (fun s => toProfile s.profile)

/-- The `upsertUser` calls one bundle issues. -/
def bundleUserOps (b : Bundle) : List UOp :=
  (resolvedTeacherProfiles b.teachers).map (fun p => ⟨p, Role.teacher⟩) ++
  (resolvedStudentProfiles b.students).map (fun p => ⟨p, Role.student⟩)

/-- The `upsertUser` calls of the whole teacher transaction, in order. -/
def teacherUserOps (up : GoogleUserProfile) (bs : List Bundle) : List UOp :=
  ⟨up, Role.teacher⟩ :: (bs.map bundleUserOps).flatten

/-- The teacher ids a bundle resolves, read off a users table. -/
def resolvedIds (us : List UserRow) (b : Bundle) : List Nat :=
  (resolvedTeacherProfiles b.teachers).map (fun p => idOfD us p.googleUserId)

/-- The effective `upsertCourse` op of a bundle, with the primary teacher
resolved against a users table. -/
def courseOpOf (us : List UserRow) (callerId : Nat) (b : Bundle) : COp :=
  ⟨b.course, b.cid, b.cname, some ((resolvedIds us b).headD callerId)⟩

/-- The course ops of the whole teacher transaction. -/
def teacherCourseOps (us : List UserRow) (callerId : Nat) (bs : List Bundle) :
    List COp :=
  bs.map (courseOpOf us callerId)

/-- The effective `upsertStudent` ops of one roster, for a fixed course. -/
def courseStudentOps (us : List UserRow) (c : Course) (cid : String)
    (ss : List Student) : List SOp :=
  ss.filterMap (fun s =>
    match toProfile s.profile, optTruthy s.userId with
    | some p, some suid => some ⟨s, c, suid, cid, idOfD us p.googleUserId⟩
    | _, _ => none)

/-- The effective `upsertStudent` ops of one bundle. -/
def bundleStudentOps (us : List UserRow) (b : Bundle) : List SOp :=
  courseStudentOps us b.course b.cid b.students

/-- The student ops of the whole teacher transaction. -/
def teacherStudentOps (us : List UserRow) (bs : List Bundle) : List SOp :=
  (bs.map (bundleStudentOps us)).flatten

/-- One `upsertCourseTeachers` call: course id and the ids inserted. -/
def ctApply (l : List CourseTeacherRow) (op : String × List Nat) :
    List CourseTeacherRow :=
  op.2.foldl (fun l2 t => insertCourseTeacher l2 op.1 t)
    (l.filter (fun r => ¬ r.course_id = op.1))

/-- Iterated `upsertCourseTeachers` calls. -/
def ctFold (l : List CourseTeacherRow) (L : List (String × List Nat)) :
    List CourseTeacherRow :=
  L.foldl ctApply l

/-- The `upsertCourseTeachers` ops of the whole teacher transaction. -/
def teacherCtOps (us : List UserRow) (callerId : Nat) (bs : List Bundle) :
    List (String × List Nat) :=
  bs.map (fun b =>
    (b.cid,
      if (resolvedIds us b).length > 0 then resolvedIds us b else [callerId]))

/-- Bundles produced by `buildBundles` record the truthy id and name of their
course; recorded as a predicate for the decomposition lemmas. -/
def GoodBundles (bs : List Bundle) : Prop :=
  ∀ b ∈ bs, optTruthy b.course.id = some b.cid ∧ optTruthy b.course.name = some b.cname

/-- The course ids an `upsertCourseTeachers` op list touches. -/
def ctKeys (L : List (String × List Nat)) : List String :=
  L.map (fun op => op.1)

/-- The association rows one `upsertCourseTeachers` call inserts for its
course, deduplicated in order. -/
def ctBlock (cid : String) (ts : List Nat) : List CourseTeacherRow :=
  ts.foldl (fun l t => insertCourseTeacher l cid t) []

/-- The association rows that survive a whole op list: for each op, its block
unless a later op touches the same course again. -/
def ctSurvivors : List (String × List Nat) → List CourseTeacherRow
  | [] => []
  | (cid, ts) :: R =>
    (if memStr cid (ctKeys R) then [] else ctBlock cid ts) ++ ctSurvivors R

/-- Database statements and provider requests, for the ordering claim. -/
inductive Ev where
  | fetch
  | write
deriving BEq, DecidableEq, Repr

/-- Provider requests issued by the fetch loop of the teacher path: one
teacher-roster and one student-roster request per named course. -/
def courseFetchEvents : List Course → List Ev
  | [] => []
  | c :: rest =>
    match optTruthy c.id, optTruthy c.name with
    | some _, some _ => Ev.fetch :: Ev.fetch :: courseFetchEvents rest
    | _, _ => courseFetchEvents rest

/-- Database statements issued by the teacher loop of one bundle. -/
def teacherRosterWrites : List Teacher → List Ev
  | [] => []
  | t :: rest =>
    match toProfile t.profile with
    | none => teacherRosterWrites rest
    | some _ => Ev.write :: teacherRosterWrites rest

/-- Database statements issued by the student loop of one bundle. -/
def studentRosterWrites (c : Course) : List Student → List Ev
  | [] => []
  | s :: rest =>
    match toProfile s.profile with
    | none => studentRosterWrites c rest
    | some _ =>
      Ev.write ::
        (match optTruthy s.userId, optTruthy c.id with
        | some _, some _ => Ev.write :: studentRosterWrites c rest
        | _, _ => studentRosterWrites c rest)

/-- Database statements issued by the merge loop over all bundles. -/
def bundleWrites : List Bundle → List Ev
  | [] => []
  | b :: rest =>
    teacherRosterWrites b.teachers ++
      (Ev.write :: Ev.write :: studentRosterWrites b.course b.students) ++
      bundleWrites rest

/-- The (0 or 1) statements issued by `storeUserTokens`. -/
def tokenWrites (tok : Tokens) : List Ev :=
  match optTruthy tok.access_token with
  | none => []
  | some _ => [Ev.write]

/-- Database statements of the whole teacher transaction body, in issue
order. -/
def teacherTxWrites (tok : Tokens) (bs : List Bundle) : List Ev :=
  Ev.write :: (tokenWrites tok ++ bundleWrites bs)

/-- Database statements of the whole student transaction body. -/
def studentCoursesWrites : List Course → List Ev
  | [] => []
  | c :: rest =>
    match optTruthy c.id, optTruthy c.name with
    | some _, some _ => Ev.write :: Ev.write :: studentCoursesWrites rest
    | _, _ => studentCoursesWrites rest

/-- Database statements of the whole student transaction body, in issue
order. -/
def studentTxWrites (tok : Tokens) (cs : List Course) : List Ev :=
  Ev.write :: (tokenWrites tok ++ studentCoursesWrites cs)

/-- The interleaving of provider requests and database statements of one
`syncClassroomFromCode` call, in the order the code issues them when no
failure interrupts the flow: code exchange, userinfo request, teacher-course
probe, then (teacher path) the per-course roster fetch loop followed by the
transaction writes, or (student path) the student-course probe followed by
the transaction writes.  On an early failure the trace is truncated at the
failing request. -/
def syncTrace (env : Env) : List Ev :=
  match env.exchange with
  | .error _ => [Ev.fetch]
  | .ok tok =>
    match env.userinfo with
    | .error _ => [Ev.fetch, Ev.fetch]
    | .ok ui =>
      match fetchUserProfile ui with
      | .error _ => [Ev.fetch, Ev.fetch]
      | .ok _ =>
        match probeResult env.teacherList with
        | .error _ => [Ev.fetch, Ev.fetch, Ev.fetch]
        | .ok tcs =>
          if tcs.length > 0 then
            Ev.fetch :: Ev.fetch :: Ev.fetch ::
              (courseFetchEvents tcs ++ teacherTxWrites tok (buildBundles env tcs))
          else
            match probeResult env.studentList with
            | .error _ => [Ev.fetch, Ev.fetch, Ev.fetch, Ev.fetch]
            | .ok scs =>
              Ev.fetch :: Ev.fetch :: Ev.fetch :: Ev.fetch ::
                studentTxWrites tok scs

/-- No provider request occurs after the first database statement. -/
def noFetchAfterWrite (l : List Ev) : Prop :=
  ∀ i j, i < j → l.get? i = some Ev.write → ¬ l.get? j = some Ev.fetch

/-- The student-path ops, per course, on the courses table. -/
def studentCourseOps (cs : List Course) : List COp :=
  cs.filterMap (fun c =>
    match optTruthy c.id, optTruthy c.name with
    | some cid, some cname => some ⟨c, cid, cname, none⟩
    | _, _ => none)

/-- The student-path ops on the students table. -/
def studentPathStudentOps (up : GoogleUserProfile) (sid : Nat) (cs : List Course) :
    List SOp :=
  cs.filterMap (fun c =>
    match optTruthy c.id, optTruthy c.name with
    | some cid, some _ =>
      match optTruthy (stubStudent up).userId with
      | some suid => some ⟨stubStudent up, c, suid, cid, sid⟩
      | none => none
    | _, _ => none)

/-! ## Concrete fixtures used to exercise the theorems on closed inputs -/

/-- The empty database. -/
def dbEmpty : DB :=
  { users := [], courses := [], course_teachers := [], students := [],
    user_tokens := [], nextUserId := 0 }

/-- A concrete active course. -/
def wCourse : Course :=
  { id := some "c1", name := some "Math", sectionName := none, room := none,
    courseState := none }

/-- A credential pair without an access token. -/
def wTokens1 : Tokens :=
  { access_token := none, refresh_token := none, scope := none,
    token_type := none, expiry_date := none }

/-- A second, distinct credential pair. -/
def wTokens2 : Tokens :=
  { access_token := none, refresh_token := none, scope := none,
    token_type := some "Bearer", expiry_date := none }

/-- Userinfo payload of the requesting identity. -/
def wUserinfo : Userinfo :=
  { id := some "owner", name := some "Owner", email := none, picture := none }

/-- The requester's resolved profile. -/
def wOwnerProfile : GoogleUserProfile :=
  { googleUserId := "owner", email := none, name := "Owner", avatarUrl := none }

/-- A resolvable roster teacher distinct from the requester. -/
def wTeacherA : Teacher :=
  { profile := some
      { id := some "tA"
        name := some { fullName := some "Alice", givenName := none, familyName := none }
        emailAddress := none, photoUrl := none } }

/-- A resolvable roster student. -/
def wStudentS1 : Student :=
  { userId := some "s1"
    profile := some
      { id := some "s1"
        name := some { fullName := some "Sam", givenName := none, familyName := none }
        emailAddress := none, photoUrl := none } }

/-- A roster entry whose profile is missing, so it is skipped. -/
def wStudentBad : Student :=
  { userId := some "s2", profile := none }

/-- A teacher-path environment: one owned course whose roster has one
resolvable teacher and two students, one of them unresolvable. -/
def envTeacher (tok : Tokens) : Env :=
  { exchange := .ok tok
    userinfo := .ok wUserinfo
    teacherList := .ok (some [wCourse])
    studentList := .ok none
    teachersOf := fun _ => [wTeacherA]
    studentsOf := fun _ => [wStudentS1, wStudentBad]
    failAt := none }

/-- A student-path environment: the teacher probe is denied with a 403 and
the student probe returns one course. -/
def envStudent (tok : Tokens) : Env :=
  { exchange := .ok tok
    userinfo := .ok wUserinfo
    teacherList := .error { code := some 403 }
    studentList := .ok (some [wCourse])
    teachersOf := fun _ => []
    studentsOf := fun _ => []
    failAt := none }

/-- A users row recording the requester as a teacher. -/
def wOwnerTeacherRow : UserRow :=
  { id := 0, google_user_id := "owner", email := none, name := "Owner",
    role := Role.teacher, avatar_url := none }

/-- A database holding only the requester's teacher row. -/
def dbOwnerTeacher : DB :=
  { dbEmpty with users := [wOwnerTeacherRow] }

/-- A stored course row for the fixture course, with primary teacher 7. -/
def wCourseRowT7 : CourseRow :=
  { id := "c1", name := "Old", google_course_id := "c1", sectionName := none,
    room := none, teacher_user_id := some 7, course_state := none }

/-- A database holding only that course row. -/
def dbCourseT7 : DB :=
  { dbEmpty with courses := [wCourseRowT7] }

/-- A stored course row for the fixture course, with no primary teacher. -/
def wCourseRowC1 : CourseRow :=
  { id := "c1", name := "Math", google_course_id := "c1", sectionName := none,
    room := none, teacher_user_id := none, course_state := none }

/-- A database holding only that course row. -/
def dbC1 : DB :=
  { dbEmpty with courses := [wCourseRowC1] }

/-! ## Basic frame and key lemmas -/

theorem updateUserRow_id (r : UserRow) (p : GoogleUserProfile) (role : Role) :
    (updateUserRow r p role).id = r.id := rfl

theorem updateUserRow_gid (r : UserRow) (p : GoogleUserProfile) (role : Role) :
    (updateUserRow r p role).google_user_id = r.google_user_id := rfl

theorem upsertUser_courses (db : DB) (p : GoogleUserProfile) (role : Role) :
    (upsertUser db p role).1.courses = db.courses := by
  cases h : db.users.find? (fun r => r.google_user_id = p.googleUserId) <;>
    simp [upsertUser, h]

theorem upsertUser_ct (db : DB) (p : GoogleUserProfile) (role : Role) :
    (upsertUser db p role).1.course_teachers = db.course_teachers := by
  cases h : db.users.find? (fun r => r.google_user_id = p.googleUserId) <;>
    simp [upsertUser, h]

theorem upsertUser_students (db : DB) (p : GoogleUserProfile) (role : Role) :
    (upsertUser db p role).1.students = db.students := by
  cases h : db.users.find? (fun r => r.google_user_id = p.googleUserId) <;>
    simp [upsertUser, h]

theorem upsertUser_tokens (db : DB) (p : GoogleUserProfile) (role : Role) :
    (upsertUser db p role).1.user_tokens = db.user_tokens := by
  cases h : db.users.find? (fun r => r.google_user_id = p.googleUserId) <;>
    simp [upsertUser, h]

theorem upsertCourse_users (db : DB) (c : Course) (t : Option Nat) :
    (upsertCourse db c t).users = db.users := by
  unfold upsertCourse
  split
  · split <;> rfl
  · rfl

theorem upsertCourse_next (db : DB) (c : Course) (t : Option Nat) :
    (upsertCourse db c t).nextUserId = db.nextUserId := by
  unfold upsertCourse
  split
  · split <;> rfl
  · rfl

theorem upsertCourse_ct (db : DB) (c : Course) (t : Option Nat) :
    (upsertCourse db c t).course_teachers = db.course_teachers := by
  unfold upsertCourse
  split
  · split <;> rfl
  · rfl

theorem upsertCourse_students (db : DB) (c : Course) (t : Option Nat) :
    (upsertCourse db c t).students = db.students := by
  unfold upsertCourse
  split
  · split <;> rfl
  · rfl

theorem upsertCourse_tokens (db : DB) (c : Course) (t : Option Nat) :
    (upsertCourse db c t).user_tokens = db.user_tokens := by
  unfold upsertCourse
  split
  · split <;> rfl
  · rfl

theorem upsertCourseTeachers_users (db : DB) (cid : String) (ts : List Nat) :
    (upsertCourseTeachers db cid ts).users = db.users := rfl

theorem upsertCourseTeachers_next (db : DB) (cid : String) (ts : List Nat) :
    (upsertCourseTeachers db cid ts).nextUserId = db.nextUserId := rfl

theorem upsertCourseTeachers_courses (db : DB) (cid : String) (ts : List Nat) :
    (upsertCourseTeachers db cid ts).courses = db.courses := rfl

theorem upsertCourseTeachers_students (db : DB) (cid : String) (ts : List Nat) :
    (upsertCourseTeachers db cid ts).students = db.students := rfl

theorem upsertCourseTeachers_tokens (db : DB) (cid : String) (ts : List Nat) :
    (upsertCourseTeachers db cid ts).user_tokens = db.user_tokens := rfl

theorem upsertStudent_users (db : DB) (s : Student) (c : Course) (u : Nat) :
    (upsertStudent db s c u).users = db.users := by
  unfold upsertStudent
  split
  · dsimp only
    split <;> rfl
  · rfl

theorem upsertStudent_next (db : DB) (s : Student) (c : Course) (u : Nat) :
    (upsertStudent db s c u).nextUserId = db.nextUserId := by
  unfold upsertStudent
  split
  · dsimp only
    split <;> rfl
  · rfl

theorem upsertStudent_courses (db : DB) (s : Student) (c : Course) (u : Nat) :
    (upsertStudent db s c u).courses = db.courses := by
  unfold upsertStudent
  split
  · dsimp only
    split <;> rfl
  · rfl

theorem upsertStudent_ct (db : DB) (s : Student) (c : Course) (u : Nat) :
    (upsertStudent db s c u).course_teachers = db.course_teachers := by
  unfold upsertStudent
  split
  · dsimp only
    split <;> rfl
  · rfl

theorem upsertStudent_tokens (db : DB) (s : Student) (c : Course) (u : Nat) :
    (upsertStudent db s c u).user_tokens = db.user_tokens := by
  unfold upsertStudent
  split
  · dsimp only
    split <;> rfl
  · rfl

theorem storeUserTokens_users (db : DB) (u : Nat) (t : Tokens) :
    (storeUserTokens db u t).users = db.users := by
  unfold storeUserTokens
  split
  · rfl
  · dsimp only
    split <;> rfl

theorem storeUserTokens_next (db : DB) (u : Nat) (t : Tokens) :
    (storeUserTokens db u t).nextUserId = db.nextUserId := by
  unfold storeUserTokens
  split
  · rfl
  · dsimp only
    split <;> rfl

theorem storeUserTokens_courses (db : DB) (u : Nat) (t : Tokens) :
    (storeUserTokens db u t).courses = db.courses := by
  unfold storeUserTokens
  split
  · rfl
  · dsimp only
    split <;> rfl

theorem storeUserTokens_ct (db : DB) (u : Nat) (t : Tokens) :
    (storeUserTokens db u t).course_teachers = db.course_teachers := by
  unfold storeUserTokens
  split
  · rfl
  · dsimp only
    split <;> rfl

theorem storeUserTokens_students (db : DB) (u : Nat) (t : Tokens) :
    (storeUserTokens db u t).students = db.students := by
  unfold storeUserTokens
  split
  · rfl
  · dsimp only
    split <;> rfl

/-! ## Bridges: with no injected failure the bodies compute the pure forms -/

theorem tick_none (k : Nat) : tick none k = .ok (k + 1) := rfl

theorem storeUserTokensT_none (db : DB) (k u : Nat) (t : Tokens) :
    ∃ k2, storeUserTokensT none db k u t = .ok (storeUserTokens db u t, k2) := by
  cases h : optTruthy t.access_token with
  | none =>
    refine ⟨k, ?_⟩
    simp [storeUserTokensT, storeUserTokens, h]
  | some v =>
    refine ⟨k + 1, ?_⟩
    simp [storeUserTokensT, h, tick]

theorem applyTeacherUpserts_none (ts : List Teacher) : ∀ (db : DB) (k : Nat),
    ∃ k2, applyTeacherUpserts none db k ts =
      .ok ((pureTeacherUpserts db ts).1, k2, (pureTeacherUpserts db ts).2) := by
  induction ts with
  | nil => intro db k; exact ⟨k, rfl⟩
  | cons t rest ih =>
    intro db k
    cases hp : toProfile t.profile with
    | none =>
      obtain ⟨k2, h2⟩ := ih db (k)
      exact ⟨k2, by simp [applyTeacherUpserts, pureTeacherUpserts, hp, h2]⟩
    | some p =>
      obtain ⟨k2, h2⟩ := ih (upsertUser db p Role.teacher).1 (k + 1)
      refine ⟨k2, ?_⟩
      simp [applyTeacherUpserts, pureTeacherUpserts, hp, tick, h2]

theorem applyStudentUpserts_none (ss : List Student) : ∀ (db : DB) (k : Nat) (c : Course),
    ∃ k2, applyStudentUpserts none db k c ss =
      .ok (pureStudentUpserts db c ss, k2) := by
  induction ss with
  | nil => intro db k c; exact ⟨k, rfl⟩
  | cons s rest ih =>
    intro db k c
    cases hp : toProfile s.profile with
    | none =>
      obtain ⟨k2, h2⟩ := ih db k c
      exact ⟨k2, by simp [applyStudentUpserts, pureStudentUpserts, hp, h2]⟩
    | some p =>
      cases hu : optTruthy s.userId with
      | none =>
        obtain ⟨k2, h2⟩ := ih (upsertUser db p Role.student).1 (k + 1) c
        refine ⟨k2, ?_⟩
        have hskip : upsertStudent (upsertUser db p Role.student).1 s c
            (upsertUser db p Role.student).2 = (upsertUser db p Role.student).1 := by
          simp [upsertStudent, hu]
        simp [applyStudentUpserts, pureStudentUpserts, hp, hu, tick, h2, hskip]
      | some suid =>
        cases hc : optTruthy c.id with
        | none =>
          obtain ⟨k2, h2⟩ := ih (upsertUser db p Role.student).1 (k + 1) c
          refine ⟨k2, ?_⟩
          have hskip : upsertStudent (upsertUser db p Role.student).1 s c
              (upsertUser db p Role.student).2 = (upsertUser db p Role.student).1 := by
            simp [upsertStudent, hu, hc]
          simp [applyStudentUpserts, pureStudentUpserts, hp, hu, hc, tick, h2, hskip]
        | some cid =>
          obtain ⟨k2, h2⟩ :=
            ih (upsertStudent (upsertUser db p Role.student).1 s c
              (upsertUser db p Role.student).2) (k + 2) c
          refine ⟨k2, ?_⟩
          simp [applyStudentUpserts, pureStudentUpserts, hp, hu, hc, tick, h2]

theorem processBundles_none (bs : List Bundle) : ∀ (callerId : Nat) (db : DB) (k : Nat),
    ∃ k2, processBundles none callerId db k bs =
      .ok ((pureBundles callerId db bs).1, k2, (pureBundles callerId db bs).2) := by
  induction bs with
  | nil => intro callerId db k; exact ⟨k, rfl⟩
  | cons b rest ih =>
    intro callerId db k
    obtain ⟨k1, h1⟩ := applyTeacherUpserts_none b.teachers db k
    obtain ⟨k3, h3⟩ := applyStudentUpserts_none b.students
      (upsertCourseTeachers
        (upsertCourse (pureTeacherUpserts db b.teachers).1 b.course
          (some ((pureTeacherUpserts db b.teachers).2.headD callerId)))
        b.cid
        (if (pureTeacherUpserts db b.teachers).2.length > 0
          then (pureTeacherUpserts db b.teachers).2 else [callerId]))
      (k1 + 1 + 1) b.course
    obtain ⟨k4, h4⟩ := ih callerId
      (pureStudentUpserts
        (upsertCourseTeachers
          (upsertCourse (pureTeacherUpserts db b.teachers).1 b.course
            (some ((pureTeacherUpserts db b.teachers).2.headD callerId)))
          b.cid
          (if (pureTeacherUpserts db b.teachers).2.length > 0
            then (pureTeacherUpserts db b.teachers).2 else [callerId]))
        b.course b.students) k3
    refine ⟨k4, ?_⟩
    simp only [processBundles, pureBundles, h1, tick_none, h3, h4]

theorem teacherTxBody_none (up : GoogleUserProfile) (tok : Tokens)
    (bundles : List Bundle) (db : DB) :
    teacherTxBody none up tok bundles db = .ok (pureTeacherTx up tok bundles db) := by
  obtain ⟨k1, h1⟩ := storeUserTokensT_none (upsertUser db up Role.teacher).1 1
    (upsertUser db up Role.teacher).2 tok
  obtain ⟨k2, h2⟩ := processBundles_none bundles (upsertUser db up Role.teacher).2
    (storeUserTokens (upsertUser db up Role.teacher).1 (upsertUser db up Role.teacher).2 tok)
    k1
  simp [teacherTxBody, pureTeacherTx, tick, h1, h2]

theorem processStudentCourses_none (cs : List Course) :
    ∀ (up : GoogleUserProfile) (sid : Nat) (db : DB) (k : Nat),
      ∃ k2, processStudentCourses none up sid db k cs =
        .ok (pureStudentCourses up sid db cs, k2) := by
  induction cs with
  | nil => intro up sid db k; exact ⟨k, rfl⟩
  | cons c rest ih =>
    intro up sid db k
    cases hc : optTruthy c.id with
    | none =>
      obtain ⟨k2, h2⟩ := ih up sid db k
      exact ⟨k2, by simp [processStudentCourses, pureStudentCourses, hc, h2]⟩
    | some cid =>
      cases hn : optTruthy c.name with
      | none =>
        obtain ⟨k2, h2⟩ := ih up sid db k
        exact ⟨k2, by simp [processStudentCourses, pureStudentCourses, hc, hn, h2]⟩
      | some cname =>
        obtain ⟨k2, h2⟩ := ih up sid
          (upsertStudent (upsertCourse db c none) (stubStudent up) c sid) (k + 2)
        refine ⟨k2, ?_⟩
        simp [processStudentCourses, pureStudentCourses, hc, hn, tick, h2]

theorem studentTxBody_none (up : GoogleUserProfile) (tok : Tokens)
    (cs : List Course) (db : DB) :
    studentTxBody none up tok cs db = .ok (pureStudentTx up tok cs db) := by
  obtain ⟨k1, h1⟩ := storeUserTokensT_none (upsertUser db up Role.student).1 1
    (upsertUser db up Role.student).2 tok
  obtain ⟨k2, h2⟩ := processStudentCourses_none cs up (upsertUser db up Role.student).2
    (storeUserTokens (upsertUser db up Role.student).1 (upsertUser db up Role.student).2 tok)
    k1
  simp [studentTxBody, pureStudentTx, tick, h1, h2]

/-! ## Generic lemmas about the keyed upsert fold -/

section TableFoldLemmas

variable {Row Op : Type}
variable {key : Row → String} {opKey : Op → String} {upd : Row → Op → Row}
variable {fresh : Op → Nat → Row}

theorem opsFor_nil (g : String) : opsFor opKey g [] = [] := rfl

theorem opsFor_cons (g : String) (o : Op) (L : List Op) :
    opsFor opKey g (o :: L) =
      if opKey o = g then o :: opsFor opKey g L else opsFor opKey g L := by
  simp only [opsFor, List.filter_cons]
  by_cases h : opKey o = g <;> simp [h]

theorem rowFold_nil (r : Row) : rowFold upd r [] = r := rfl

theorem rowFold_cons (r : Row) (o : Op) (L : List Op) :
    rowFold upd r (o :: L) = rowFold upd (upd r o) L := rfl

theorem rowFold_key
    (hKeyUpd : ∀ r o, key r = opKey o → key (upd r o) = key r) :
    ∀ (M : List Op) (r : Row), (∀ o ∈ M, opKey o = key r) →
      key (rowFold upd r M) = key r := by
  intro M
  induction M with
  | nil => intro r _; rfl
  | cons o M ih =>
    intro r hall
    have hko : opKey o = key r := hall o (by simp)
    have hk1 : key (upd r o) = key r := hKeyUpd r o hko.symm
    rw [rowFold_cons, ih (upd r o) (fun o2 ho2 => by rw [hk1]; exact hall o2 (by simp [ho2]))]
    exact hk1

theorem memStr_nil (g : String) : memStr g [] = false := rfl

theorem memStr_cons (g x : String) (gs : List String) :
    memStr g (x :: gs) = (decide (x = g) || memStr g gs) := by
  simp [memStr]

theorem memStr_append (g : String) (gs hs : List String) :
    memStr g (gs ++ hs) = (memStr g gs || memStr g hs) := by
  simp [memStr, List.any_append]

theorem memStr_iff_mem (g : String) (gs : List String) :
    memStr g gs = true ↔ g ∈ gs := by
  simp only [memStr, List.any_eq_true, decide_eq_true_eq]
  constructor
  · rintro ⟨x, hx, rfl⟩; exact hx
  · intro h; exact ⟨g, h, rfl⟩

theorem memStr_map_key (rs : List Row) (g : String) :
    memStr g (rs.map key) = (rs.find? (fun r => key r = g)).isSome := by
  rw [Bool.eq_iff_iff, memStr_iff_mem, List.find?_isSome]
  simp [List.mem_map]

theorem newRows_nil (gs : List String) (k : Nat) :
    newRows key opKey upd fresh gs k [] = [] := rfl

theorem newRows_cons_mem (gs : List String) (k : Nat) (o : Op) (L : List Op)
    (h : memStr (opKey o) gs = true) :
    newRows key opKey upd fresh gs k (o :: L) = newRows key opKey upd fresh gs k L := by
  simp [newRows, h]

theorem newRows_cons_new (gs : List String) (k : Nat) (o : Op) (L : List Op)
    (h : memStr (opKey o) gs = false) :
    newRows key opKey upd fresh gs k (o :: L) =
      rowFold upd (fresh o k) (opsFor opKey (opKey o) L) ::
        newRows key opKey upd fresh (gs ++ [opKey o]) (k + 1) L := by
  simp [newRows, h]

theorem tstep_found (rs : List Row) (k : Nat) (o : Op) (r0 : Row)
    (h : rs.find? (fun r => key r = opKey o) = some r0) :
    tstep key opKey upd fresh (rs, k) o =
      (rs.map (fun r => if key r = opKey o then upd r o else r), k) := by
  simp [tstep, h]

theorem tstep_new (rs : List Row) (k : Nat) (o : Op)
    (h : rs.find? (fun r => key r = opKey o) = none) :
    tstep key opKey upd fresh (rs, k) o = (rs ++ [fresh o k], k + 1) := by
  simp [tstep, h]

theorem tfold_nil (st : List Row × Nat) : tfold key opKey upd fresh st [] = st := rfl

theorem tfold_cons (st : List Row × Nat) (o : Op) (L : List Op) :
    tfold key opKey upd fresh st (o :: L) =
      tfold key opKey upd fresh (tstep key opKey upd fresh st o) L := rfl

theorem tfold_eq
    (hKeyUpd : ∀ r o, key r = opKey o → key (upd r o) = key r)
    (hKeyFresh : ∀ o k, key (fresh o k) = opKey o) :
    ∀ (L : List Op) (rs : List Row) (k : Nat),
      tfold key opKey upd fresh (rs, k) L =
        (rs.map (fun r => rowFold upd r (opsFor opKey (key r) L)) ++
           newRows key opKey upd fresh (rs.map key) k L,
         k + (newRows key opKey upd fresh (rs.map key) k L).length) := by
  intro L
  induction L with
  | nil =>
    intro rs k
    simp [tfold_nil, newRows_nil, opsFor_nil, rowFold_nil]
  | cons o L ih =>
    intro rs k
    rw [tfold_cons]
    cases hf : rs.find? (fun r => key r = opKey o) with
    | some r0 =>
      have hmem : memStr (opKey o) (rs.map key) = true := by
        rw [memStr_map_key, hf]; rfl
      rw [tstep_found rs k o r0 hf, ih]
      have hkeys : (rs.map (fun r => if key r = opKey o then upd r o else r)).map key
          = rs.map key := by
        rw [List.map_map]
        refine List.map_congr_left (fun r _ => ?_)
        by_cases h : key r = opKey o <;> simp [Function.comp, h, hKeyUpd r o]
      rw [hkeys, List.map_map]
      rw [newRows_cons_mem _ _ _ _ hmem]
      rw [Prod.mk.injEq]
      refine ⟨?_, rfl⟩
      refine congrArg (fun x => x ++ newRows key opKey upd fresh (rs.map key) k L) ?_
      refine List.map_congr_left (fun r _ => ?_)
      simp only [Function.comp_apply]
      by_cases h : key r = opKey o
      · rw [opsFor_cons, if_pos h.symm, rowFold_cons, if_pos h, hKeyUpd r o h]
      · rw [opsFor_cons, if_neg h, if_neg (fun hx => h hx.symm)]
    | none =>
      have hmem : memStr (opKey o) (rs.map key) = false := by
        rw [memStr_map_key, hf]; rfl
      have hnotin : ∀ r ∈ rs, ¬ key r = opKey o := by
        intro r hr
        have := List.find?_eq_none.mp hf r hr
        simpa using this
      rw [tstep_new rs k o hf, ih]
      have hkeys : (rs ++ [fresh o k]).map key = rs.map key ++ [opKey o] := by
        simp [hKeyFresh]
      rw [hkeys, List.map_append]
      rw [newRows_cons_new _ _ _ _ hmem]
      rw [Prod.mk.injEq]
      refine ⟨?_, ?_⟩
      · rw [List.append_assoc]
        refine congrArg₂ (fun x y => x ++ y) ?_ ?_
        · refine List.map_congr_left (fun r hr => ?_)
          rw [opsFor_cons, if_neg (fun hx => hnotin r hr hx.symm)]
        · simp [hKeyFresh]
      · simp only [List.length_cons]
        omega

theorem opsFor_mem (g : String) (L : List Op) :
    ∀ o ∈ opsFor opKey g L, opKey o = g := by
  intro o ho
  have := List.mem_filter.mp ho
  simpa using this.2

theorem find?_map_keyPreserving (f : Row → Row) (hf : ∀ r, key (f r) = key r)
    (rs : List Row) (g : String) :
    (rs.map f).find? (fun r => key r = g) =
      (rs.find? (fun r => key r = g)).map f := by
  rw [List.find?_map]
  have hfun : ((fun r => decide (key r = g)) ∘ f) = (fun r : Row => decide (key r = g)) := by
    funext r
    simp [Function.comp, hf r]
  rw [hfun]

theorem map_upd_comp
    (hKeyUpd : ∀ r o, key r = opKey o → key (upd r o) = key r)
    (o : Op) (L : List Op) (rs : List Row) :
    (rs.map (fun r => if key r = opKey o then upd r o else r)).map
        (fun r => rowFold upd r (opsFor opKey (key r) L)) =
      rs.map (fun r => rowFold upd r (opsFor opKey (key r) (o :: L))) := by
  rw [List.map_map]
  refine List.map_congr_left (fun r _ => ?_)
  simp only [Function.comp_apply]
  by_cases h : key r = opKey o
  · rw [opsFor_cons, if_pos h.symm, rowFold_cons, if_pos h, hKeyUpd r o h]
  · rw [opsFor_cons, if_neg h, if_neg (fun hx => h hx.symm)]

theorem tfold_all_present
    (hKeyUpd : ∀ r o, key r = opKey o → key (upd r o) = key r) :
    ∀ (L : List Op) (rs : List Row) (k : Nat),
      (∀ o ∈ L, (rs.find? (fun r => key r = opKey o)).isSome) →
      tfold key opKey upd fresh (rs, k) L =
        (rs.map (fun r => rowFold upd r (opsFor opKey (key r) L)), k) := by
  intro L
  induction L with
  | nil =>
    intro rs k _
    simp [tfold_nil, opsFor_nil, rowFold_nil]
  | cons o L ih =>
    intro rs k hall
    have ho := hall o (by simp)
    rw [Option.isSome_iff_exists] at ho
    obtain ⟨r0, hf⟩ := ho
    rw [tfold_cons, tstep_found rs k o r0 hf]
    have hpres : ∀ r, key (if key r = opKey o then upd r o else r) = key r := by
      intro r
      by_cases h : key r = opKey o
      · simp [h, hKeyUpd r o h]
      · simp [h]
    have hall2 : ∀ o2 ∈ L,
        (((rs.map (fun r => if key r = opKey o then upd r o else r)).find?
          (fun r => key r = opKey o2)).isSome) := by
      intro o2 ho2
      rw [find?_map_keyPreserving _ hpres]
      have hs := hall o2 (by simp [ho2])
      cases hx : rs.find? (fun r => key r = opKey o2) with
      | none => rw [hx] at hs; simp at hs
      | some rr => rfl
    rw [ih _ k hall2, map_upd_comp hKeyUpd]

theorem newRows_notin_gs
    (hKeyUpd : ∀ r o, key r = opKey o → key (upd r o) = key r)
    (hKeyFresh : ∀ o k, key (fresh o k) = opKey o) :
    ∀ (L : List Op) (gs : List String) (k : Nat) (r : Row),
      r ∈ newRows key opKey upd fresh gs k L → memStr (key r) gs = false := by
  intro L
  induction L with
  | nil => intro gs k r hr; simp [newRows_nil] at hr
  | cons o L ih =>
    intro gs k r hr
    cases hmem : memStr (opKey o) gs with
    | true =>
      rw [newRows_cons_mem _ _ _ _ hmem] at hr
      exact ih gs k r hr
    | false =>
      rw [newRows_cons_new _ _ _ _ hmem] at hr
      rcases List.mem_cons.mp hr with h1 | h2
      · have hkey : key r = opKey o := by
          rw [h1]
          rw [rowFold_key hKeyUpd _ _ ?_, hKeyFresh]
          intro o2 ho2
          rw [hKeyFresh]
          exact opsFor_mem _ _ o2 ho2
        rw [hkey]
        exact hmem
      · have := ih _ _ r h2
        rw [memStr_append] at this
        exact (Bool.or_eq_false_iff.mp this).1

theorem newRows_covers
    (hKeyUpd : ∀ r o, key r = opKey o → key (upd r o) = key r)
    (hKeyFresh : ∀ o k, key (fresh o k) = opKey o) :
    ∀ (L : List Op) (gs : List String) (k : Nat) (o : Op),
      o ∈ L → memStr (opKey o) gs = false →
      ∃ r ∈ newRows key opKey upd fresh gs k L, key r = opKey o := by
  intro L
  induction L with
  | nil => intro gs k o ho _; simp at ho
  | cons o2 L ih =>
    intro gs k o ho hnot
    have hkeyhd : key (rowFold upd (fresh o2 k) (opsFor opKey (opKey o2) L)) = opKey o2 := by
      rw [rowFold_key hKeyUpd _ _ ?_, hKeyFresh]
      intro o3 ho3
      rw [hKeyFresh]
      exact opsFor_mem _ _ o3 ho3
    cases hmem : memStr (opKey o2) gs with
    | true =>
      rw [newRows_cons_mem _ _ _ _ hmem]
      rcases List.mem_cons.mp ho with h1 | h2
      · rw [h1] at hnot; rw [hnot] at hmem; exact absurd hmem (by simp)
      · exact ih gs k o h2 hnot
    | false =>
      rw [newRows_cons_new _ _ _ _ hmem]
      rcases List.mem_cons.mp ho with h1 | h2
      · refine ⟨rowFold upd (fresh o2 k) (opsFor opKey (opKey o2) L),
          List.mem_cons_self _ _, ?_⟩
        rw [hkeyhd, h1]
      · by_cases heq : opKey o = opKey o2
        · refine ⟨rowFold upd (fresh o2 k) (opsFor opKey (opKey o2) L),
            List.mem_cons_self _ _, ?_⟩
          rw [hkeyhd, heq]
        · have hnot2 : memStr (opKey o) (gs ++ [opKey o2]) = false := by
            rw [memStr_append, Bool.or_eq_false_iff]
            refine ⟨hnot, ?_⟩
            simp [memStr]
            intro h
            exact heq h.symm
          obtain ⟨r, hr, hk⟩ := ih (gs ++ [opKey o2]) (k + 1) o h2 hnot2
          exact ⟨r, List.mem_cons_of_mem _ hr, hk⟩

theorem tfold_covers
    (hKeyUpd : ∀ r o, key r = opKey o → key (upd r o) = key r)
    (hKeyFresh : ∀ o k, key (fresh o k) = opKey o)
    (L : List Op) (rs : List Row) (k : Nat) (o : Op) (ho : o ∈ L) :
    ((tfold key opKey upd fresh (rs, k) L).1.find?
      (fun r => key r = opKey o)).isSome := by
  rw [tfold_eq hKeyUpd hKeyFresh]
  rw [Option.isSome_iff_exists]
  have hsuff : ∃ r ∈ (rs.map (fun r => rowFold upd r (opsFor opKey (key r) L)) ++
      newRows key opKey upd fresh (rs.map key) k L), key r = opKey o := by
    cases hmem : memStr (opKey o) (rs.map key) with
    | true =>
      rw [memStr_iff_mem] at hmem
      obtain ⟨r0, hr0, hk0⟩ := List.mem_map.mp hmem
      refine ⟨rowFold upd r0 (opsFor opKey (key r0) L), ?_, ?_⟩
      · refine List.mem_append_left _ ?_
        exact List.mem_map.mpr ⟨r0, hr0, rfl⟩
      · rw [rowFold_key hKeyUpd _ _ (opsFor_mem _ _), hk0]
    | false =>
      obtain ⟨r, hr, hk⟩ := newRows_covers hKeyUpd hKeyFresh L (rs.map key) k o ho hmem
      exact ⟨r, List.mem_append_right _ hr, hk⟩
  obtain ⟨r, hr, hk⟩ := hsuff
  have : (List.find? (fun r => decide (key r = opKey o))
      (rs.map (fun r => rowFold upd r (opsFor opKey (key r) L)) ++
        newRows key opKey upd fresh (rs.map key) k L)).isSome := by
    rw [List.find?_isSome]
    exact ⟨r, hr, by simp [hk]⟩
  rw [Option.isSome_iff_exists] at this
  obtain ⟨r2, hr2⟩ := this
  exact ⟨r2, hr2⟩

theorem newRows_fixed
    (hKeyUpd : ∀ r o, key r = opKey o → key (upd r o) = key r)
    (hKeyFresh : ∀ o k, key (fresh o k) = opKey o)
    (hfix2 : ∀ (o : Op) (k : Nat) (M : List Op),
      rowFold upd (upd (rowFold upd (fresh o k) M) o) M = rowFold upd (fresh o k) M) :
    ∀ (L : List Op) (gs : List String) (k : Nat) (r : Row),
      r ∈ newRows key opKey upd fresh gs k L →
      rowFold upd r (opsFor opKey (key r) L) = r := by
  intro L
  induction L with
  | nil => intro gs k r hr; simp [newRows_nil] at hr
  | cons o L ih =>
    intro gs k r hr
    cases hmem : memStr (opKey o) gs with
    | true =>
      rw [newRows_cons_mem _ _ _ _ hmem] at hr
      have hfix := ih gs k r hr
      have hnotin := newRows_notin_gs hKeyUpd hKeyFresh L gs k r hr
      have hne : ¬ opKey o = key r := by
        intro heq
        rw [← heq] at hnotin
        rw [hnotin] at hmem
        exact absurd hmem (by simp)
      rw [opsFor_cons, if_neg hne]
      exact hfix
    | false =>
      rw [newRows_cons_new _ _ _ _ hmem] at hr
      rcases List.mem_cons.mp hr with h1 | h2
      · subst h1
        have hkeyhd : key (rowFold upd (fresh o k) (opsFor opKey (opKey o) L)) = opKey o := by
          rw [rowFold_key hKeyUpd _ _ ?_, hKeyFresh]
          intro o3 ho3
          rw [hKeyFresh]
          exact opsFor_mem _ _ o3 ho3
        rw [hkeyhd, opsFor_cons, if_pos rfl, rowFold_cons]
        exact hfix2 o k (opsFor opKey (opKey o) L)
      · have hfix := ih _ _ r h2
        have hnotin := newRows_notin_gs hKeyUpd hKeyFresh L _ _ r h2
        rw [memStr_append, Bool.or_eq_false_iff] at hnotin
        have hne : ¬ opKey o = key r := by
          intro heq
          have := hnotin.2
          simp [memStr, heq] at this
        rw [opsFor_cons, if_neg hne]
        exact hfix

theorem tfold_idem
    (hKeyUpd : ∀ r o, key r = opKey o → key (upd r o) = key r)
    (hKeyFresh : ∀ o k, key (fresh o k) = opKey o)
    (hfix1 : ∀ (r : Row) (M : List Op),
      rowFold upd (rowFold upd r M) M = rowFold upd r M)
    (hfix2 : ∀ (o : Op) (k : Nat) (M : List Op),
      rowFold upd (upd (rowFold upd (fresh o k) M) o) M = rowFold upd (fresh o k) M)
    (L : List Op) (rs : List Row) (k : Nat) :
    tfold key opKey upd fresh (tfold key opKey upd fresh (rs, k) L) L =
      tfold key opKey upd fresh (rs, k) L := by
  have hcov : ∀ o ∈ L,
      (((tfold key opKey upd fresh (rs, k) L).1.find?
        (fun r => key r = opKey o)).isSome) :=
    fun o ho => tfold_covers hKeyUpd hKeyFresh L rs k o ho
  have heta : ((tfold key opKey upd fresh (rs, k) L).1,
      (tfold key opKey upd fresh (rs, k) L).2) = tfold key opKey upd fresh (rs, k) L := rfl
  rw [← heta, tfold_all_present hKeyUpd L _ _ hcov]
  rw [Prod.mk.injEq]
  refine ⟨?_, rfl⟩
  have hfix : ∀ r ∈ (tfold key opKey upd fresh (rs, k) L).1,
      rowFold upd r (opsFor opKey (key r) L) = r := by
    intro r hr
    rw [tfold_eq hKeyUpd hKeyFresh] at hr
    dsimp only at hr
    rcases List.mem_append.mp hr with hA | hB
    · obtain ⟨r0, _, rfl⟩ := List.mem_map.mp hA
      rw [rowFold_key hKeyUpd _ _ (opsFor_mem _ _)]
      exact hfix1 r0 _
    · exact newRows_fixed hKeyUpd hKeyFresh hfix2 L _ _ r hB
  rw [List.map_congr_left hfix]
  simp

theorem tfold_fst_const_k
    (hf : ∀ (o : Op) (k1 k2 : Nat), fresh o k1 = fresh o k2) :
    ∀ (L : List Op) (rs : List Row) (k1 k2 : Nat),
      (tfold key opKey upd fresh (rs, k1) L).1 = (tfold key opKey upd fresh (rs, k2) L).1 := by
  intro L
  induction L with
  | nil => intro rs k1 k2; rfl
  | cons o L ih =>
    intro rs k1 k2
    rw [tfold_cons, tfold_cons]
    cases hfind : rs.find? (fun r => key r = opKey o) with
    | some r0 =>
      rw [tstep_found rs k1 o r0 hfind, tstep_found rs k2 o r0 hfind]
      exact ih _ k1 k2
    | none =>
      rw [tstep_new rs k1 o hfind, tstep_new rs k2 o hfind, hf o k1 k2]
      exact ih _ (k1 + 1) (k2 + 1)

end TableFoldLemmas

/-! ## Field-pattern lemmas for the three update clauses -/

section FoldPatterns

variable {α β : Type}

theorem foldl_lw_idem (f : α → β) (L : List α) (b : β) :
    L.foldl (fun _ o => f o) (L.foldl (fun _ o => f o) b) =
      L.foldl (fun _ o => f o) b := by
  cases L <;> rfl

theorem foldl_orElse_shift (g : α → Option β) :
    ∀ (L : List α) (a : Option β),
      L.foldl (fun acc o => g o <|> acc) a =
        ((L.foldl (fun acc o => g o <|> acc) none) <|> a) := by
  intro L
  induction L with
  | nil => intro a; cases a <;> rfl
  | cons o L ih =>
    intro a
    show L.foldl (fun acc o => g o <|> acc) (g o <|> a) =
      ((L.foldl (fun acc o => g o <|> acc) (g o <|> none)) <|> a)
    rw [ih (g o <|> a), ih (g o <|> none)]
    cases L.foldl (fun acc o => g o <|> acc) none <;> cases g o <;> cases a <;> rfl

theorem foldl_orElse_idem (g : α → Option β) (L : List α) (a : Option β) :
    L.foldl (fun acc o => g o <|> acc) (L.foldl (fun acc o => g o <|> acc) a) =
      L.foldl (fun acc o => g o <|> acc) a := by
  rw [foldl_orElse_shift g L (L.foldl (fun acc o => g o <|> acc) a),
    foldl_orElse_shift g L a]
  cases L.foldl (fun acc o => g o <|> acc) none <;> cases a <;> rfl

theorem foldl_orElse_absorb (g : α → Option β) (L : List α) (x : Option β) :
    L.foldl (fun acc o => g o <|> acc) (x <|> L.foldl (fun acc o => g o <|> acc) x) =
      L.foldl (fun acc o => g o <|> acc) x := by
  rw [foldl_orElse_shift g L x,
    foldl_orElse_shift g L (x <|> ((L.foldl (fun acc o => g o <|> acc) none) <|> x))]
  cases L.foldl (fun acc o => g o <|> acc) none <;> cases x <;> rfl

theorem foldl_role_teacher (f : α → Role) (L : List α) :
    L.foldl (fun a o => if a = Role.teacher then a else f o) Role.teacher =
      Role.teacher := by
  induction L with
  | nil => rfl
  | cons o L ih =>
    show L.foldl (fun a o => if a = Role.teacher then a else f o)
      (if Role.teacher = Role.teacher then Role.teacher else f o) = Role.teacher
    rw [if_pos rfl]
    exact ih

theorem foldl_role_idem (f : α → Role) (L : List α) (a : Role) :
    L.foldl (fun a o => if a = Role.teacher then a else f o)
        (L.foldl (fun a o => if a = Role.teacher then a else f o) a) =
      L.foldl (fun a o => if a = Role.teacher then a else f o) a := by
  cases a with
  | teacher => simp only [foldl_role_teacher]
  | student =>
    cases h : L.foldl (fun a o => if a = Role.teacher then a else f o) Role.student with
    | teacher => rw [foldl_role_teacher]
    | student => exact h

theorem foldl_role_absorb (f : α → Role) (L : List α) (v : Role) :
    L.foldl (fun a o => if a = Role.teacher then a else f o)
        (if L.foldl (fun a o => if a = Role.teacher then a else f o) v = Role.teacher
          then L.foldl (fun a o => if a = Role.teacher then a else f o) v else v) =
      L.foldl (fun a o => if a = Role.teacher then a else f o) v := by
  cases h : L.foldl (fun a o => if a = Role.teacher then a else f o) v with
  | teacher =>
    rw [if_pos rfl]
    exact foldl_role_teacher f L
  | student =>
    rw [if_neg (by simp)]
    exact h

end FoldPatterns

/-! ## Instantiation: users table -/

theorem ukey_upd (r : UserRow) (o : UOp) : ukey (uupd r o) = ukey r := rfl

theorem ukey_fresh (o : UOp) (k : Nat) : ukey (ufresh o k) = uopKey o := rfl

theorem uRowFold_fields (M : List UOp) : ∀ (r : UserRow),
    rowFold uupd r M =
      { id := r.id
        google_user_id := r.google_user_id
        email := M.foldl (fun a o => normalizeString o.p.email <|> a) r.email
        name := M.foldl (fun _ o => o.p.name) r.name
        role := M.foldl (fun a o => if a = Role.teacher then a else o.role) r.role
        avatar_url := M.foldl (fun a o => o.p.avatarUrl <|> a) r.avatar_url } := by
  induction M with
  | nil => intro r; rfl
  | cons o M ih =>
    intro r
    rw [rowFold_cons, ih]
    rfl

theorem uRowFold_idem (r : UserRow) (M : List UOp) :
    rowFold uupd (rowFold uupd r M) M = rowFold uupd r M := by
  rw [uRowFold_fields M r, uRowFold_fields M]
  simp only [UserRow.mk.injEq]
  simp [foldl_lw_idem, foldl_orElse_idem, foldl_role_idem]

theorem uRowFold_fresh_absorb (o : UOp) (k : Nat) (M : List UOp) :
    rowFold uupd (uupd (rowFold uupd (ufresh o k) M) o) M =
      rowFold uupd (ufresh o k) M := by
  rw [uRowFold_fields M (ufresh o k)]
  rw [uRowFold_fields M (uupd _ o)]
  simp only [uupd, updateUserRow, ufresh, freshUserRow, UserRow.mk.injEq]
  simp [foldl_lw_idem, foldl_orElse_absorb, foldl_role_absorb]

/-! ## Instantiation: courses table -/

theorem ckey_upd (r : CourseRow) (o : COp) : ckey (cupd r o) = ckey r := rfl

theorem ckey_fresh (o : COp) (k : Nat) : ckey (cfresh o k) = copKey o := rfl

theorem cfresh_const (o : COp) (k1 k2 : Nat) : cfresh o k1 = cfresh o k2 := rfl

theorem cRowFold_fields (M : List COp) : ∀ (r : CourseRow),
    rowFold cupd r M =
      { id := r.id
        name := M.foldl (fun _ o => o.cname) r.name
        google_course_id := M.foldl (fun _ o => o.cid) r.google_course_id
        sectionName := M.foldl (fun _ o => o.course.sectionName) r.sectionName
        room := M.foldl (fun _ o => o.course.room) r.room
        teacher_user_id := M.foldl (fun a o => o.primary <|> a) r.teacher_user_id
        course_state := M.foldl (fun _ o => o.course.courseState) r.course_state } := by
  induction M with
  | nil => intro r; rfl
  | cons o M ih =>
    intro r
    rw [rowFold_cons, ih]
    rfl

theorem cRowFold_idem (r : CourseRow) (M : List COp) :
    rowFold cupd (rowFold cupd r M) M = rowFold cupd r M := by
  rw [cRowFold_fields M r, cRowFold_fields M]
  simp only [CourseRow.mk.injEq]
  simp [foldl_lw_idem, foldl_orElse_idem]

theorem cRowFold_fresh_absorb (o : COp) (k : Nat) (M : List COp) :
    rowFold cupd (cupd (rowFold cupd (cfresh o k) M) o) M =
      rowFold cupd (cfresh o k) M := by
  rw [cRowFold_fields M (cfresh o k)]
  rw [cRowFold_fields M (cupd _ o)]
  simp only [cupd, updateCourseRow, cfresh, freshCourseRow, CourseRow.mk.injEq]
  simp [foldl_lw_idem, foldl_orElse_absorb]

/-! ## Instantiation: students table -/

theorem skey_upd (r : StudentRow) (o : SOp) : skey (supd r o) = skey r := rfl

theorem skey_fresh (o : SOp) (k : Nat) : skey (sfresh o k) = sopKey o := rfl

theorem sfresh_const (o : SOp) (k1 k2 : Nat) : sfresh o k1 = sfresh o k2 := rfl

theorem sRowFold_fields (M : List SOp) : ∀ (r : StudentRow),
    rowFold supd r M =
      { id := r.id
        name := M.foldl (fun _ o => studentFullName o.s) r.name
        cohort := M.foldl (fun _ o => o.c.sectionName <|> o.c.name) r.cohort
        course_id := M.foldl (fun _ o => o.cid) r.course_id
        user_id := M.foldl (fun _ o => o.uid) r.user_id
        google_user_id := M.foldl (fun _ o => o.suid) r.google_user_id
        email := M.foldl
          (fun _ o => normalizeString (o.s.profile.bind (fun pr => pr.emailAddress)))
          r.email } := by
  induction M with
  | nil => intro r; rfl
  | cons o M ih =>
    intro r
    rw [rowFold_cons, ih]
    rfl

theorem sRowFold_idem (r : StudentRow) (M : List SOp) :
    rowFold supd (rowFold supd r M) M = rowFold supd r M := by
  rw [sRowFold_fields M r, sRowFold_fields M]
  simp only [StudentRow.mk.injEq]
  simp [foldl_lw_idem]

theorem sRowFold_fresh_absorb (o : SOp) (k : Nat) (M : List SOp) :
    rowFold supd (supd (rowFold supd (sfresh o k) M) o) M =
      rowFold supd (sfresh o k) M := by
  rw [sRowFold_fields M (sfresh o k)]
  rw [sRowFold_fields M (supd _ o)]
  simp only [supd, sfresh, StudentRow.mk.injEq]

/-! ## Users table: correspondence with the generic fold and id stability -/

theorem upsertUser_tstep (db : DB) (p : GoogleUserProfile) (role : Role) :
    ((upsertUser db p role).1.users, (upsertUser db p role).1.nextUserId) =
      tstep ukey uopKey uupd ufresh (db.users, db.nextUserId) ⟨p, role⟩ := by
  cases h : db.users.find? (fun r => r.google_user_id = p.googleUserId) with
  | some r => simp [upsertUser, tstep, ukey, uopKey, uupd, ufresh, h]
  | none => simp [upsertUser, tstep, ukey, uopKey, uupd, ufresh, h]

theorem users_map_condUpd_find (us : List UserRow) (p : GoogleUserProfile)
    (role : Role) (g : String) :
    (us.map (fun q =>
        if q.google_user_id = p.googleUserId then updateUserRow q p role else q)).find?
        (fun r => r.google_user_id = g) =
      (us.find? (fun r => r.google_user_id = g)).map (fun q =>
        if q.google_user_id = p.googleUserId then updateUserRow q p role else q) := by
  rw [List.find?_map]
  have hfun : ((fun r : UserRow => decide (r.google_user_id = g)) ∘ (fun q =>
      if q.google_user_id = p.googleUserId then updateUserRow q p role else q)) =
      (fun r : UserRow => decide (r.google_user_id = g)) := by
    funext q
    by_cases hq : q.google_user_id = p.googleUserId <;>
      simp [Function.comp, hq, updateUserRow]
  rw [hfun]

theorem idOf_upsertUser (db : DB) (p : GoogleUserProfile) (role : Role) (g : String) :
    idOf (upsertUser db p role).1.users g =
      if g = p.googleUserId then some (upsertUser db p role).2
      else idOf db.users g := by
  cases h : db.users.find? (fun r => r.google_user_id = p.googleUserId) with
  | some r =>
    have husers : (upsertUser db p role).1.users = db.users.map (fun q =>
        if q.google_user_id = p.googleUserId then updateUserRow q p role else q) := by
      simp [upsertUser, h]
    have hret : (upsertUser db p role).2 = r.id := by simp [upsertUser, h]
    rw [husers, hret, idOf, users_map_condUpd_find, Option.map_map]
    by_cases hg : g = p.googleUserId
    · subst hg
      rw [h]
      have hr : r.google_user_id = p.googleUserId := by
        have := List.find?_some h
        simpa using this
      simp [Function.comp, hr, updateUserRow]
    · rw [if_neg hg, idOf]
      congr 1
      funext q
      by_cases hq : q.google_user_id = p.googleUserId <;>
        simp [Function.comp, hq, updateUserRow]
  | none =>
    have husers : (upsertUser db p role).1.users = db.users ++ [freshUserRow p role db.nextUserId] := by
      simp [upsertUser, h]
    have hret : (upsertUser db p role).2 = db.nextUserId := by simp [upsertUser, h]
    rw [husers, hret, idOf, List.find?_append]
    by_cases hg : g = p.googleUserId
    · subst hg
      rw [h]
      simp [freshUserRow, idOf]
    · rw [if_neg hg, idOf]
      have hnone : ([freshUserRow p role db.nextUserId].find?
          (fun r => r.google_user_id = g)) = none := by
        simp [freshUserRow]
        exact fun hx => hg hx.symm
      rw [hnone]
      cases db.users.find? (fun r => r.google_user_id = g) <;> rfl

theorem upsertUser_ret_of_present (db : DB) (p : GoogleUserProfile) (role : Role)
    (i : Nat) (h : idOf db.users p.googleUserId = some i) :
    (upsertUser db p role).2 = i := by
  cases hf : db.users.find? (fun r => r.google_user_id = p.googleUserId) with
  | some r =>
    have : idOf db.users p.googleUserId = some r.id := by rw [idOf, hf]; rfl
    rw [this] at h
    have hret : (upsertUser db p role).2 = r.id := by simp [upsertUser, hf]
    rw [hret]
    exact (Option.some.injEq _ _ ▸ h)
  | none =>
    rw [idOf, hf] at h
    simp at h

theorem idOf_upsertUser_mono (db : DB) (p : GoogleUserProfile) (role : Role)
    (g : String) (i : Nat) (h : idOf db.users g = some i) :
    idOf (upsertUser db p role).1.users g = some i := by
  rw [idOf_upsertUser]
  by_cases hg : g = p.googleUserId
  · rw [if_pos hg]
    rw [hg] at h
    rw [upsertUser_ret_of_present db p role i h]
  · rw [if_neg hg]
    exact h

theorem upsertUser_establishes (db : DB) (p : GoogleUserProfile) (role : Role) :
    idOf (upsertUser db p role).1.users p.googleUserId =
      some (upsertUser db p role).2 := by
  rw [idOf_upsertUser, if_pos rfl]

theorem idOf_pureTeacherUpserts (ts : List Teacher) : ∀ (db : DB) (g : String) (i : Nat),
    idOf db.users g = some i →
    idOf (pureTeacherUpserts db ts).1.users g = some i := by
  induction ts with
  | nil => intro db g i h; exact h
  | cons t rest ih =>
    intro db g i h
    cases hp : toProfile t.profile with
    | none => simpa [pureTeacherUpserts, hp] using ih db g i h
    | some p =>
      have h1 := idOf_upsertUser_mono db p Role.teacher g i h
      have h2 := ih (upsertUser db p Role.teacher).1 g i h1
      simpa [pureTeacherUpserts, hp] using h2

theorem idOf_pureStudentUpserts (ss : List Student) :
    ∀ (db : DB) (c : Course) (g : String) (i : Nat),
      idOf db.users g = some i →
      idOf (pureStudentUpserts db c ss).users g = some i := by
  induction ss with
  | nil => intro db c g i h; exact h
  | cons s rest ih =>
    intro db c g i h
    cases hp : toProfile s.profile with
    | none => simpa [pureStudentUpserts, hp] using ih db c g i h
    | some p =>
      have h1 := idOf_upsertUser_mono db p Role.student g i h
      have h2 : idOf (upsertStudent (upsertUser db p Role.student).1 s c
          (upsertUser db p Role.student).2).users g = some i := by
        rw [upsertStudent_users]
        exact h1
      have h3 := ih (upsertStudent (upsertUser db p Role.student).1 s c
        (upsertUser db p Role.student).2) c g i h2
      simpa [pureStudentUpserts, hp] using h3

theorem idOf_pureBundles (bs : List Bundle) : ∀ (callerId : Nat) (db : DB) (g : String) (i : Nat),
    idOf db.users g = some i →
    idOf (pureBundles callerId db bs).1.users g = some i := by
  induction bs with
  | nil => intro callerId db g i h; exact h
  | cons b rest ih =>
    intro callerId db g i h
    have h1 := idOf_pureTeacherUpserts b.teachers db g i h
    have h2 : idOf (upsertCourse (pureTeacherUpserts db b.teachers).1 b.course
        (some ((pureTeacherUpserts db b.teachers).2.headD callerId))).users g = some i := by
      rw [upsertCourse_users]; exact h1
    have h3 : idOf (upsertCourseTeachers
        (upsertCourse (pureTeacherUpserts db b.teachers).1 b.course
          (some ((pureTeacherUpserts db b.teachers).2.headD callerId)))
        b.cid
        (if (pureTeacherUpserts db b.teachers).2.length > 0
          then (pureTeacherUpserts db b.teachers).2 else [callerId])).users g = some i := by
      rw [upsertCourseTeachers_users]; exact h2
    have h4 := idOf_pureStudentUpserts b.students _ b.course g i h3
    have h5 := ih callerId (pureStudentUpserts
      (upsertCourseTeachers
        (upsertCourse (pureTeacherUpserts db b.teachers).1 b.course
          (some ((pureTeacherUpserts db b.teachers).2.headD callerId)))
        b.cid
        (if (pureTeacherUpserts db b.teachers).2.length > 0
          then (pureTeacherUpserts db b.teachers).2 else [callerId]))
      b.course b.students) g i h4
    simpa [pureBundles] using h5

/-! ## Users-table decomposition of the pure bodies -/

theorem tfold_append {Row Op : Type} (key : Row → String) (opKey : Op → String)
    (upd : Row → Op → Row) (fresh : Op → Nat → Row) (st : List Row × Nat)
    (L1 L2 : List Op) :
    tfold key opKey upd fresh st (L1 ++ L2) =
      tfold key opKey upd fresh (tfold key opKey upd fresh st L1) L2 := by
  simp [tfold, List.foldl_append]

theorem resolvedTeacherProfiles_cons_none (t : Teacher) (rest : List Teacher)
    (h : toProfile t.profile = none) :
    resolvedTeacherProfiles (t :: rest) = resolvedTeacherProfiles rest := by
  simp [resolvedTeacherProfiles, h]

theorem resolvedTeacherProfiles_cons_some (t : Teacher) (rest : List Teacher)
    (p : GoogleUserProfile) (h : toProfile t.profile = some p) :
    resolvedTeacherProfiles (t :: rest) = p :: resolvedTeacherProfiles rest := by
  simp [resolvedTeacherProfiles, h]

theorem resolvedStudentProfiles_cons_none (s : Student) (rest : List Student)
    (h : toProfile s.profile = none) :
    resolvedStudentProfiles (s :: rest) = resolvedStudentProfiles rest := by
  simp [resolvedStudentProfiles, h]

theorem resolvedStudentProfiles_cons_some (s : Student) (rest : List Student)
    (p : GoogleUserProfile) (h : toProfile s.profile = some p) :
    resolvedStudentProfiles (s :: rest) = p :: resolvedStudentProfiles rest := by
  simp [resolvedStudentProfiles, h]

theorem pureTeacherUpserts_frames (ts : List Teacher) : ∀ (db : DB),
    (pureTeacherUpserts db ts).1.courses = db.courses ∧
    (pureTeacherUpserts db ts).1.course_teachers = db.course_teachers ∧
    (pureTeacherUpserts db ts).1.students = db.students ∧
    (pureTeacherUpserts db ts).1.user_tokens = db.user_tokens := by
  induction ts with
  | nil => intro db; exact ⟨rfl, rfl, rfl, rfl⟩
  | cons t rest ih =>
    intro db
    cases hp : toProfile t.profile with
    | none => simpa [pureTeacherUpserts, hp] using ih db
    | some p =>
      have := ih (upsertUser db p Role.teacher).1
      simp only [pureTeacherUpserts, hp]
      refine ⟨?_, ?_, ?_, ?_⟩
      · rw [this.1, upsertUser_courses]
      · rw [this.2.1, upsertUser_ct]
      · rw [this.2.2.1, upsertUser_students]
      · rw [this.2.2.2, upsertUser_tokens]

theorem pureTeacherUpserts_users (ts : List Teacher) : ∀ (db : DB),
    ((pureTeacherUpserts db ts).1.users, (pureTeacherUpserts db ts).1.nextUserId) =
      tfold ukey uopKey uupd ufresh (db.users, db.nextUserId)
        ((resolvedTeacherProfiles ts).map (fun p => ⟨p, Role.teacher⟩)) := by
  induction ts with
  | nil => intro db; rfl
  | cons t rest ih =>
    intro db
    cases hp : toProfile t.profile with
    | none =>
      rw [resolvedTeacherProfiles_cons_none t rest hp]
      simpa [pureTeacherUpserts, hp] using ih db
    | some p =>
      rw [resolvedTeacherProfiles_cons_some t rest p hp]
      have h1 := ih (upsertUser db p Role.teacher).1
      simp only [pureTeacherUpserts, hp, List.map_cons, tfold_cons]
      rw [← upsertUser_tstep]
      exact h1

theorem pureStudentUpserts_frames (ss : List Student) : ∀ (db : DB) (c : Course),
    (pureStudentUpserts db c ss).courses = db.courses ∧
    (pureStudentUpserts db c ss).course_teachers = db.course_teachers ∧
    (pureStudentUpserts db c ss).user_tokens = db.user_tokens := by
  induction ss with
  | nil => intro db c; exact ⟨rfl, rfl, rfl⟩
  | cons s rest ih =>
    intro db c
    cases hp : toProfile s.profile with
    | none => simpa [pureStudentUpserts, hp] using ih db c
    | some p =>
      have := ih (upsertStudent (upsertUser db p Role.student).1 s c
        (upsertUser db p Role.student).2) c
      simp only [pureStudentUpserts, hp]
      refine ⟨?_, ?_, ?_⟩
      · rw [this.1, upsertStudent_courses, upsertUser_courses]
      · rw [this.2.1, upsertStudent_ct, upsertUser_ct]
      · rw [this.2.2, upsertStudent_tokens, upsertUser_tokens]

theorem pureStudentUpserts_users (ss : List Student) : ∀ (db : DB) (c : Course),
    ((pureStudentUpserts db c ss).users, (pureStudentUpserts db c ss).nextUserId) =
      tfold ukey uopKey uupd ufresh (db.users, db.nextUserId)
        ((resolvedStudentProfiles ss).map (fun p => ⟨p, Role.student⟩)) := by
  induction ss with
  | nil => intro db c; rfl
  | cons s rest ih =>
    intro db c
    cases hp : toProfile s.profile with
    | none =>
      rw [resolvedStudentProfiles_cons_none s rest hp]
      simpa [pureStudentUpserts, hp] using ih db c
    | some p =>
      rw [resolvedStudentProfiles_cons_some s rest p hp]
      have h1 := ih (upsertStudent (upsertUser db p Role.student).1 s c
        (upsertUser db p Role.student).2) c
      simp only [pureStudentUpserts, hp, List.map_cons, tfold_cons]
      rw [← upsertUser_tstep]
      have hs1 : (upsertStudent (upsertUser db p Role.student).1 s c
          (upsertUser db p Role.student).2).users = (upsertUser db p Role.student).1.users :=
        upsertStudent_users _ _ _ _
      have hs2 : (upsertStudent (upsertUser db p Role.student).1 s c
          (upsertUser db p Role.student).2).nextUserId
            = (upsertUser db p Role.student).1.nextUserId :=
        upsertStudent_next _ _ _ _
      rw [hs1, hs2] at h1
      exact h1

theorem pureBundles_users (bs : List Bundle) : ∀ (callerId : Nat) (db : DB),
    ((pureBundles callerId db bs).1.users, (pureBundles callerId db bs).1.nextUserId) =
      tfold ukey uopKey uupd ufresh (db.users, db.nextUserId)
        ((bs.map bundleUserOps).flatten) := by
  induction bs with
  | nil => intro callerId db; rfl
  | cons b rest ih =>
    intro callerId db
    rw [List.map_cons, List.flatten_cons, bundleUserOps, tfold_append, tfold_append]
    have h1 := pureTeacherUpserts_users b.teachers db
    have h2 := pureStudentUpserts_users b.students
      (upsertCourseTeachers
        (upsertCourse (pureTeacherUpserts db b.teachers).1 b.course
          (some ((pureTeacherUpserts db b.teachers).2.headD callerId)))
        b.cid
        (if (pureTeacherUpserts db b.teachers).2.length > 0
          then (pureTeacherUpserts db b.teachers).2 else [callerId]))
      b.course
    have h3 := ih callerId (pureStudentUpserts
      (upsertCourseTeachers
        (upsertCourse (pureTeacherUpserts db b.teachers).1 b.course
          (some ((pureTeacherUpserts db b.teachers).2.headD callerId)))
        b.cid
        (if (pureTeacherUpserts db b.teachers).2.length > 0
          then (pureTeacherUpserts db b.teachers).2 else [callerId]))
      b.course b.students)
    have hmid : ((upsertCourseTeachers
        (upsertCourse (pureTeacherUpserts db b.teachers).1 b.course
          (some ((pureTeacherUpserts db b.teachers).2.headD callerId)))
        b.cid
        (if (pureTeacherUpserts db b.teachers).2.length > 0
          then (pureTeacherUpserts db b.teachers).2 else [callerId])).users,
        (upsertCourseTeachers
          (upsertCourse (pureTeacherUpserts db b.teachers).1 b.course
            (some ((pureTeacherUpserts db b.teachers).2.headD callerId)))
          b.cid
          (if (pureTeacherUpserts db b.teachers).2.length > 0
            then (pureTeacherUpserts db b.teachers).2 else [callerId])).nextUserId) =
        ((pureTeacherUpserts db b.teachers).1.users,
          (pureTeacherUpserts db b.teachers).1.nextUserId) := by
      rw [upsertCourseTeachers_users, upsertCourseTeachers_next,
        upsertCourse_users, upsertCourse_next]
    rw [hmid] at h2
    rw [h2] at h3
    rw [h1] at h3
    simp only [pureBundles]
    exact h3

theorem pureTeacherTx_users (up : GoogleUserProfile) (tok : Tokens)
    (bs : List Bundle) (db : DB) :
    ((pureTeacherTx up tok bs db).1.users, (pureTeacherTx up tok bs db).1.nextUserId) =
      tfold ukey uopKey uupd ufresh (db.users, db.nextUserId) (teacherUserOps up bs) := by
  have h1 := pureBundles_users bs (upsertUser db up Role.teacher).2
    (storeUserTokens (upsertUser db up Role.teacher).1 (upsertUser db up Role.teacher).2 tok)
  have hmid : ((storeUserTokens (upsertUser db up Role.teacher).1
      (upsertUser db up Role.teacher).2 tok).users,
      (storeUserTokens (upsertUser db up Role.teacher).1
        (upsertUser db up Role.teacher).2 tok).nextUserId) =
      ((upsertUser db up Role.teacher).1.users,
        (upsertUser db up Role.teacher).1.nextUserId) := by
    rw [storeUserTokens_users, storeUserTokens_next]
  rw [hmid, upsertUser_tstep] at h1
  rw [teacherUserOps, tfold_cons]
  simpa [pureTeacherTx] using h1

/-! ## Returned teacher ids, resolved against a later users table -/

theorem pureTeacherUpserts_ids (ts : List Teacher) : ∀ (db : DB) (us : List UserRow),
    (∀ g i, idOf (pureTeacherUpserts db ts).1.users g = some i → idOf us g = some i) →
    (pureTeacherUpserts db ts).2 =
      (resolvedTeacherProfiles ts).map (fun p => idOfD us p.googleUserId) := by
  induction ts with
  | nil => intro db us _; rfl
  | cons t rest ih =>
    intro db us hstab
    cases hp : toProfile t.profile with
    | none =>
      rw [resolvedTeacherProfiles_cons_none t rest hp]
      have hstab2 : ∀ g i, idOf (pureTeacherUpserts db rest).1.users g = some i →
          idOf us g = some i := by
        intro g i h
        apply hstab g i
        simpa [pureTeacherUpserts, hp] using h
      simpa [pureTeacherUpserts, hp] using ih db us hstab2
    | some p =>
      rw [resolvedTeacherProfiles_cons_some t rest p hp]
      have hstab2 : ∀ g i,
          idOf (pureTeacherUpserts (upsertUser db p Role.teacher).1 rest).1.users g = some i →
          idOf us g = some i := by
        intro g i h
        apply hstab g i
        simpa [pureTeacherUpserts, hp] using h
      have htail := ih (upsertUser db p Role.teacher).1 us hstab2
      have hhead : idOf us p.googleUserId = some (upsertUser db p Role.teacher).2 := by
        apply hstab2
        exact idOf_pureTeacherUpserts rest _ _ _ (upsertUser_establishes db p Role.teacher)
      have hD : idOfD us p.googleUserId = (upsertUser db p Role.teacher).2 := by
        rw [idOfD, hhead]; rfl
      simp only [pureTeacherUpserts, hp, List.map_cons, hD]
      rw [← htail]

/-! ## Courses and students: correspondence with the generic fold -/

theorem upsertCourse_tstep (db : DB) (c : Course) (prim : Option Nat)
    (cid cname : String) (k : Nat)
    (hid : optTruthy c.id = some cid) (hname : optTruthy c.name = some cname) :
    (upsertCourse db c prim).courses =
      (tstep ckey copKey cupd cfresh (db.courses, k) ⟨c, cid, cname, prim⟩).1 := by
  unfold upsertCourse
  rw [hid, hname]
  cases h : db.courses.find? (fun r => r.id = cid) with
  | some r => simp [tstep, ckey, copKey, cupd, cfresh, h]
  | none => simp [tstep, ckey, copKey, cupd, cfresh, h]

theorem upsertStudent_tstep (db : DB) (s : Student) (c : Course) (uid : Nat)
    (suid cid : String) (k : Nat)
    (hsu : optTruthy s.userId = some suid) (hc : optTruthy c.id = some cid) :
    (upsertStudent db s c uid).students =
      (tstep skey sopKey supd sfresh (db.students, k) ⟨s, c, suid, cid, uid⟩).1 := by
  unfold upsertStudent
  rw [hsu, hc]
  cases h : db.students.find? (fun r => r.id = studentRowId cid suid) with
  | some r => simp [tstep, skey, sopKey, supd, sfresh, h]
  | none => simp [tstep, skey, sopKey, supd, sfresh, h]

theorem upsertStudent_skip (db : DB) (s : Student) (c : Course) (uid : Nat)
    (hsu : optTruthy s.userId = none) :
    upsertStudent db s c uid = db := by
  simp [upsertStudent, hsu]

theorem pureStudentUpserts_students (ss : List Student) :
    ∀ (db : DB) (c : Course) (cid : String) (us : List UserRow),
      optTruthy c.id = some cid →
      (∀ g i, idOf (pureStudentUpserts db c ss).users g = some i → idOf us g = some i) →
      (pureStudentUpserts db c ss).students =
        (tfold skey sopKey supd sfresh (db.students, 0) (courseStudentOps us c cid ss)).1 := by
  induction ss with
  | nil => intro db c cid us _ _; rfl
  | cons s rest ih =>
    intro db c cid us hc hstab
    cases hp : toProfile s.profile with
    | none =>
      have hops : courseStudentOps us c cid (s :: rest) = courseStudentOps us c cid rest := by
        simp [courseStudentOps, hp]
      rw [hops]
      have hstab2 : ∀ g i, idOf (pureStudentUpserts db c rest).users g = some i →
          idOf us g = some i := by
        intro g i h
        apply hstab g i
        simpa [pureStudentUpserts, hp] using h
      simpa [pureStudentUpserts, hp] using ih db c cid us hc hstab2
    | some p =>
      cases hsu : optTruthy s.userId with
      | none =>
        have hops : courseStudentOps us c cid (s :: rest) = courseStudentOps us c cid rest := by
          simp [courseStudentOps, hp, hsu]
        rw [hops]
        have hskip : upsertStudent (upsertUser db p Role.student).1 s c
            (upsertUser db p Role.student).2 = (upsertUser db p Role.student).1 :=
          upsertStudent_skip _ _ _ _ hsu
        have hstab2 : ∀ g i,
            idOf (pureStudentUpserts (upsertUser db p Role.student).1 c rest).users g = some i →
            idOf us g = some i := by
          intro g i h
          apply hstab g i
          simpa [pureStudentUpserts, hp, hskip] using h
        have := ih (upsertUser db p Role.student).1 c cid us hc hstab2
        rw [upsertUser_students] at this
        simpa [pureStudentUpserts, hp, hskip] using this
      | some suid =>
        have hops : courseStudentOps us c cid (s :: rest) =
            (⟨s, c, suid, cid, idOfD us p.googleUserId⟩ : SOp) ::
              courseStudentOps us c cid rest := by
          simp [courseStudentOps, hp, hsu]
        rw [hops, tfold_cons]
        have hstab2 : ∀ g i,
            idOf (pureStudentUpserts (upsertStudent (upsertUser db p Role.student).1 s c
              (upsertUser db p Role.student).2) c rest).users g = some i →
            idOf us g = some i := by
          intro g i h
          apply hstab g i
          simpa [pureStudentUpserts, hp] using h
        have hid : idOfD us p.googleUserId = (upsertUser db p Role.student).2 := by
          have h0 : idOf (upsertUser db p Role.student).1.users p.googleUserId =
              some (upsertUser db p Role.student).2 := upsertUser_establishes db p Role.student
          have h1 : idOf (upsertStudent (upsertUser db p Role.student).1 s c
              (upsertUser db p Role.student).2).users p.googleUserId =
              some (upsertUser db p Role.student).2 := by
            rw [upsertStudent_users]; exact h0
          have h2 := idOf_pureStudentUpserts rest _ c _ _ h1
          have h3 := hstab2 _ _ h2
          rw [idOfD, h3]; rfl
        have hcorr := upsertStudent_tstep (upsertUser db p Role.student).1 s c
          (upsertUser db p Role.student).2 suid cid 0 hsu hc
        rw [upsertUser_students] at hcorr
        have ihh := ih (upsertStudent (upsertUser db p Role.student).1 s c
          (upsertUser db p Role.student).2) c cid us hc hstab2
        rw [hcorr] at ihh
        have hconst := @tfold_fst_const_k _ _ skey sopKey supd
          sfresh sfresh_const (courseStudentOps us c cid rest)
          (tstep skey sopKey supd sfresh (db.students, 0)
            ⟨s, c, suid, cid, (upsertUser db p Role.student).2⟩).1
          0 (tstep skey sopKey supd sfresh (db.students, 0)
            ⟨s, c, suid, cid, (upsertUser db p Role.student).2⟩).2
        rw [hid]
        have hpair : ((tstep skey sopKey supd sfresh (db.students, 0)
            ⟨s, c, suid, cid, (upsertUser db p Role.student).2⟩).1,
            (tstep skey sopKey supd sfresh (db.students, 0)
              ⟨s, c, suid, cid, (upsertUser db p Role.student).2⟩).2) =
            tstep skey sopKey supd sfresh (db.students, 0)
              ⟨s, c, suid, cid, (upsertUser db p Role.student).2⟩ := rfl
        rw [← hpair]
        rw [← hconst]
        simpa [pureStudentUpserts, hp] using ihh

/-! ## Per-table decomposition of the bundle merge loop -/

theorem upsertCourseTeachers_ctApply (db : DB) (cid : String) (tids : List Nat) :
    (upsertCourseTeachers db cid tids).course_teachers =
      ctApply db.course_teachers (cid, tids) := rfl

theorem pureBundles_courses (bs : List Bundle) :
    ∀ (callerId : Nat) (db : DB) (us : List UserRow),
      GoodBundles bs →
      (∀ g i, idOf (pureBundles callerId db bs).1.users g = some i → idOf us g = some i) →
      (pureBundles callerId db bs).1.courses =
        (tfold ckey copKey cupd cfresh (db.courses, 0) (teacherCourseOps us callerId bs)).1 := by
  induction bs with
  | nil => intro callerId db us _ _; rfl
  | cons b rest ih =>
    intro callerId db us hgb hstab
    obtain ⟨hb, hrest⟩ : (optTruthy b.course.id = some b.cid ∧
        optTruthy b.course.name = some b.cname) ∧ GoodBundles rest := by
      refine ⟨hgb b (by simp), ?_⟩
      intro b2 hb2
      exact hgb b2 (by simp [hb2])
    have hstab2 : ∀ g i,
        idOf (pureBundles callerId (pureStudentUpserts
          (upsertCourseTeachers
            (upsertCourse (pureTeacherUpserts db b.teachers).1 b.course
              (some ((pureTeacherUpserts db b.teachers).2.headD callerId)))
            b.cid
            (if (pureTeacherUpserts db b.teachers).2.length > 0
              then (pureTeacherUpserts db b.teachers).2 else [callerId]))
          b.course b.students) rest).1.users g = some i →
        idOf us g = some i := by
      intro g i h
      apply hstab g i
      simpa [pureBundles] using h
    have hchain : ∀ g i, idOf (pureTeacherUpserts db b.teachers).1.users g = some i →
        idOf us g = some i := by
      intro g i h
      apply hstab2 g i
      apply idOf_pureBundles
      apply idOf_pureStudentUpserts
      rw [upsertCourseTeachers_users, upsertCourse_users]
      exact h
    have htids : (pureTeacherUpserts db b.teachers).2 = resolvedIds us b :=
      pureTeacherUpserts_ids b.teachers db us hchain
    have hc4 : (pureStudentUpserts
        (upsertCourseTeachers
          (upsertCourse (pureTeacherUpserts db b.teachers).1 b.course
            (some ((pureTeacherUpserts db b.teachers).2.headD callerId)))
          b.cid
          (if (pureTeacherUpserts db b.teachers).2.length > 0
            then (pureTeacherUpserts db b.teachers).2 else [callerId]))
        b.course b.students).courses =
        (tstep ckey copKey cupd cfresh (db.courses, 0)
          ⟨b.course, b.cid, b.cname,
            some ((resolvedIds us b).headD callerId)⟩).1 := by
      rw [(pureStudentUpserts_frames b.students _ b.course).1,
        upsertCourseTeachers_courses]
      have := upsertCourse_tstep (pureTeacherUpserts db b.teachers).1 b.course
        (some ((pureTeacherUpserts db b.teachers).2.headD callerId)) b.cid b.cname 0
        hb.1 hb.2
      rw [this, htids, (pureTeacherUpserts_frames b.teachers db).1]
    have ihh := ih callerId (pureStudentUpserts
      (upsertCourseTeachers
        (upsertCourse (pureTeacherUpserts db b.teachers).1 b.course
          (some ((pureTeacherUpserts db b.teachers).2.headD callerId)))
        b.cid
        (if (pureTeacherUpserts db b.teachers).2.length > 0
          then (pureTeacherUpserts db b.teachers).2 else [callerId]))
      b.course b.students) us hrest hstab2
    rw [hc4] at ihh
    have hops : teacherCourseOps us callerId (b :: rest) =
        (⟨b.course, b.cid, b.cname, some ((resolvedIds us b).headD callerId)⟩ : COp) ::
          teacherCourseOps us callerId rest := by
      simp [teacherCourseOps, courseOpOf]
    rw [hops, tfold_cons]
    have hconst := @tfold_fst_const_k _ _ ckey copKey cupd
      cfresh cfresh_const (teacherCourseOps us callerId rest)
      (tstep ckey copKey cupd cfresh (db.courses, 0)
        ⟨b.course, b.cid, b.cname, some ((resolvedIds us b).headD callerId)⟩).1
      0 (tstep ckey copKey cupd cfresh (db.courses, 0)
        ⟨b.course, b.cid, b.cname, some ((resolvedIds us b).headD callerId)⟩).2
    have hpair : ((tstep ckey copKey cupd cfresh (db.courses, 0)
        ⟨b.course, b.cid, b.cname, some ((resolvedIds us b).headD callerId)⟩).1,
        (tstep ckey copKey cupd cfresh (db.courses, 0)
          ⟨b.course, b.cid, b.cname, some ((resolvedIds us b).headD callerId)⟩).2) =
        tstep ckey copKey cupd cfresh (db.courses, 0)
          ⟨b.course, b.cid, b.cname, some ((resolvedIds us b).headD callerId)⟩ := rfl
    rw [← hpair, ← hconst]
    simpa [pureBundles] using ihh

theorem pureBundles_students (bs : List Bundle) :
    ∀ (callerId : Nat) (db : DB) (us : List UserRow),
      GoodBundles bs →
      (∀ g i, idOf (pureBundles callerId db bs).1.users g = some i → idOf us g = some i) →
      (pureBundles callerId db bs).1.students =
        (tfold skey sopKey supd sfresh (db.students, 0) (teacherStudentOps us bs)).1 := by
  induction bs with
  | nil => intro callerId db us _ _; rfl
  | cons b rest ih =>
    intro callerId db us hgb hstab
    obtain ⟨hb, hrest⟩ : (optTruthy b.course.id = some b.cid ∧
        optTruthy b.course.name = some b.cname) ∧ GoodBundles rest := by
      refine ⟨hgb b (by simp), ?_⟩
      intro b2 hb2
      exact hgb b2 (by simp [hb2])
    have hstab2 : ∀ g i,
        idOf (pureBundles callerId (pureStudentUpserts
          (upsertCourseTeachers
            (upsertCourse (pureTeacherUpserts db b.teachers).1 b.course
              (some ((pureTeacherUpserts db b.teachers).2.headD callerId)))
            b.cid
            (if (pureTeacherUpserts db b.teachers).2.length > 0
              then (pureTeacherUpserts db b.teachers).2 else [callerId]))
          b.course b.students) rest).1.users g = some i →
        idOf us g = some i := by
      intro g i h
      apply hstab g i
      simpa [pureBundles] using h
    have hstab3 : ∀ g i,
        idOf (pureStudentUpserts
          (upsertCourseTeachers
            (upsertCourse (pureTeacherUpserts db b.teachers).1 b.course
              (some ((pureTeacherUpserts db b.teachers).2.headD callerId)))
            b.cid
            (if (pureTeacherUpserts db b.teachers).2.length > 0
              then (pureTeacherUpserts db b.teachers).2 else [callerId]))
          b.course b.students).users g = some i →
        idOf us g = some i := by
      intro g i h
      apply hstab2 g i
      exact idOf_pureBundles rest callerId _ g i h
    have hs4 : (pureStudentUpserts
        (upsertCourseTeachers
          (upsertCourse (pureTeacherUpserts db b.teachers).1 b.course
            (some ((pureTeacherUpserts db b.teachers).2.headD callerId)))
          b.cid
          (if (pureTeacherUpserts db b.teachers).2.length > 0
            then (pureTeacherUpserts db b.teachers).2 else [callerId]))
        b.course b.students).students =
        (tfold skey sopKey supd sfresh (db.students, 0)
          (courseStudentOps us b.course b.cid b.students)).1 := by
      rw [pureStudentUpserts_students b.students _ b.course b.cid us hb.1 hstab3]
      rw [upsertCourseTeachers_students, upsertCourse_students,
        (pureTeacherUpserts_frames b.teachers db).2.2.1]
    have ihh := ih callerId (pureStudentUpserts
      (upsertCourseTeachers
        (upsertCourse (pureTeacherUpserts db b.teachers).1 b.course
          (some ((pureTeacherUpserts db b.teachers).2.headD callerId)))
        b.cid
        (if (pureTeacherUpserts db b.teachers).2.length > 0
          then (pureTeacherUpserts db b.teachers).2 else [callerId]))
      b.course b.students) us hrest hstab2
    rw [hs4] at ihh
    have hops : teacherStudentOps us (b :: rest) =
        courseStudentOps us b.course b.cid b.students ++ teacherStudentOps us rest := by
      simp [teacherStudentOps, bundleStudentOps]
    rw [hops, tfold_append]
    have hconst := @tfold_fst_const_k _ _ skey sopKey supd
      sfresh sfresh_const (teacherStudentOps us rest)
      (tfold skey sopKey supd sfresh (db.students, 0)
        (courseStudentOps us b.course b.cid b.students)).1
      0 (tfold skey sopKey supd sfresh (db.students, 0)
        (courseStudentOps us b.course b.cid b.students)).2
    have hpair : ((tfold skey sopKey supd sfresh (db.students, 0)
        (courseStudentOps us b.course b.cid b.students)).1,
        (tfold skey sopKey supd sfresh (db.students, 0)
          (courseStudentOps us b.course b.cid b.students)).2) =
        tfold skey sopKey supd sfresh (db.students, 0)
          (courseStudentOps us b.course b.cid b.students) := rfl
    rw [← hpair, ← hconst]
    simpa [pureBundles] using ihh

theorem pureBundles_ct (bs : List Bundle) :
    ∀ (callerId : Nat) (db : DB) (us : List UserRow),
      (∀ g i, idOf (pureBundles callerId db bs).1.users g = some i → idOf us g = some i) →
      (pureBundles callerId db bs).1.course_teachers =
        ctFold db.course_teachers (teacherCtOps us callerId bs) := by
  induction bs with
  | nil => intro callerId db us _; rfl
  | cons b rest ih =>
    intro callerId db us hstab
    have hstab2 : ∀ g i,
        idOf (pureBundles callerId (pureStudentUpserts
          (upsertCourseTeachers
            (upsertCourse (pureTeacherUpserts db b.teachers).1 b.course
              (some ((pureTeacherUpserts db b.teachers).2.headD callerId)))
            b.cid
            (if (pureTeacherUpserts db b.teachers).2.length > 0
              then (pureTeacherUpserts db b.teachers).2 else [callerId]))
          b.course b.students) rest).1.users g = some i →
        idOf us g = some i := by
      intro g i h
      apply hstab g i
      simpa [pureBundles] using h
    have hchain : ∀ g i, idOf (pureTeacherUpserts db b.teachers).1.users g = some i →
        idOf us g = some i := by
      intro g i h
      apply hstab2 g i
      apply idOf_pureBundles
      apply idOf_pureStudentUpserts
      rw [upsertCourseTeachers_users, upsertCourse_users]
      exact h
    have htids : (pureTeacherUpserts db b.teachers).2 = resolvedIds us b :=
      pureTeacherUpserts_ids b.teachers db us hchain
    have hct4 : (pureStudentUpserts
        (upsertCourseTeachers
          (upsertCourse (pureTeacherUpserts db b.teachers).1 b.course
            (some ((pureTeacherUpserts db b.teachers).2.headD callerId)))
          b.cid
          (if (pureTeacherUpserts db b.teachers).2.length > 0
            then (pureTeacherUpserts db b.teachers).2 else [callerId]))
        b.course b.students).course_teachers =
        ctApply db.course_teachers
          (b.cid, if (resolvedIds us b).length > 0 then resolvedIds us b else [callerId]) := by
      rw [(pureStudentUpserts_frames b.students _ b.course).2.1,
        upsertCourseTeachers_ctApply, upsertCourse_ct,
        (pureTeacherUpserts_frames b.teachers db).2.1, htids]
    have ihh := ih callerId (pureStudentUpserts
      (upsertCourseTeachers
        (upsertCourse (pureTeacherUpserts db b.teachers).1 b.course
          (some ((pureTeacherUpserts db b.teachers).2.headD callerId)))
        b.cid
        (if (pureTeacherUpserts db b.teachers).2.length > 0
          then (pureTeacherUpserts db b.teachers).2 else [callerId]))
      b.course b.students) us hstab2
    rw [hct4] at ihh
    have hops : teacherCtOps us callerId (b :: rest) =
        (b.cid, if (resolvedIds us b).length > 0 then resolvedIds us b else [callerId]) ::
          teacherCtOps us callerId rest := by
      simp [teacherCtOps]
    rw [hops]
    show (pureBundles callerId db (b :: rest)).1.course_teachers =
      ctFold (ctApply db.course_teachers
        (b.cid, if (resolvedIds us b).length > 0 then resolvedIds us b else [callerId]))
        (teacherCtOps us callerId rest)
    simpa [pureBundles] using ihh

/-! ## Characterization and idempotence of the course-teachers replace -/

theorem ctBlock_cid (cid : String) (ts : List Nat) :
    ∀ (acc : List CourseTeacherRow), (∀ r ∈ acc, r.course_id = cid) →
    ∀ r ∈ ts.foldl (fun l t => insertCourseTeacher l cid t) acc, r.course_id = cid := by
  induction ts with
  | nil => intro acc hacc r hr; exact hacc r hr
  | cons t rest ih =>
    intro acc hacc r hr
    refine ih (insertCourseTeacher acc cid t) ?_ r hr
    intro r2 hr2
    unfold insertCourseTeacher at hr2
    by_cases hb : acc.any (fun r => r.course_id = cid ∧ r.user_id = t)
    · rw [if_pos hb] at hr2
      exact hacc r2 hr2
    · rw [if_neg hb] at hr2
      rcases List.mem_append.mp hr2 with h1 | h2
      · exact hacc r2 h1
      · simp at h2
        rw [h2]

theorem ctBlock_mem_cid (cid : String) (ts : List Nat) :
    ∀ r ∈ ctBlock cid ts, r.course_id = cid :=
  ctBlock_cid cid ts [] (by simp)

theorem ctFoldInsert_append (cid : String) (ts : List Nat) :
    ∀ (l b : List CourseTeacherRow), (∀ r ∈ l, ¬ r.course_id = cid) →
    ts.foldl (fun acc t => insertCourseTeacher acc cid t) (l ++ b) =
      l ++ ts.foldl (fun acc t => insertCourseTeacher acc cid t) b := by
  induction ts with
  | nil => intro l b _; rfl
  | cons t rest ih =>
    intro l b hl
    have hstep : insertCourseTeacher (l ++ b) cid t = l ++ insertCourseTeacher b cid t := by
      unfold insertCourseTeacher
      have hany : (l ++ b).any (fun r => r.course_id = cid ∧ r.user_id = t) =
          b.any (fun r => r.course_id = cid ∧ r.user_id = t) := by
        rw [List.any_append]
        have : l.any (fun r => r.course_id = cid ∧ r.user_id = t) = false := by
          rw [List.any_eq_false]
          intro r hr
          simp only [decide_eq_true_eq, not_and]
          intro hcid
          exact absurd hcid (hl r hr)
        rw [this, Bool.false_or]
      rw [hany]
      by_cases hb : b.any (fun r => r.course_id = cid ∧ r.user_id = t)
      · rw [if_pos hb, if_pos hb]
      · rw [if_neg hb, if_neg hb, List.append_assoc]
    rw [List.foldl_cons, List.foldl_cons, hstep, ih l _ hl]

theorem ctApply_eq (l : List CourseTeacherRow) (cid : String) (ts : List Nat) :
    ctApply l (cid, ts) =
      l.filter (fun r => ¬ r.course_id = cid) ++ ctBlock cid ts := by
  have hl : ∀ r ∈ l.filter (fun r => ¬ r.course_id = cid), ¬ r.course_id = cid := by
    intro r hr
    have := List.mem_filter.mp hr
    simpa using this.2
  have h2 := ctFoldInsert_append cid ts (l.filter (fun r => ¬ r.course_id = cid)) [] hl
  rw [List.append_nil] at h2
  exact h2

theorem ctSurvivors_mem : ∀ (L : List (String × List Nat)) (r : CourseTeacherRow),
    r ∈ ctSurvivors L → memStr r.course_id (ctKeys L) = true := by
  intro L
  induction L with
  | nil => intro r hr; simp [ctSurvivors] at hr
  | cons op R ih =>
    intro r hr
    obtain ⟨cid, ts⟩ := op
    simp only [ctSurvivors] at hr
    rcases List.mem_append.mp hr with h1 | h2
    · by_cases hm : memStr cid (ctKeys R)
      · rw [if_pos hm] at h1
        simp at h1
      · rw [if_neg hm] at h1
        have := ctBlock_mem_cid cid ts r h1
        rw [memStr_iff_mem, this]
        simp [ctKeys]
    · have := ih r h2
      rw [memStr_iff_mem] at this ⊢
      simp only [ctKeys, List.map_cons]
      exact List.mem_cons_of_mem _ this

theorem ctFold_nil (l : List CourseTeacherRow) : ctFold l [] = l := rfl

theorem ctFold_cons (l : List CourseTeacherRow) (op : String × List Nat)
    (L : List (String × List Nat)) :
    ctFold l (op :: L) = ctFold (ctApply l op) L := rfl

theorem ctFold_eq : ∀ (L : List (String × List Nat)) (l : List CourseTeacherRow),
    ctFold l L =
      l.filter (fun r => !(memStr r.course_id (ctKeys L))) ++ ctSurvivors L := by
  intro L
  induction L with
  | nil =>
    intro l
    have : ∀ r ∈ l, (!(memStr r.course_id (ctKeys ([] : List (String × List Nat))))) = true := by
      intro r _
      rfl
    rw [ctFold_nil, List.filter_eq_self.mpr this]
    simp [ctSurvivors]
  | cons op R ih =>
    intro l
    obtain ⟨cid, ts⟩ := op
    rw [ctFold_cons, ih, ctApply_eq, List.filter_append, List.filter_filter]
    have hfpred : l.filter (fun a =>
        (!(memStr a.course_id (ctKeys R))) && ¬ a.course_id = cid) =
        l.filter (fun r => !(memStr r.course_id (ctKeys ((cid, ts) :: R)))) := by
      refine List.filter_congr (fun r _ => ?_)
      simp only [ctKeys, List.map_cons, memStr_cons, Bool.not_or, decide_not]
      have heq : (decide (cid = r.course_id)) = (decide (r.course_id = cid)) := by
        simp [eq_comm]
      rw [heq]
      cases decide (r.course_id = cid) <;>
        cases memStr r.course_id (R.map (fun op => op.1)) <;> rfl
    have hblock : (ctBlock cid ts).filter (fun r => !(memStr r.course_id (ctKeys R))) =
        (if memStr cid (ctKeys R) then [] else ctBlock cid ts) := by
      by_cases hm : memStr cid (ctKeys R)
      · rw [if_pos hm]
        rw [List.filter_eq_nil_iff]
        intro r hr
        rw [ctBlock_mem_cid cid ts r hr, hm]
        simp
      · rw [if_neg hm]
        rw [List.filter_eq_self]
        intro r hr
        rw [ctBlock_mem_cid cid ts r hr]
        have hm2 : memStr cid (ctKeys R) = false := by
          cases h : memStr cid (ctKeys R)
          · rfl
          · exact absurd h hm
        rw [hm2]
        rfl
    rw [hfpred, hblock]
    simp only [ctSurvivors]
    rw [List.append_assoc]

theorem ctFold_idem (L : List (String × List Nat)) (l : List CourseTeacherRow) :
    ctFold (ctFold l L) L = ctFold l L := by
  rw [ctFold_eq L l, ctFold_eq L _, List.filter_append, List.filter_filter]
  have h1 : l.filter (fun a =>
      (!(memStr a.course_id (ctKeys L))) && !(memStr a.course_id (ctKeys L))) =
      l.filter (fun r => !(memStr r.course_id (ctKeys L))) := by
    refine List.filter_congr (fun r _ => ?_)
    cases memStr r.course_id (ctKeys L) <;> rfl
  have h2 : (ctSurvivors L).filter (fun r => !(memStr r.course_id (ctKeys L))) = [] := by
    rw [List.filter_eq_nil_iff]
    intro r hr
    rw [ctSurvivors_mem L r hr]
    simp
  rw [h1, h2]
  simp

/-! ## Transaction-level decomposition (teacher path) -/

theorem pureTeacherTx_fst (up : GoogleUserProfile) (tok : Tokens) (bs : List Bundle)
    (db : DB) :
    (pureTeacherTx up tok bs db).1 =
      (pureBundles (upsertUser db up Role.teacher).2
        (storeUserTokens (upsertUser db up Role.teacher).1
          (upsertUser db up Role.teacher).2 tok) bs).1 := by
  simp [pureTeacherTx]

theorem pureTeacherTx_callerId (up : GoogleUserProfile) (tok : Tokens)
    (bs : List Bundle) (db : DB) :
    idOf (pureTeacherTx up tok bs db).1.users up.googleUserId =
      some (upsertUser db up Role.teacher).2 := by
  rw [pureTeacherTx_fst]
  apply idOf_pureBundles
  rw [storeUserTokens_users]
  exact upsertUser_establishes db up Role.teacher

theorem pureTeacherTx_courses (up : GoogleUserProfile) (tok : Tokens)
    (bs : List Bundle) (db : DB) (hgb : GoodBundles bs) :
    (pureTeacherTx up tok bs db).1.courses =
      (tfold ckey copKey cupd cfresh (db.courses, 0)
        (teacherCourseOps (pureTeacherTx up tok bs db).1.users
          (idOfD (pureTeacherTx up tok bs db).1.users up.googleUserId) bs)).1 := by
  have hcid : idOfD (pureTeacherTx up tok bs db).1.users up.googleUserId =
      (upsertUser db up Role.teacher).2 := by
    rw [idOfD, pureTeacherTx_callerId]; rfl
  rw [hcid]
  have hstab : ∀ g i,
      idOf (pureBundles (upsertUser db up Role.teacher).2
        (storeUserTokens (upsertUser db up Role.teacher).1
          (upsertUser db up Role.teacher).2 tok) bs).1.users g = some i →
      idOf (pureTeacherTx up tok bs db).1.users g = some i := by
    intro g i h
    rw [pureTeacherTx_fst]
    exact h
  have hmain := pureBundles_courses bs (upsertUser db up Role.teacher).2
    (storeUserTokens (upsertUser db up Role.teacher).1
      (upsertUser db up Role.teacher).2 tok)
    ((pureTeacherTx up tok bs db).1.users) hgb hstab
  rw [storeUserTokens_courses, upsertUser_courses] at hmain
  rw [pureTeacherTx_fst]
  exact hmain

theorem pureTeacherTx_students (up : GoogleUserProfile) (tok : Tokens)
    (bs : List Bundle) (db : DB) (hgb : GoodBundles bs) :
    (pureTeacherTx up tok bs db).1.students =
      (tfold skey sopKey supd sfresh (db.students, 0)
        (teacherStudentOps (pureTeacherTx up tok bs db).1.users bs)).1 := by
  have hstab : ∀ g i,
      idOf (pureBundles (upsertUser db up Role.teacher).2
        (storeUserTokens (upsertUser db up Role.teacher).1
          (upsertUser db up Role.teacher).2 tok) bs).1.users g = some i →
      idOf (pureTeacherTx up tok bs db).1.users g = some i := by
    intro g i h
    rw [pureTeacherTx_fst]
    exact h
  have hmain := pureBundles_students bs (upsertUser db up Role.teacher).2
    (storeUserTokens (upsertUser db up Role.teacher).1
      (upsertUser db up Role.teacher).2 tok)
    ((pureTeacherTx up tok bs db).1.users) hgb hstab
  rw [storeUserTokens_students, upsertUser_students] at hmain
  rw [pureTeacherTx_fst]
  exact hmain

theorem pureTeacherTx_ct (up : GoogleUserProfile) (tok : Tokens)
    (bs : List Bundle) (db : DB) :
    (pureTeacherTx up tok bs db).1.course_teachers =
      ctFold db.course_teachers
        (teacherCtOps (pureTeacherTx up tok bs db).1.users
          (idOfD (pureTeacherTx up tok bs db).1.users up.googleUserId) bs) := by
  have hcid : idOfD (pureTeacherTx up tok bs db).1.users up.googleUserId =
      (upsertUser db up Role.teacher).2 := by
    rw [idOfD, pureTeacherTx_callerId]; rfl
  rw [hcid]
  have hstab : ∀ g i,
      idOf (pureBundles (upsertUser db up Role.teacher).2
        (storeUserTokens (upsertUser db up Role.teacher).1
          (upsertUser db up Role.teacher).2 tok) bs).1.users g = some i →
      idOf (pureTeacherTx up tok bs db).1.users g = some i := by
    intro g i h
    rw [pureTeacherTx_fst]
    exact h
  have hmain := pureBundles_ct bs (upsertUser db up Role.teacher).2
    (storeUserTokens (upsertUser db up Role.teacher).1
      (upsertUser db up Role.teacher).2 tok)
    ((pureTeacherTx up tok bs db).1.users) hstab
  rw [storeUserTokens_ct, upsertUser_ct] at hmain
  rw [pureTeacherTx_fst]
  exact hmain

/-! ## Idempotence of the teacher transaction -/

theorem uKeyUpd_cond : ∀ (r : UserRow) (o : UOp), ukey r = uopKey o →
    ukey (uupd r o) = ukey r := fun r o _ => ukey_upd r o

theorem cKeyUpd_cond : ∀ (r : CourseRow) (o : COp), ckey r = copKey o →
    ckey (cupd r o) = ckey r := fun r o _ => ckey_upd r o

theorem sKeyUpd_cond : ∀ (r : StudentRow) (o : SOp), skey r = sopKey o →
    skey (supd r o) = skey r := fun r o _ => skey_upd r o

theorem pureTeacherTx_idem (up : GoogleUserProfile) (tok1 tok2 : Tokens)
    (bs : List Bundle) (db : DB) (hgb : GoodBundles bs) :
    ((pureTeacherTx up tok2 bs (pureTeacherTx up tok1 bs db).1).1.users =
        (pureTeacherTx up tok1 bs db).1.users) ∧
    ((pureTeacherTx up tok2 bs (pureTeacherTx up tok1 bs db).1).1.courses =
        (pureTeacherTx up tok1 bs db).1.courses) ∧
    ((pureTeacherTx up tok2 bs (pureTeacherTx up tok1 bs db).1).1.course_teachers =
        (pureTeacherTx up tok1 bs db).1.course_teachers) ∧
    ((pureTeacherTx up tok2 bs (pureTeacherTx up tok1 bs db).1).1.students =
        (pureTeacherTx up tok1 bs db).1.students) := by
  have hu1 := pureTeacherTx_users up tok1 bs db
  have hu2 := pureTeacherTx_users up tok2 bs (pureTeacherTx up tok1 bs db).1
  rw [hu1] at hu2
  rw [tfold_idem uKeyUpd_cond ukey_fresh uRowFold_idem uRowFold_fresh_absorb] at hu2
  have husers : (pureTeacherTx up tok2 bs (pureTeacherTx up tok1 bs db).1).1.users =
      (pureTeacherTx up tok1 bs db).1.users := by
    have := congrArg Prod.fst hu2
    rw [← hu1] at this
    simpa using this
  refine ⟨husers, ?_, ?_, ?_⟩
  · have hc1 := pureTeacherTx_courses up tok1 bs db hgb
    have hc2 := pureTeacherTx_courses up tok2 bs (pureTeacherTx up tok1 bs db).1 hgb
    rw [husers, hc1] at hc2
    rw [hc2, hc1]
    rw [tfold_fst_const_k cfresh_const _ _ 0
      (tfold ckey copKey cupd cfresh ((db.courses), 0)
        (teacherCourseOps (pureTeacherTx up tok1 bs db).1.users
          (idOfD (pureTeacherTx up tok1 bs db).1.users up.googleUserId) bs)).2]
    rw [show ((tfold ckey copKey cupd cfresh (db.courses, 0)
        (teacherCourseOps (pureTeacherTx up tok1 bs db).1.users
          (idOfD (pureTeacherTx up tok1 bs db).1.users up.googleUserId) bs)).1,
        (tfold ckey copKey cupd cfresh (db.courses, 0)
          (teacherCourseOps (pureTeacherTx up tok1 bs db).1.users
            (idOfD (pureTeacherTx up tok1 bs db).1.users up.googleUserId) bs)).2) =
        tfold ckey copKey cupd cfresh (db.courses, 0)
          (teacherCourseOps (pureTeacherTx up tok1 bs db).1.users
            (idOfD (pureTeacherTx up tok1 bs db).1.users up.googleUserId) bs) from rfl]
    rw [tfold_idem cKeyUpd_cond ckey_fresh cRowFold_idem cRowFold_fresh_absorb]
  · have hct1 := pureTeacherTx_ct up tok1 bs db
    have hct2 := pureTeacherTx_ct up tok2 bs (pureTeacherTx up tok1 bs db).1
    rw [husers, hct1] at hct2
    rw [hct2, hct1, ctFold_idem]
  · have hs1 := pureTeacherTx_students up tok1 bs db hgb
    have hs2 := pureTeacherTx_students up tok2 bs (pureTeacherTx up tok1 bs db).1 hgb
    rw [husers, hs1] at hs2
    rw [hs2, hs1]
    rw [tfold_fst_const_k sfresh_const _ _ 0
      (tfold skey sopKey supd sfresh ((db.students), 0)
        (teacherStudentOps (pureTeacherTx up tok1 bs db).1.users bs)).2]
    rw [show ((tfold skey sopKey supd sfresh (db.students, 0)
        (teacherStudentOps (pureTeacherTx up tok1 bs db).1.users bs)).1,
        (tfold skey sopKey supd sfresh (db.students, 0)
          (teacherStudentOps (pureTeacherTx up tok1 bs db).1.users bs)).2) =
        tfold skey sopKey supd sfresh (db.students, 0)
          (teacherStudentOps (pureTeacherTx up tok1 bs db).1.users bs) from rfl]
    rw [tfold_idem sKeyUpd_cond skey_fresh sRowFold_idem sRowFold_fresh_absorb]

/-! ## Transaction-level decomposition (student path) -/

theorem pureStudentCourses_frames (cs : List Course) :
    ∀ (up : GoogleUserProfile) (sid : Nat) (db : DB),
      (pureStudentCourses up sid db cs).users = db.users ∧
      (pureStudentCourses up sid db cs).nextUserId = db.nextUserId ∧
      (pureStudentCourses up sid db cs).course_teachers = db.course_teachers ∧
      (pureStudentCourses up sid db cs).user_tokens = db.user_tokens := by
  induction cs with
  | nil => intro up sid db; exact ⟨rfl, rfl, rfl, rfl⟩
  | cons c rest ih =>
    intro up sid db
    cases hc : optTruthy c.id with
    | none => simpa [pureStudentCourses, hc] using ih up sid db
    | some cid =>
      cases hn : optTruthy c.name with
      | none => simpa [pureStudentCourses, hc, hn] using ih up sid db
      | some cname =>
        have := ih up sid (upsertStudent (upsertCourse db c none) (stubStudent up) c sid)
        simp only [pureStudentCourses, hc, hn]
        refine ⟨?_, ?_, ?_, ?_⟩
        · rw [this.1, upsertStudent_users, upsertCourse_users]
        · rw [this.2.1, upsertStudent_next, upsertCourse_next]
        · rw [this.2.2.1, upsertStudent_ct, upsertCourse_ct]
        · rw [this.2.2.2, upsertStudent_tokens, upsertCourse_tokens]

theorem pureStudentCourses_courses (cs : List Course) :
    ∀ (up : GoogleUserProfile) (sid : Nat) (db : DB),
      (pureStudentCourses up sid db cs).courses =
        (tfold ckey copKey cupd cfresh (db.courses, 0) (studentCourseOps cs)).1 := by
  induction cs with
  | nil => intro up sid db; rfl
  | cons c rest ih =>
    intro up sid db
    cases hc : optTruthy c.id with
    | none =>
      have hops : studentCourseOps (c :: rest) = studentCourseOps rest := by
        simp [studentCourseOps, hc]
      rw [hops]
      simpa [pureStudentCourses, hc] using ih up sid db
    | some cid =>
      cases hn : optTruthy c.name with
      | none =>
        have hops : studentCourseOps (c :: rest) = studentCourseOps rest := by
          simp [studentCourseOps, hc, hn]
        rw [hops]
        simpa [pureStudentCourses, hc, hn] using ih up sid db
      | some cname =>
        have hops : studentCourseOps (c :: rest) =
            (⟨c, cid, cname, none⟩ : COp) :: studentCourseOps rest := by
          simp [studentCourseOps, hc, hn]
        rw [hops, tfold_cons]
        have ihh := ih up sid (upsertStudent (upsertCourse db c none) (stubStudent up) c sid)
        have hcrs : (upsertStudent (upsertCourse db c none) (stubStudent up) c sid).courses =
            (tstep ckey copKey cupd cfresh (db.courses, 0) ⟨c, cid, cname, none⟩).1 := by
          rw [upsertStudent_courses]
          exact upsertCourse_tstep db c none cid cname 0 hc hn

        rw [hcrs] at ihh
        have hconst := @tfold_fst_const_k _ _ ckey copKey cupd
          cfresh cfresh_const (studentCourseOps rest)
          (tstep ckey copKey cupd cfresh (db.courses, 0) ⟨c, cid, cname, none⟩).1
          0 (tstep ckey copKey cupd cfresh (db.courses, 0) ⟨c, cid, cname, none⟩).2
        have hpair : ((tstep ckey copKey cupd cfresh (db.courses, 0) ⟨c, cid, cname, none⟩).1,
            (tstep ckey copKey cupd cfresh (db.courses, 0) ⟨c, cid, cname, none⟩).2) =
            tstep ckey copKey cupd cfresh (db.courses, 0) ⟨c, cid, cname, none⟩ := rfl
        rw [← hpair, ← hconst]
        simpa [pureStudentCourses, hc, hn] using ihh

theorem pureStudentCourses_students (cs : List Course) :
    ∀ (up : GoogleUserProfile) (sid : Nat) (db : DB),
      (pureStudentCourses up sid db cs).students =
        (tfold skey sopKey supd sfresh (db.students, 0)
          (studentPathStudentOps up sid cs)).1 := by
  induction cs with
  | nil => intro up sid db; rfl
  | cons c rest ih =>
    intro up sid db
    cases hc : optTruthy c.id with
    | none =>
      have hops : studentPathStudentOps up sid (c :: rest) =
          studentPathStudentOps up sid rest := by
        simp [studentPathStudentOps, hc]
      rw [hops]
      simpa [pureStudentCourses, hc] using ih up sid db
    | some cid =>
      cases hn : optTruthy c.name with
      | none =>
        have hops : studentPathStudentOps up sid (c :: rest) =
            studentPathStudentOps up sid rest := by
          simp [studentPathStudentOps, hc, hn]
        rw [hops]
        simpa [pureStudentCourses, hc, hn] using ih up sid db
      | some cname =>
        cases hstu : optTruthy (stubStudent up).userId with
        | none =>
          have hops : studentPathStudentOps up sid (c :: rest) =
              studentPathStudentOps up sid rest := by
            simp [studentPathStudentOps, hc, hn, hstu]
          rw [hops]
          have hskip : upsertStudent (upsertCourse db c none) (stubStudent up) c sid =
              upsertCourse db c none := upsertStudent_skip _ _ _ _ hstu
          have ihh := ih up sid (upsertStudent (upsertCourse db c none) (stubStudent up) c sid)
          rw [hskip] at ihh
          rw [upsertCourse_students] at ihh
          have ihh2 := ih up sid (upsertCourse db c none)
          rw [upsertCourse_students] at ihh2
          simpa [pureStudentCourses, hc, hn, hskip] using ihh2
        | some suid =>
          have hops : studentPathStudentOps up sid (c :: rest) =
              (⟨stubStudent up, c, suid, cid, sid⟩ : SOp) ::
                studentPathStudentOps up sid rest := by
            simp [studentPathStudentOps, hc, hn, hstu]
          rw [hops, tfold_cons]
          have ihh := ih up sid (upsertStudent (upsertCourse db c none) (stubStudent up) c sid)
          have hsts : (upsertStudent (upsertCourse db c none) (stubStudent up) c sid).students =
              (tstep skey sopKey supd sfresh (db.students, 0)
                ⟨stubStudent up, c, suid, cid, sid⟩).1 := by
            have := upsertStudent_tstep (upsertCourse db c none) (stubStudent up) c sid
              suid cid 0 hstu hc
            rw [this, upsertCourse_students]
          rw [hsts] at ihh
          have hconst := @tfold_fst_const_k _ _ skey sopKey supd
            sfresh sfresh_const (studentPathStudentOps up sid rest)
            (tstep skey sopKey supd sfresh (db.students, 0)
              ⟨stubStudent up, c, suid, cid, sid⟩).1
            0 (tstep skey sopKey supd sfresh (db.students, 0)
              ⟨stubStudent up, c, suid, cid, sid⟩).2
          have hpair : ((tstep skey sopKey supd sfresh (db.students, 0)
              ⟨stubStudent up, c, suid, cid, sid⟩).1,
              (tstep skey sopKey supd sfresh (db.students, 0)
                ⟨stubStudent up, c, suid, cid, sid⟩).2) =
              tstep skey sopKey supd sfresh (db.students, 0)
                ⟨stubStudent up, c, suid, cid, sid⟩ := rfl
          rw [← hpair, ← hconst]
          simpa [pureStudentCourses, hc, hn] using ihh

theorem pureStudentTx_fst (up : GoogleUserProfile) (tok : Tokens) (cs : List Course)
    (db : DB) :
    (pureStudentTx up tok cs db).1 =
      pureStudentCourses up (upsertUser db up Role.student).2
        (storeUserTokens (upsertUser db up Role.student).1
          (upsertUser db up Role.student).2 tok) cs := by
  simp [pureStudentTx]

theorem pureStudentTx_users (up : GoogleUserProfile) (tok : Tokens) (cs : List Course)
    (db : DB) :
    ((pureStudentTx up tok cs db).1.users, (pureStudentTx up tok cs db).1.nextUserId) =
      tfold ukey uopKey uupd ufresh (db.users, db.nextUserId)
        [(⟨up, Role.student⟩ : UOp)] := by
  rw [pureStudentTx_fst]
  have hf := pureStudentCourses_frames cs up (upsertUser db up Role.student).2
    (storeUserTokens (upsertUser db up Role.student).1
      (upsertUser db up Role.student).2 tok)
  rw [hf.1, hf.2.1, storeUserTokens_users, storeUserTokens_next]
  rw [show tfold ukey uopKey uupd ufresh (db.users, db.nextUserId)
      [(⟨up, Role.student⟩ : UOp)] =
      tstep ukey uopKey uupd ufresh (db.users, db.nextUserId) ⟨up, Role.student⟩ from rfl]
  exact upsertUser_tstep db up Role.student

theorem pureStudentTx_callerId (up : GoogleUserProfile) (tok : Tokens)
    (cs : List Course) (db : DB) :
    idOf (pureStudentTx up tok cs db).1.users up.googleUserId =
      some (upsertUser db up Role.student).2 := by
  rw [pureStudentTx_fst]
  have hf := pureStudentCourses_frames cs up (upsertUser db up Role.student).2
    (storeUserTokens (upsertUser db up Role.student).1
      (upsertUser db up Role.student).2 tok)
  rw [hf.1, storeUserTokens_users]
  exact upsertUser_establishes db up Role.student

theorem pureStudentTx_courses (up : GoogleUserProfile) (tok : Tokens)
    (cs : List Course) (db : DB) :
    (pureStudentTx up tok cs db).1.courses =
      (tfold ckey copKey cupd cfresh (db.courses, 0) (studentCourseOps cs)).1 := by
  rw [pureStudentTx_fst, pureStudentCourses_courses, storeUserTokens_courses,
    upsertUser_courses]

theorem pureStudentTx_students (up : GoogleUserProfile) (tok : Tokens)
    (cs : List Course) (db : DB) :
    (pureStudentTx up tok cs db).1.students =
      (tfold skey sopKey supd sfresh (db.students, 0)
        (studentPathStudentOps up
          (idOfD (pureStudentTx up tok cs db).1.users up.googleUserId) cs)).1 := by
  have hcid : idOfD (pureStudentTx up tok cs db).1.users up.googleUserId =
      (upsertUser db up Role.student).2 := by
    rw [idOfD, pureStudentTx_callerId]; rfl
  rw [hcid, pureStudentTx_fst, pureStudentCourses_students, storeUserTokens_students,
    upsertUser_students]

theorem pureStudentTx_ct (up : GoogleUserProfile) (tok : Tokens) (cs : List Course)
    (db : DB) :
    (pureStudentTx up tok cs db).1.course_teachers = db.course_teachers := by
  rw [pureStudentTx_fst]
  rw [(pureStudentCourses_frames cs up _ _).2.2.1, storeUserTokens_ct, upsertUser_ct]

theorem pureStudentTx_idem (up : GoogleUserProfile) (tok1 tok2 : Tokens)
    (cs : List Course) (db : DB) :
    ((pureStudentTx up tok2 cs (pureStudentTx up tok1 cs db).1).1.users =
        (pureStudentTx up tok1 cs db).1.users) ∧
    ((pureStudentTx up tok2 cs (pureStudentTx up tok1 cs db).1).1.courses =
        (pureStudentTx up tok1 cs db).1.courses) ∧
    ((pureStudentTx up tok2 cs (pureStudentTx up tok1 cs db).1).1.course_teachers =
        (pureStudentTx up tok1 cs db).1.course_teachers) ∧
    ((pureStudentTx up tok2 cs (pureStudentTx up tok1 cs db).1).1.students =
        (pureStudentTx up tok1 cs db).1.students) := by
  have hu1 := pureStudentTx_users up tok1 cs db
  have hu2 := pureStudentTx_users up tok2 cs (pureStudentTx up tok1 cs db).1
  rw [hu1] at hu2
  rw [tfold_idem uKeyUpd_cond ukey_fresh uRowFold_idem uRowFold_fresh_absorb] at hu2
  have husers : (pureStudentTx up tok2 cs (pureStudentTx up tok1 cs db).1).1.users =
      (pureStudentTx up tok1 cs db).1.users := by
    have := congrArg Prod.fst hu2
    rw [← hu1] at this
    simpa using this
  refine ⟨husers, ?_, ?_, ?_⟩
  · have hc1 := pureStudentTx_courses up tok1 cs db
    have hc2 := pureStudentTx_courses up tok2 cs (pureStudentTx up tok1 cs db).1
    rw [hc1] at hc2
    rw [hc2, hc1]
    rw [tfold_fst_const_k cfresh_const _ _ 0
      (tfold ckey copKey cupd cfresh (db.courses, 0) (studentCourseOps cs)).2]
    rw [show ((tfold ckey copKey cupd cfresh (db.courses, 0) (studentCourseOps cs)).1,
        (tfold ckey copKey cupd cfresh (db.courses, 0) (studentCourseOps cs)).2) =
        tfold ckey copKey cupd cfresh (db.courses, 0) (studentCourseOps cs) from rfl]
    rw [tfold_idem cKeyUpd_cond ckey_fresh cRowFold_idem cRowFold_fresh_absorb]
  · have hct1 := pureStudentTx_ct up tok1 cs db
    have hct2 := pureStudentTx_ct up tok2 cs (pureStudentTx up tok1 cs db).1
    rw [hct2, hct1]
  · have hs1 := pureStudentTx_students up tok1 cs db
    have hs2 := pureStudentTx_students up tok2 cs (pureStudentTx up tok1 cs db).1
    rw [husers, hs1] at hs2
    rw [hs2, hs1]
    rw [tfold_fst_const_k sfresh_const _ _ 0
      (tfold skey sopKey supd sfresh (db.students, 0)
        (studentPathStudentOps up
          (idOfD (pureStudentTx up tok1 cs db).1.users up.googleUserId) cs)).2]
    rw [show ((tfold skey sopKey supd sfresh (db.students, 0)
        (studentPathStudentOps up
          (idOfD (pureStudentTx up tok1 cs db).1.users up.googleUserId) cs)).1,
        (tfold skey sopKey supd sfresh (db.students, 0)
          (studentPathStudentOps up
            (idOfD (pureStudentTx up tok1 cs db).1.users up.googleUserId) cs)).2) =
        tfold skey sopKey supd sfresh (db.students, 0)
          (studentPathStudentOps up
            (idOfD (pureStudentTx up tok1 cs db).1.users up.googleUserId) cs) from rfl]
    rw [tfold_idem sKeyUpd_cond skey_fresh sRowFold_idem sRowFold_fresh_absorb]

/-! ## Reducing the sync flow along each path -/

theorem buildBundles_good (env : Env) : ∀ (cs : List Course),
    GoodBundles (buildBundles env cs) := by
  intro cs
  induction cs with
  | nil => intro b hb; simp [buildBundles] at hb
  | cons c rest ih =>
    intro b hb
    cases hc : optTruthy c.id with
    | none =>
      rw [buildBundles] at hb
      rw [hc] at hb
      exact ih b hb
    | some cid =>
      cases hn : optTruthy c.name with
      | none =>
        rw [buildBundles] at hb
        rw [hc, hn] at hb
        exact ih b hb
      | some cname =>
        rw [buildBundles] at hb
        rw [hc, hn] at hb
        rcases List.mem_cons.mp hb with h1 | h2
        · rw [h1]
          exact ⟨hc, hn⟩
        · exact ih b h2

theorem buildBundles_exchange (env : Env) (e : Except SyncError Tokens) :
    ∀ (cs : List Course), buildBundles { env with exchange := e } cs = buildBundles env cs := by
  intro cs
  induction cs with
  | nil => rfl
  | cons c rest ih =>
    cases hc : optTruthy c.id <;> cases hn : optTruthy c.name <;>
      simp [buildBundles, hc, hn, ih]

theorem sync_teacher_path (env : Env) (db : DB) (tok : Tokens) (ui : Userinfo)
    (up : GoogleUserProfile) (tcs : List Course)
    (hfail : env.failAt = none) (hex : env.exchange = .ok tok)
    (hui : env.userinfo = .ok ui) (hup : fetchUserProfile ui = .ok up)
    (ht : probeResult env.teacherList = .ok tcs) (hlen : tcs.length > 0) :
    syncClassroomFromCode env db =
      ((pureTeacherTx up tok (buildBundles env tcs) db).1,
        .ok (pureTeacherTx up tok (buildBundles env tcs) db).2) := by
  unfold syncClassroomFromCode
  simp only [hex, hui, hup, ht, hfail]
  rw [if_pos hlen]
  simp only [withTransaction, teacherTxBody_none]

theorem sync_student_path (env : Env) (db : DB) (tok : Tokens) (ui : Userinfo)
    (up : GoogleUserProfile) (scs : List Course)
    (hfail : env.failAt = none) (hex : env.exchange = .ok tok)
    (hui : env.userinfo = .ok ui) (hup : fetchUserProfile ui = .ok up)
    (ht : probeResult env.teacherList = .ok [])
    (hs : probeResult env.studentList = .ok scs) :
    syncClassroomFromCode env db =
      ((pureStudentTx up tok scs db).1, .ok (pureStudentTx up tok scs db).2) := by
  unfold syncClassroomFromCode
  simp only [hex, hui, hup, ht, hs, hfail]
  rw [if_neg (by simp)]
  simp only [hs, withTransaction, studentTxBody_none]

/-- C1: running the reconciler twice for the same external identity over the
same underlying classroom data, with distinct authorization codes (hence
possibly distinct token payloads), leaves the users, courses,
course_teachers and students tables of the second sync identical to those
after the first sync: rows are updated in place, never duplicated. -/
theorem syncClassroomFromCode_idempotent
    (env : Env) (db0 : DB) (tok1 tok2 : Tokens) (ui : Userinfo)
    (up : GoogleUserProfile) (tcs scs : List Course)
    (hfail : env.failAt = none) (hex1 : env.exchange = .ok tok1)
    (hui : env.userinfo = .ok ui) (hup : fetchUserProfile ui = .ok up)
    (ht : probeResult env.teacherList = .ok tcs)
    (hs : probeResult env.studentList = .ok scs) :
    ((syncClassroomFromCode { env with exchange := .ok tok2 }
        (syncClassroomFromCode env db0).1).1.users =
      (syncClassroomFromCode env db0).1.users) ∧
    ((syncClassroomFromCode { env with exchange := .ok tok2 }
        (syncClassroomFromCode env db0).1).1.courses =
      (syncClassroomFromCode env db0).1.courses) ∧
    ((syncClassroomFromCode { env with exchange := .ok tok2 }
        (syncClassroomFromCode env db0).1).1.course_teachers =
      (syncClassroomFromCode env db0).1.course_teachers) ∧
    ((syncClassroomFromCode { env with exchange := .ok tok2 }
        (syncClassroomFromCode env db0).1).1.students =
      (syncClassroomFromCode env db0).1.students) := by
  by_cases hlen : tcs.length > 0
  · have h1 := sync_teacher_path env db0 tok1 ui up tcs hfail hex1 hui hup ht hlen
    have h2 := sync_teacher_path { env with exchange := .ok tok2 }
      (syncClassroomFromCode env db0).1 tok2 ui up tcs hfail rfl hui hup ht hlen
    rw [buildBundles_exchange env (.ok tok2) tcs] at h2
    have hidem := pureTeacherTx_idem up tok1 tok2 (buildBundles env tcs) db0
      (buildBundles_good env tcs)
    rw [h1] at h2
    dsimp only at h2
    rw [h1]
    dsimp only
    rw [h2]
    dsimp only
    exact hidem
  · have hnil : tcs = [] := by
      cases tcs with
      | nil => rfl
      | cons a l => exact absurd (by simp) hlen
    subst hnil
    have h1 := sync_student_path env db0 tok1 ui up scs hfail hex1 hui hup ht hs
    have h2 := sync_student_path { env with exchange := .ok tok2 }
      (syncClassroomFromCode env db0).1 tok2 ui up scs hfail rfl hui hup ht hs
    have hidem := pureStudentTx_idem up tok1 tok2 scs db0
    rw [h1] at h2
    dsimp only at h2
    rw [h1]
    dsimp only
    rw [h2]
    dsimp only
    exact hidem

/-- Closed instance of the idempotence theorem on a concrete teacher-path
environment. -/
theorem syncClassroomFromCode_idempotent_witness :
    ((syncClassroomFromCode { envTeacher wTokens1 with exchange := .ok wTokens2 }
        (syncClassroomFromCode (envTeacher wTokens1) dbEmpty).1).1.users =
      (syncClassroomFromCode (envTeacher wTokens1) dbEmpty).1.users) ∧
    ((syncClassroomFromCode { envTeacher wTokens1 with exchange := .ok wTokens2 }
        (syncClassroomFromCode (envTeacher wTokens1) dbEmpty).1).1.courses =
      (syncClassroomFromCode (envTeacher wTokens1) dbEmpty).1.courses) ∧
    ((syncClassroomFromCode { envTeacher wTokens1 with exchange := .ok wTokens2 }
        (syncClassroomFromCode (envTeacher wTokens1) dbEmpty).1).1.course_teachers =
      (syncClassroomFromCode (envTeacher wTokens1) dbEmpty).1.course_teachers) ∧
    ((syncClassroomFromCode { envTeacher wTokens1 with exchange := .ok wTokens2 }
        (syncClassroomFromCode (envTeacher wTokens1) dbEmpty).1).1.students =
      (syncClassroomFromCode (envTeacher wTokens1) dbEmpty).1.students) :=
  syncClassroomFromCode_idempotent (envTeacher wTokens1) dbEmpty wTokens1 wTokens2
    wUserinfo wOwnerProfile [wCourse] [] rfl rfl rfl (by rfl) (by rfl) (by rfl)

/-! ## Failure atomicity -/

theorem withTransaction_error_rollback (db db2 : DB)
    (hd : DB → Except SyncError (DB × SyncResult)) (e : SyncError)
    (heq : withTransaction db hd = (db2, .error e)) : db2 = db := by
  unfold withTransaction at heq
  cases hr : hd db with
  | ok pr =>
    rw [hr] at heq
    exfalso
    obtain ⟨dbx, a⟩ := pr
    simp at heq
  | error e2 =>
    rw [hr] at heq
    exact (congrArg Prod.fst heq).symm

/-- C2: a failed credential exchange or profile resolution surfaces its error
with the database untouched, and more generally any failing sync — including
one whose transaction body fails at an arbitrary write — persists zero
changes. -/
theorem sync_failure_atomicity :
    (∀ (env : Env) (db : DB) (e : SyncError), env.exchange = .error e →
      syncClassroomFromCode env db = (db, .error e)) ∧
    (∀ (env : Env) (db : DB) (tok : Tokens) (ui : Userinfo) (e : SyncError),
      env.exchange = .ok tok → env.userinfo = .ok ui →
      fetchUserProfile ui = .error e →
      syncClassroomFromCode env db = (db, .error e)) ∧
    (∀ (env : Env) (db db2 : DB) (e : SyncError),
      syncClassroomFromCode env db = (db2, .error e) → db2 = db) := by
  refine ⟨?_, ?_, ?_⟩
  · intro env db e hex
    unfold syncClassroomFromCode
    rw [hex]
  · intro env db tok ui e hex hui hup
    unfold syncClassroomFromCode
    simp only [hex, hui, hup]
  · intro env db db2 e h
    unfold syncClassroomFromCode at h
    repeat' split at h
    all_goals first
      | exact (congrArg Prod.fst h).symm
      | exact withTransaction_error_rollback _ _ _ _ h

/-- Closed instance: a write failure injected into the middle of the teacher
transaction (after the course row insert, at the teacher-association write)
rolls the database back to its incoming state. -/
theorem sync_failure_atomicity_witness :
    (syncClassroomFromCode { envTeacher wTokens1 with failAt := some 3 } dbEmpty).1
      = dbEmpty :=
  sync_failure_atomicity.2.2 { envTeacher wTokens1 with failAt := some 3 } dbEmpty
    (syncClassroomFromCode { envTeacher wTokens1 with failAt := some 3 } dbEmpty).1
    (.writeFailed 3) (by rfl)

/-! ## Role stickiness -/

/-- C3: a users row recorded with role teacher keeps role teacher across any
later `upsertUser` call for the same external subject id, whatever role that
call carries. -/
theorem upsertUser_role_sticky (db : DB) (p : GoogleUserProfile) (role : Role)
    (u : UserRow) (hu : u ∈ db.users) (ht : u.role = Role.teacher)
    (hkeys : db.users.Pairwise (fun a b => a.google_user_id ≠ b.google_user_id)) :
    ∀ v ∈ (upsertUser db p role).1.users,
      v.google_user_id = u.google_user_id → v.role = Role.teacher := by
  intro v hv hgid
  have huniq : ∀ a ∈ db.users, ∀ b ∈ db.users,
      a.google_user_id = b.google_user_id → a = b := by
    intro a ha b hb hab
    by_cases heq : a = b
    · exact heq
    · exact absurd hab (List.Pairwise.forall
        (fun x y h => (h ∘ Eq.symm : y.google_user_id ≠ x.google_user_id)) hkeys ha hb heq)
  cases hf : db.users.find? (fun r => r.google_user_id = p.googleUserId) with
  | some r =>
    have husers : (upsertUser db p role).1.users = db.users.map (fun q =>
        if q.google_user_id = p.googleUserId then updateUserRow q p role else q) := by
      simp [upsertUser, hf]
    rw [husers] at hv
    obtain ⟨w, hw, hwv⟩ := List.mem_map.mp hv
    by_cases hcase : w.google_user_id = p.googleUserId
    · rw [if_pos hcase] at hwv
      have hwu : w = u := by
        apply huniq w hw u hu
        rw [← hgid, ← hwv]
        rfl
      rw [← hwv, updateUserRow]
      subst hwu
      rw [ht]
      rfl
    · rw [if_neg hcase] at hwv
      have hwu : w = u := huniq w hw u hu (by rw [hwv, hgid])
      rw [← hwv, hwu]
      exact ht
  | none =>
    have husers : (upsertUser db p role).1.users =
        db.users ++ [freshUserRow p role db.nextUserId] := by
      simp [upsertUser, hf]
    rw [husers] at hv
    rcases List.mem_append.mp hv with h1 | h2
    · rw [huniq v h1 u hu hgid]
      exact ht
    · exfalso
      simp only [List.mem_singleton] at h2
      have hgu : u.google_user_id = p.googleUserId := by
        rw [← hgid, h2]
        rfl
      have hnone := List.find?_eq_none.mp hf u hu
      exact hnone (by simp [hgu])

/-- Closed instance: a teacher row is not downgraded by a student-role
upsert for the same subject id. -/
theorem upsertUser_role_sticky_witness :
    (updateUserRow wOwnerTeacherRow wOwnerProfile Role.student).role =
      Role.teacher :=
  upsertUser_role_sticky dbOwnerTeacher wOwnerProfile Role.student
    wOwnerTeacherRow (by simp [dbOwnerTeacher, dbEmpty]) rfl
    (by simp [dbOwnerTeacher, dbEmpty])
    (updateUserRow wOwnerTeacherRow wOwnerProfile Role.student)
    (by decide) rfl

/-! ## Teacher-association replacement (C4) -/

theorem ctSurvivors_filter_of_nodup :
    ∀ (L : List (String × List Nat)),
      L.Pairwise (fun a b => a.1 ≠ b.1) →
      ∀ (cid : String) (ts : List Nat), (cid, ts) ∈ L →
      (ctSurvivors L).filter (fun r => r.course_id = cid) = ctBlock cid ts := by
  intro L
  induction L with
  | nil => intro _ cid ts h; simp at h
  | cons op R ih =>
    intro hpw cid ts hmem
    obtain ⟨c1, t1⟩ := op
    have hpwR := List.Pairwise.sublist (List.sublist_cons_self _ _) hpw
    have hhead : ∀ p ∈ R, c1 ≠ p.1 := by
      intro p hp
      exact List.rel_of_pairwise_cons hpw hp
    have hc1notin : memStr c1 (ctKeys R) = false := by
      cases hx : memStr c1 (ctKeys R)
      · rfl
      · exfalso
        rw [memStr_iff_mem] at hx
        obtain ⟨p, hp, hpeq⟩ := List.mem_map.mp hx
        exact hhead p hp hpeq.symm
    have hsurv : ctSurvivors ((c1, t1) :: R) = ctBlock c1 t1 ++ ctSurvivors R := by
      simp only [ctSurvivors]
      rw [hc1notin]
      simp
    rw [hsurv, List.filter_append]
    rcases List.mem_cons.mp hmem with h1 | h2
    · injection h1 with hc hts
      subst hc
      subst hts
      have hblk : (ctBlock cid ts).filter (fun r => r.course_id = cid) = ctBlock cid ts := by
        rw [List.filter_eq_self]
        intro r hr
        simp [ctBlock_mem_cid cid ts r hr]
      have hrest : (ctSurvivors R).filter (fun r => r.course_id = cid) = [] := by
        rw [List.filter_eq_nil_iff]
        intro r hr
        have hmem2 := ctSurvivors_mem R r hr
        rw [memStr_iff_mem] at hmem2
        obtain ⟨p, hp, hpeq⟩ := List.mem_map.mp hmem2
        simp only [decide_eq_true_eq]
        intro hrc
        exact hhead p hp (hpeq.trans hrc).symm
      rw [hblk, hrest, List.append_nil]
    · have hne : ¬ cid = c1 := by
        intro heq
        exact hhead (cid, ts) h2 (by rw [heq])
      have hblk : (ctBlock c1 t1).filter (fun r => r.course_id = cid) = [] := by
        rw [List.filter_eq_nil_iff]
        intro r hr
        simp only [decide_eq_true_eq]
        rw [ctBlock_mem_cid c1 t1 r hr]
        intro heq
        exact hne heq.symm
      rw [hblk, List.nil_append]
      exact ih hpwR cid ts h2

/-- C4 counterexample: on a concrete teacher-path sync whose roster resolves
teacher Alice (user id 1) but omits the requester (user id 0), the
course-teacher association set is exactly Alice, and the requesting identity
is not associated with the course at all. -/
theorem sync_requester_not_always_associated :
    idOf (syncClassroomFromCode (envTeacher wTokens1) dbEmpty).1.users "owner" = some 0 ∧
    ((syncClassroomFromCode (envTeacher wTokens1) dbEmpty).1.course_teachers.map
      (fun r => r.user_id)) = [1] ∧
    ¬ (∃ r ∈ (syncClassroomFromCode (envTeacher wTokens1) dbEmpty).1.course_teachers,
        r.user_id = 0) := by
  refine ⟨by rfl, by rfl, ?_⟩
  intro hex
  obtain ⟨r, hr, hr0⟩ := hex
  have : r = { course_id := "c1", user_id := 1 } := by
    have hct : (syncClassroomFromCode (envTeacher wTokens1) dbEmpty).1.course_teachers =
        [{ course_id := "c1", user_id := 1 }] := by rfl
    rw [hct] at hr
    simpa using hr
  rw [this] at hr0
  exact absurd hr0 (by decide)

/-- C4 (amended): after a teacher-path sync over bundles with pairwise
distinct course ids, the association rows of each synced course are exactly
the deduplicated ids resolved from that sync's fetched teacher roster
(prior associations fully replaced, the requester not necessarily included),
except that when no roster teacher resolves, the set is exactly the
requesting identity. -/
theorem sync_teacher_ct_replace (env : Env) (db : DB) (tok : Tokens) (ui : Userinfo)
    (up : GoogleUserProfile) (tcs : List Course) (b : Bundle)
    (hfail : env.failAt = none) (hex : env.exchange = .ok tok)
    (hui : env.userinfo = .ok ui) (hup : fetchUserProfile ui = .ok up)
    (ht : probeResult env.teacherList = .ok tcs) (hlen : tcs.length > 0)
    (hb : b ∈ buildBundles env tcs)
    (hnodup : (buildBundles env tcs).Pairwise (fun a b => a.cid ≠ b.cid)) :
    ((syncClassroomFromCode env db).1.course_teachers.filter
        (fun r => r.course_id = b.cid)) =
      ctBlock b.cid
        (if (resolvedIds (syncClassroomFromCode env db).1.users b).length > 0
          then resolvedIds (syncClassroomFromCode env db).1.users b
          else [idOfD (syncClassroomFromCode env db).1.users up.googleUserId]) := by
  have hred := sync_teacher_path env db tok ui up tcs hfail hex hui hup ht hlen
  rw [hred]
  have hct := pureTeacherTx_ct up tok (buildBundles env tcs) db
  dsimp only
  rw [hct, ctFold_eq]
  rw [List.filter_append]
  have hkeymem : b.cid ∈ ctKeys (teacherCtOps
      (pureTeacherTx up tok (buildBundles env tcs) db).1.users
      (idOfD (pureTeacherTx up tok (buildBundles env tcs) db).1.users up.googleUserId)
      (buildBundles env tcs)) := by
    simp only [ctKeys, teacherCtOps, List.map_map]
    exact List.mem_map.mpr ⟨b, hb, rfl⟩
  have hleft : (db.course_teachers.filter (fun r =>
      !(memStr r.course_id (ctKeys (teacherCtOps
        (pureTeacherTx up tok (buildBundles env tcs) db).1.users
        (idOfD (pureTeacherTx up tok (buildBundles env tcs) db).1.users up.googleUserId)
        (buildBundles env tcs)))))).filter (fun r => r.course_id = b.cid) = [] := by
    rw [List.filter_filter, List.filter_eq_nil_iff]
    intro r hr
    simp only [Bool.and_eq_true, decide_eq_true_eq, Bool.not_eq_true, not_and]
    intro hrc
    rw [hrc]
    cases hx : memStr b.cid (ctKeys (teacherCtOps
        (pureTeacherTx up tok (buildBundles env tcs) db).1.users
        (idOfD (pureTeacherTx up tok (buildBundles env tcs) db).1.users up.googleUserId)
        (buildBundles env tcs)))
    · exfalso
      have := (memStr_iff_mem _ _).mpr hkeymem
      rw [hx] at this
      exact Bool.false_ne_true this
    · simp
  rw [hleft, List.nil_append]
  have hpw2 : (teacherCtOps
      (pureTeacherTx up tok (buildBundles env tcs) db).1.users
      (idOfD (pureTeacherTx up tok (buildBundles env tcs) db).1.users up.googleUserId)
      (buildBundles env tcs)).Pairwise (fun a b => a.1 ≠ b.1) := by
    refine List.Pairwise.map _ ?_ hnodup
    intro a b hab
    simpa [teacherCtOps] using hab
  refine ctSurvivors_filter_of_nodup _ hpw2 b.cid _ ?_
  simp only [teacherCtOps]
  exact List.mem_map.mpr ⟨b, hb, rfl⟩

/-- Closed instance of the amended claim: the association set of the synced
course is exactly the resolved roster teacher. -/
theorem sync_teacher_ct_replace_witness :
    ((syncClassroomFromCode (envTeacher wTokens1) dbEmpty).1.course_teachers.filter
        (fun r => r.course_id = "c1")) =
      ctBlock "c1"
        (if (resolvedIds (syncClassroomFromCode (envTeacher wTokens1) dbEmpty).1.users
            { course := wCourse, cid := "c1", cname := "Math",
              teachers := [wTeacherA], students := [wStudentS1, wStudentBad] }).length > 0
          then resolvedIds (syncClassroomFromCode (envTeacher wTokens1) dbEmpty).1.users
            { course := wCourse, cid := "c1", cname := "Math",
              teachers := [wTeacherA], students := [wStudentS1, wStudentBad] }
          else [idOfD (syncClassroomFromCode (envTeacher wTokens1) dbEmpty).1.users
            "owner"]) :=
  sync_teacher_ct_replace (envTeacher wTokens1) dbEmpty wTokens1 wUserinfo
    wOwnerProfile [wCourse]
    { course := wCourse, cid := "c1", cname := "Math",
      teachers := [wTeacherA], students := [wStudentS1, wStudentBad] }
    rfl rfl rfl (by rfl) (by rfl) (by decide) (by decide) (by decide)

/-! ## Primary-teacher preservation (C5) -/

/-- C5: a course row whose primary teacher is on file keeps it across any
`upsertCourse` call passing a null primary teacher, while such a call still
overwrites the mutable fields (name, section, room, state) of the targeted
row. -/
theorem upsertCourse_preserves_primary (db : DB) (course : Course) (c : CourseRow)
    (t : Nat) (hc : c ∈ db.courses) (ht : c.teacher_user_id = some t)
    (hkeys : db.courses.Pairwise (fun a b => a.id ≠ b.id)) :
    ∀ v ∈ (upsertCourse db course none).courses, v.id = c.id →
      v.teacher_user_id = some t ∧
      (∀ cid cname, optTruthy course.id = some cid →
        optTruthy course.name = some cname → cid = c.id →
        v.name = cname ∧ v.sectionName = course.sectionName ∧
          v.room = course.room ∧ v.course_state = course.courseState) := by
  have huniq : ∀ a ∈ db.courses, ∀ b ∈ db.courses, a.id = b.id → a = b := by
    intro a ha b hb hab
    by_cases heq : a = b
    · exact heq
    · exact absurd hab (List.Pairwise.forall
        (fun x y h => (h ∘ Eq.symm : y.id ≠ x.id)) hkeys ha hb heq)
  intro v hv hvc
  cases hid : optTruthy course.id with
  | none =>
    have hsame : upsertCourse db course none = db := by
      simp [upsertCourse, hid]
    rw [hsame] at hv
    have hvceq : v = c := huniq v hv c hc hvc
    subst hvceq
    exact ⟨ht, fun cid cname h1 _ _ => absurd h1 (by simp)⟩
  | some cid0 =>
    cases hname : optTruthy course.name with
    | none =>
      have hsame : upsertCourse db course none = db := by
        simp [upsertCourse, hid, hname]
      rw [hsame] at hv
      have hvceq : v = c := huniq v hv c hc hvc
      subst hvceq
      exact ⟨ht, fun cid cname _ h2 _ => absurd h2 (by simp)⟩
    | some cname0 =>
      cases hf : db.courses.find? (fun r => r.id = cid0) with
      | some r =>
        have hcrs : (upsertCourse db course none).courses = db.courses.map (fun r =>
            if r.id = cid0 then updateCourseRow r cid0 cname0 course none else r) := by
          simp [upsertCourse, hid, hname, hf]
        rw [hcrs] at hv
        obtain ⟨w, hw, hwv⟩ := List.mem_map.mp hv
        by_cases hcase : w.id = cid0
        · rw [if_pos hcase] at hwv
          have hwc : w = c := by
            apply huniq w hw c hc
            rw [← hvc, ← hwv]
            rfl
          subst hwc
          rw [← hwv]
          refine ⟨?_, ?_⟩
          · simp [updateCourseRow, ht]
          · intro cid cname h1 h2 _
            injection h1 with h1e
            injection h2 with h2e
            subst h1e
            subst h2e
            simp [updateCourseRow]
        · rw [if_neg hcase] at hwv
          have hwc : w = c := huniq w hw c hc (by rw [hwv, hvc])
          subst hwc
          rw [← hwv]
          refine ⟨ht, ?_⟩
          intro cid cname h1 _ h3
          injection h1 with h1e
          subst h1e
          exact absurd h3.symm hcase
      | none =>
        have hcrs : (upsertCourse db course none).courses =
            db.courses ++ [freshCourseRow cid0 cname0 course none] := by
          simp [upsertCourse, hid, hname, hf]
        rw [hcrs] at hv
        rcases List.mem_append.mp hv with h1 | h2
        · have hvceq : v = c := huniq v h1 c hc hvc
          subst hvceq
          refine ⟨ht, ?_⟩
          intro cid cname hcid _ hcidc
          injection hcid with hcide
          subst hcide
          exfalso
          have := List.find?_eq_none.mp hf v hc
          rw [← hcidc] at this
          simp at this
        · exfalso
          simp only [List.mem_singleton] at h2
          have hvid : v.id = cid0 := by rw [h2]; rfl
          have := List.find?_eq_none.mp hf c hc
          rw [← hvc, hvid] at this
          simp at this

/-- Closed instance: a student-path style course upsert with a null primary
teacher keeps the recorded primary teacher and refreshes the name. -/
theorem upsertCourse_preserves_primary_witness :
    (updateCourseRow wCourseRowT7 "c1" "Math" wCourse none).teacher_user_id =
      some 7 ∧
    ((updateCourseRow wCourseRowT7 "c1" "Math" wCourse none).name = "Math" ∧
      (updateCourseRow wCourseRowT7 "c1" "Math" wCourse none).sectionName =
        wCourse.sectionName ∧
      (updateCourseRow wCourseRowT7 "c1" "Math" wCourse none).room =
        wCourse.room ∧
      (updateCourseRow wCourseRowT7 "c1" "Math" wCourse none).course_state =
        wCourse.courseState) :=
  have h := upsertCourse_preserves_primary dbCourseT7 wCourse wCourseRowT7 7
    (by simp [dbCourseT7]) rfl (by simp [dbCourseT7])
    (updateCourseRow wCourseRowT7 "c1" "Math" wCourse none) (by decide) rfl
  ⟨h.1, h.2 "c1" "Math" rfl rfl rfl⟩

/-! ## Deterministic enrollment id (C6) -/

theorem upsertStudent_found_length (db : DB) (s : Student) (c : Course) (uid : Nat)
    (suid cid : String) (r : StudentRow)
    (h1 : optTruthy s.userId = some suid) (h2 : optTruthy c.id = some cid)
    (hr : db.students.find? (fun q => q.id = studentRowId cid suid) = some r) :
    (upsertStudent db s c uid).students.length = db.students.length := by
  have hst : (upsertStudent db s c uid).students = db.students.map (fun q =>
      if q.id = studentRowId cid suid
      then { studentRowFor s c suid cid uid with id := q.id } else q) := by
    simp [upsertStudent, h1, h2, hr]
  rw [hst, List.length_map]

/-- C6: the enrollment row id is the pure function `studentRowId` of the
(course id, external student id) pair: an `upsertStudent` call only touches
the row with that id, and re-importing the same pair (through any student
and course values carrying it) adds no second row. -/
theorem upsertStudent_deterministic_id (db : DB) (s s2 : Student) (c c2 : Course)
    (uid uid2 : Nat) (suid cid : String)
    (h1 : optTruthy s.userId = some suid) (h2 : optTruthy c.id = some cid)
    (h3 : optTruthy s2.userId = some suid) (h4 : optTruthy c2.id = some cid) :
    (∀ v ∈ (upsertStudent db s c uid).students,
      v ∈ db.students ∨ v.id = studentRowId cid suid) ∧
    (upsertStudent (upsertStudent db s c uid) s2 c2 uid2).students.length =
      (upsertStudent db s c uid).students.length := by
  have hpres : ((upsertStudent db s c uid).students.find?
      (fun r => r.id = studentRowId cid suid)).isSome := by
    rw [List.find?_isSome]
    cases hf : db.students.find? (fun r => r.id = studentRowId cid suid) with
    | some r =>
      have hst : (upsertStudent db s c uid).students = db.students.map (fun r =>
          if r.id = studentRowId cid suid
          then { studentRowFor s c suid cid uid with id := r.id } else r) := by
        simp [upsertStudent, h1, h2, hf]
      have hrmem := List.mem_of_find?_eq_some hf
      have hrp : r.id = studentRowId cid suid := by
        have := List.find?_some hf
        simpa using this
      refine ⟨{ studentRowFor s c suid cid uid with id := r.id }, ?_, ?_⟩
      · rw [hst]
        exact List.mem_map.mpr ⟨r, hrmem, by rw [if_pos hrp]⟩
      · simpa using hrp
    | none =>
      have hst : (upsertStudent db s c uid).students =
          db.students ++ [studentRowFor s c suid cid uid] := by
        simp [upsertStudent, h1, h2, hf]
      refine ⟨studentRowFor s c suid cid uid, ?_, ?_⟩
      · rw [hst]
        exact List.mem_append_right _ (by simp)
      · simp [studentRowFor]
  refine ⟨?_, ?_⟩
  · intro v hv
    cases hf : db.students.find? (fun r => r.id = studentRowId cid suid) with
    | some r =>
      have hst : (upsertStudent db s c uid).students = db.students.map (fun r =>
          if r.id = studentRowId cid suid
          then { studentRowFor s c suid cid uid with id := r.id } else r) := by
        simp [upsertStudent, h1, h2, hf]
      rw [hst] at hv
      obtain ⟨w, hw, hwv⟩ := List.mem_map.mp hv
      by_cases hcase : w.id = studentRowId cid suid
      · right
        rw [← hwv, if_pos hcase]
        exact hcase
      · left
        rw [← hwv, if_neg hcase]
        exact hw
    | none =>
      have hst : (upsertStudent db s c uid).students =
          db.students ++ [studentRowFor s c suid cid uid] := by
        simp [upsertStudent, h1, h2, hf]
      rw [hst] at hv
      rcases List.mem_append.mp hv with ha | hb
      · exact Or.inl ha
      · right
        simp only [List.mem_singleton] at hb
        rw [hb]
        rfl
  · obtain ⟨r, hr⟩ := Option.isSome_iff_exists.mp hpres
    exact upsertStudent_found_length _ s2 c2 uid2 suid cid r h3 h4 hr

/-- Closed instance: importing the same (course, external student) pair twice
keeps a single enrollment row. -/
theorem upsertStudent_deterministic_id_witness :
    (∀ v ∈ (upsertStudent dbC1 wStudentS1 wCourse 2).students,
      v ∈ dbC1.students ∨ v.id = studentRowId "c1" "s1") ∧
    (upsertStudent (upsertStudent dbC1 wStudentS1 wCourse 2) wStudentS1 wCourse
        5).students.length =
      (upsertStudent dbC1 wStudentS1 wCourse 2).students.length :=
  upsertStudent_deterministic_id dbC1 wStudentS1 wStudentS1 wCourse wCourse 2 5
    "s1" "c1" rfl rfl rfl rfl

/-! ## Probe-driven role selection (C7) -/

theorem pureTeacherTx_snd (up : GoogleUserProfile) (tok : Tokens) (bs : List Bundle)
    (db : DB) :
    (pureTeacherTx up tok bs db).2 =
      .teacher { id := (upsertUser db up Role.teacher).2, name := up.name,
                 email := up.email }
        (pureBundles (upsertUser db up Role.teacher).2
          (storeUserTokens (upsertUser db up Role.teacher).1
            (upsertUser db up Role.teacher).2 tok) bs).2 := by
  simp [pureTeacherTx]

theorem pureStudentTx_snd (up : GoogleUserProfile) (tok : Tokens) (cs : List Course)
    (db : DB) :
    (pureStudentTx up tok cs db).2 =
      .student { id := (upsertUser db up Role.student).2, name := up.name,
                 email := up.email }
        ((selectStudentsByUser (pureStudentTx up tok cs db).1
            (upsertUser db up Role.student).2).map studentSummaryRow) := by
  simp [pureStudentTx, pureStudentTx_fst]

/-- C7: the caller's role is decided by the teacher-classroom probe — the
teacher path runs exactly when that probe yields one or more courses, the
student path otherwise; a 403 on a probe is converted to an empty course
list instead of an error, so a 403 teacher probe followed by a non-empty
student probe completes the student path with an ok result. -/
theorem sync_probe_role_selection (env : Env) (db : DB) (tok : Tokens)
    (ui : Userinfo) (up : GoogleUserProfile)
    (hfail : env.failAt = none) (hex : env.exchange = .ok tok)
    (hui : env.userinfo = .ok ui) (hup : fetchUserProfile ui = .ok up) :
    (∀ e : ApiError, e.code = some 403 → probeResult (.error e) = .ok []) ∧
    (∀ tcs, probeResult env.teacherList = .ok tcs → tcs.length > 0 →
      ∃ u cs, syncClassroomFromCode env db =
        ((pureTeacherTx up tok (buildBundles env tcs) db).1, .ok (.teacher u cs))) ∧
    (∀ scs, probeResult env.teacherList = .ok [] →
      probeResult env.studentList = .ok scs →
      ∃ u cs, syncClassroomFromCode env db =
        ((pureStudentTx up tok scs db).1, .ok (.student u cs))) ∧
    (∀ e scs, env.teacherList = .error e → e.code = some 403 →
      probeResult env.studentList = .ok scs →
      ∃ u cs, syncClassroomFromCode env db =
        ((pureStudentTx up tok scs db).1, .ok (.student u cs))) := by
  refine ⟨fun e he => by simp [probeResult, he], ?_, ?_, ?_⟩
  · intro tcs hts hlen
    rw [sync_teacher_path env db tok ui up tcs hfail hex hui hup hts hlen,
      pureTeacherTx_snd]
    exact ⟨_, _, rfl⟩
  · intro scs ht0 hs
    rw [sync_student_path env db tok ui up scs hfail hex hui hup ht0 hs,
      pureStudentTx_snd]
    exact ⟨_, _, rfl⟩
  · intro e scs hte he403 hs
    have ht0 : probeResult env.teacherList = .ok [] := by
      rw [hte]
      simp [probeResult, he403]
    rw [sync_student_path env db tok ui up scs hfail hex hui hup ht0 hs,
      pureStudentTx_snd]
    exact ⟨_, _, rfl⟩

/-- Closed instance: the 403-probing environment satisfies every conjunct of
the role-selection theorem. -/
theorem sync_probe_role_selection_witness :
    (∀ e : ApiError, e.code = some 403 → probeResult (.error e) = .ok []) ∧
    (∀ tcs, probeResult (envStudent wTokens1).teacherList = .ok tcs →
      tcs.length > 0 →
      ∃ u cs, syncClassroomFromCode (envStudent wTokens1) dbEmpty =
        ((pureTeacherTx wOwnerProfile wTokens1
            (buildBundles (envStudent wTokens1) tcs) dbEmpty).1,
          .ok (.teacher u cs))) ∧
    (∀ scs, probeResult (envStudent wTokens1).teacherList = .ok [] →
      probeResult (envStudent wTokens1).studentList = .ok scs →
      ∃ u cs, syncClassroomFromCode (envStudent wTokens1) dbEmpty =
        ((pureStudentTx wOwnerProfile wTokens1 scs dbEmpty).1,
          .ok (.student u cs))) ∧
    (∀ e scs, (envStudent wTokens1).teacherList = .error e → e.code = some 403 →
      probeResult (envStudent wTokens1).studentList = .ok scs →
      ∃ u cs, syncClassroomFromCode (envStudent wTokens1) dbEmpty =
        ((pureStudentTx wOwnerProfile wTokens1 scs dbEmpty).1,
          .ok (.student u cs))) :=
  sync_probe_role_selection (envStudent wTokens1) dbEmpty wTokens1 wUserinfo
    wOwnerProfile rfl rfl rfl rfl

/-! ## Student-path summary re-read (C8) -/

theorem insertByName_perm (r : StudentRow) :
    ∀ l : List StudentRow, List.Perm (insertByName r l) (r :: l) := by
  intro l
  induction l with
  | nil => exact List.Perm.refl _
  | cons x xs ih =>
    rw [insertByName]
    split
    · exact List.Perm.refl _
    · exact (List.Perm.cons x ih).trans (List.Perm.swap r x xs)

theorem sortByName_perm : ∀ l : List StudentRow, List.Perm (sortByName l) l := by
  intro l
  induction l with
  | nil => exact List.Perm.refl _
  | cons x xs ih =>
    rw [sortByName]
    exact (insertByName_perm x (sortByName xs)).trans (List.Perm.cons x ih)

theorem insertByName_sorted (r : StudentRow) :
    ∀ l : List StudentRow, l.Pairwise (fun a b => a.name ≤ b.name) →
      (insertByName r l).Pairwise (fun a b => a.name ≤ b.name) := by
  intro l
  induction l with
  | nil =>
    intro _
    simp [insertByName]
  | cons x xs ih =>
    intro hl
    rw [List.pairwise_cons] at hl
    rw [insertByName]
    split
    · rename_i hle
      refine List.pairwise_cons.mpr ⟨?_, List.pairwise_cons.mpr hl⟩
      intro b hb
      rcases List.mem_cons.mp hb with h1 | h2
      · rw [h1]
        exact hle
      · exact le_trans hle (hl.1 b h2)
    · rename_i hgt
      refine List.pairwise_cons.mpr ⟨?_, ih hl.2⟩
      intro b hb
      rcases List.mem_cons.mp ((insertByName_perm r xs).mem_iff.mp hb) with h1 | h2
      · rw [h1]
        exact le_of_not_le hgt
      · exact hl.1 b h2

theorem sortByName_sorted : ∀ l : List StudentRow,
    (sortByName l).Pairwise (fun a b => a.name ≤ b.name) := by
  intro l
  induction l with
  | nil => simp [sortByName]
  | cons x xs ih =>
    rw [sortByName]
    exact insertByName_sorted x _ ih

/-- C8: on the student path the returned course summary is built by
re-reading the caller's enrollment rows from the final persisted database —
the rows whose user_id is the caller's id, ordered ascending by name — and
mapping each persisted row to a summary entry; the re-read is a permutation
of exactly the caller's persisted enrollment rows and is sorted by name. -/
theorem sync_student_summary_reread (env : Env) (db : DB) (tok : Tokens)
    (ui : Userinfo) (up : GoogleUserProfile) (scs : List Course)
    (hfail : env.failAt = none) (hex : env.exchange = .ok tok)
    (hui : env.userinfo = .ok ui) (hup : fetchUserProfile ui = .ok up)
    (ht : probeResult env.teacherList = .ok [])
    (hs : probeResult env.studentList = .ok scs) :
    (∀ (d : DB) (uid : Nat),
      List.Perm (selectStudentsByUser d uid)
        (d.students.filter (fun r => r.user_id = uid)) ∧
      (selectStudentsByUser d uid).Pairwise (fun a b => a.name ≤ b.name)) ∧
    (∃ u, syncClassroomFromCode env db =
      ((pureStudentTx up tok scs db).1,
        .ok (.student u
          ((selectStudentsByUser (pureStudentTx up tok scs db).1
              (idOfD (pureStudentTx up tok scs db).1.users up.googleUserId)).map
            studentSummaryRow)))) := by
  refine ⟨?_, ?_⟩
  · intro d uid
    exact ⟨sortByName_perm _, sortByName_sorted _⟩
  · have hid : idOfD (pureStudentTx up tok scs db).1.users up.googleUserId =
        (upsertUser db up Role.student).2 := by
      rw [idOfD, pureStudentTx_callerId]
      rfl
    rw [sync_student_path env db tok ui up scs hfail hex hui hup ht hs,
      pureStudentTx_snd, hid]
    exact ⟨_, rfl⟩

/-- Closed instance: the student-path fixture returns the summary computed
from the re-read of its own persisted enrollment rows. -/
theorem sync_student_summary_reread_witness :
    (∀ (d : DB) (uid : Nat),
      List.Perm (selectStudentsByUser d uid)
        (d.students.filter (fun r => r.user_id = uid)) ∧
      (selectStudentsByUser d uid).Pairwise (fun a b => a.name ≤ b.name)) ∧
    (∃ u, syncClassroomFromCode (envStudent wTokens1) dbEmpty =
      ((pureStudentTx wOwnerProfile wTokens1 [wCourse] dbEmpty).1,
        .ok (.student u
          ((selectStudentsByUser
              (pureStudentTx wOwnerProfile wTokens1 [wCourse] dbEmpty).1
              (idOfD (pureStudentTx wOwnerProfile wTokens1 [wCourse]
                  dbEmpty).1.users wOwnerProfile.googleUserId)).map
            studentSummaryRow)))) :=
  sync_student_summary_reread (envStudent wTokens1) dbEmpty wTokens1 wUserinfo
    wOwnerProfile [wCourse] rfl rfl rfl (by rfl) (by rfl) (by rfl)

/-! ## Fetch-before-write ordering (C9) -/

theorem noFetchAfterWrite_of_split (l f w : List Ev) (hl : l = f ++ w)
    (hf : ∀ x ∈ f, x = Ev.fetch) (hw : ∀ x ∈ w, x = Ev.write) :
    noFetchAfterWrite l := by
  subst hl
  intro i j hij hwi hfj
  by_cases hi : i < f.length
  · rw [List.get?_append hi] at hwi
    have hmem := List.get?_mem hwi
    have := hf _ hmem
    simp at this
  · have hile : f.length ≤ i := Nat.le_of_not_lt hi
    have hjle : f.length ≤ j := le_trans hile (Nat.le_of_lt hij)
    rw [List.get?_append_right hjle] at hfj
    have hmem := List.get?_mem hfj
    have := hw _ hmem
    simp at this

theorem courseFetchEvents_fetch : ∀ cs : List Course,
    ∀ x ∈ courseFetchEvents cs, x = Ev.fetch := by
  intro cs
  induction cs with
  | nil => intro x hx; simp [courseFetchEvents] at hx
  | cons c rest ih =>
    intro x hx
    rw [courseFetchEvents] at hx
    cases hc : optTruthy c.id with
    | none =>
      rw [hc] at hx
      exact ih x hx
    | some cid =>
      cases hn : optTruthy c.name with
      | none =>
        rw [hc, hn] at hx
        exact ih x hx
      | some cname =>
        rw [hc, hn] at hx
        rcases List.mem_cons.mp hx with h | hx2
        · exact h
        rcases List.mem_cons.mp hx2 with h | hx3
        · exact h
        exact ih x hx3

theorem teacherRosterWrites_write : ∀ ts : List Teacher,
    ∀ x ∈ teacherRosterWrites ts, x = Ev.write := by
  intro ts
  induction ts with
  | nil => intro x hx; simp [teacherRosterWrites] at hx
  | cons t rest ih =>
    intro x hx
    rw [teacherRosterWrites] at hx
    cases hp : toProfile t.profile with
    | none =>
      rw [hp] at hx
      exact ih x hx
    | some p =>
      rw [hp] at hx
      rcases List.mem_cons.mp hx with h | hx2
      · exact h
      exact ih x hx2

theorem studentRosterWrites_write (c : Course) : ∀ ss : List Student,
    ∀ x ∈ studentRosterWrites c ss, x = Ev.write := by
  intro ss
  induction ss with
  | nil => intro x hx; simp [studentRosterWrites] at hx
  | cons s rest ih =>
    intro x hx
    rw [studentRosterWrites] at hx
    cases hp : toProfile s.profile with
    | none =>
      rw [hp] at hx
      exact ih x hx
    | some p =>
      rw [hp] at hx
      rcases List.mem_cons.mp hx with h | hx2
      · exact h
      cases hu : optTruthy s.userId with
      | none =>
        rw [hu] at hx2
        exact ih x hx2
      | some su =>
        cases hci : optTruthy c.id with
        | none =>
          rw [hu, hci] at hx2
          exact ih x hx2
        | some ci =>
          rw [hu, hci] at hx2
          rcases List.mem_cons.mp hx2 with h | hx3
          · exact h
          exact ih x hx3

theorem tokenWrites_write (tok : Tokens) : ∀ x ∈ tokenWrites tok, x = Ev.write := by
  intro x hx
  rw [tokenWrites] at hx
  cases ha : optTruthy tok.access_token with
  | none =>
    rw [ha] at hx
    simp at hx
  | some a =>
    rw [ha] at hx
    exact List.mem_singleton.mp hx

theorem bundleWrites_write : ∀ bs : List Bundle,
    ∀ x ∈ bundleWrites bs, x = Ev.write := by
  intro bs
  induction bs with
  | nil => intro x hx; simp [bundleWrites] at hx
  | cons b rest ih =>
    intro x hx
    rw [bundleWrites] at hx
    rcases List.mem_append.mp hx with h1 | h2
    · rcases List.mem_append.mp h1 with h3 | h4
      · exact teacherRosterWrites_write b.teachers x h3
      · rcases List.mem_cons.mp h4 with h | h5
        · exact h
        rcases List.mem_cons.mp h5 with h | h6
        · exact h
        exact studentRosterWrites_write b.course b.students x h6
    · exact ih x h2

theorem teacherTxWrites_write (tok : Tokens) (bs : List Bundle) :
    ∀ x ∈ teacherTxWrites tok bs, x = Ev.write := by
  intro x hx
  rw [teacherTxWrites] at hx
  rcases List.mem_cons.mp hx with h | hx2
  · exact h
  rcases List.mem_append.mp hx2 with h1 | h2
  · exact tokenWrites_write tok x h1
  · exact bundleWrites_write bs x h2

theorem studentCoursesWrites_write : ∀ cs : List Course,
    ∀ x ∈ studentCoursesWrites cs, x = Ev.write := by
  intro cs
  induction cs with
  | nil => intro x hx; simp [studentCoursesWrites] at hx
  | cons c rest ih =>
    intro x hx
    rw [studentCoursesWrites] at hx
    cases hc : optTruthy c.id with
    | none =>
      rw [hc] at hx
      exact ih x hx
    | some cid =>
      cases hn : optTruthy c.name with
      | none =>
        rw [hc, hn] at hx
        exact ih x hx
      | some cname =>
        rw [hc, hn] at hx
        rcases List.mem_cons.mp hx with h | hx2
        · exact h
        rcases List.mem_cons.mp hx2 with h | hx3
        · exact h
        exact ih x hx3

theorem studentTxWrites_write (tok : Tokens) (cs : List Course) :
    ∀ x ∈ studentTxWrites tok cs, x = Ev.write := by
  intro x hx
  rw [studentTxWrites] at hx
  rcases List.mem_cons.mp hx with h | hx2
  · exact h
  rcases List.mem_append.mp hx2 with h1 | h2
  · exact tokenWrites_write tok x h1
  · exact studentCoursesWrites_write cs x h2

theorem all_fetch_replicate (n : Nat) :
    ∀ x ∈ List.replicate n Ev.fetch, x = Ev.fetch :=
  fun _ hx => List.eq_of_mem_replicate hx

theorem all_write_nil : ∀ x ∈ ([] : List Ev), x = Ev.write := by
  intro x hx
  simp at hx

/-- C9: in the event trace of any `syncClassroomFromCode` call, no provider
fetch occurs after the first database write: every trace splits into a fetch
phase followed by a write phase. -/
theorem sync_fetch_before_write (env : Env) :
    noFetchAfterWrite (syncTrace env) := by
  unfold syncTrace
  cases hex : env.exchange with
  | error e =>
    exact noFetchAfterWrite_of_split _ (List.replicate 1 Ev.fetch) [] rfl
      (all_fetch_replicate 1) all_write_nil
  | ok tok =>
    dsimp only
    cases hui : env.userinfo with
    | error e =>
      exact noFetchAfterWrite_of_split _ (List.replicate 2 Ev.fetch) [] rfl
        (all_fetch_replicate 2) all_write_nil
    | ok ui =>
      dsimp only
      cases hup : fetchUserProfile ui with
      | error e =>
        exact noFetchAfterWrite_of_split _ (List.replicate 2 Ev.fetch) [] rfl
          (all_fetch_replicate 2) all_write_nil
      | ok up =>
        dsimp only
        cases ht : probeResult env.teacherList with
        | error e =>
          exact noFetchAfterWrite_of_split _ (List.replicate 3 Ev.fetch) [] rfl
            (all_fetch_replicate 3) all_write_nil
        | ok tcs =>
          dsimp only
          by_cases hlen : tcs.length > 0
          · rw [if_pos hlen]
            refine noFetchAfterWrite_of_split _
              (Ev.fetch :: Ev.fetch :: Ev.fetch :: courseFetchEvents tcs)
              (teacherTxWrites tok (buildBundles env tcs)) (by simp) ?_ ?_
            · intro x hx
              rcases List.mem_cons.mp hx with h | hx
              · exact h
              rcases List.mem_cons.mp hx with h | hx
              · exact h
              rcases List.mem_cons.mp hx with h | hx
              · exact h
              exact courseFetchEvents_fetch tcs x hx
            · exact teacherTxWrites_write tok _
          · rw [if_neg hlen]
            cases hs : probeResult env.studentList with
            | error e =>
              exact noFetchAfterWrite_of_split _ (List.replicate 4 Ev.fetch) []
                rfl (all_fetch_replicate 4) all_write_nil
            | ok scs =>
              exact noFetchAfterWrite_of_split _ (List.replicate 4 Ev.fetch)
                (studentTxWrites tok scs) rfl (all_fetch_replicate 4)
                (studentTxWrites_write tok scs)

/-! ## studentCount semantics (C10) -/

theorem pureBundles_snd (cid0 : Nat) : ∀ (bs : List Bundle) (db : DB),
    (pureBundles cid0 db bs).2 = bs.map (fun b =>
      { id := b.cid, name := b.cname, sectionName := b.course.sectionName,
        studentCount := b.students.length }) := by
  intro bs
  induction bs with
  | nil => intro db; simp [pureBundles]
  | cons b rest ih => intro db; simp [pureBundles, ih]

theorem buildBundles_students (env : Env) : ∀ cs : List Course,
    ∀ b ∈ buildBundles env cs, b.students = env.studentsOf b.cid := by
  intro cs
  induction cs with
  | nil => intro b hb; simp [buildBundles] at hb
  | cons c rest ih =>
    intro b hb
    cases hc : optTruthy c.id with
    | none =>
      rw [buildBundles] at hb
      rw [hc] at hb
      exact ih b hb
    | some cid =>
      cases hn : optTruthy c.name with
      | none =>
        rw [buildBundles] at hb
        rw [hc, hn] at hb
        exact ih b hb
      | some cname =>
        rw [buildBundles] at hb
        rw [hc, hn] at hb
        rcases List.mem_cons.mp hb with h1 | h2
        · rw [h1]
        · exact ih b h2

/-- C10: on the teacher path each course's summary entry reports
`studentCount` as the raw length of that course's fetched student roster —
the roster recorded in the bundle, which is exactly what the provider
returned, counting entries whose profiles fail to resolve and are skipped
without being persisted; concretely, a roster with one resolvable and one
unresolvable student yields studentCount 2 while only one enrollment row is
written. -/
theorem sync_teacher_studentCount (env : Env) (db : DB) (tok : Tokens)
    (ui : Userinfo) (up : GoogleUserProfile) (tcs : List Course)
    (hfail : env.failAt = none) (hex : env.exchange = .ok tok)
    (hui : env.userinfo = .ok ui) (hup : fetchUserProfile ui = .ok up)
    (ht : probeResult env.teacherList = .ok tcs) (hlen : tcs.length > 0) :
    (∃ u, syncClassroomFromCode env db =
      ((pureTeacherTx up tok (buildBundles env tcs) db).1,
        .ok (.teacher u ((buildBundles env tcs).map (fun b =>
          { id := b.cid, name := b.cname, sectionName := b.course.sectionName,
            studentCount := b.students.length }))))) ∧
    (∀ b ∈ buildBundles env tcs, b.students = env.studentsOf b.cid) ∧
    (∃ u sums, (syncClassroomFromCode (envTeacher wTokens1) dbEmpty).2 =
        .ok (.teacher u sums) ∧
      sums.map (fun s => s.studentCount) = [2] ∧
      ((syncClassroomFromCode (envTeacher wTokens1) dbEmpty).1.students.filter
          (fun r => r.course_id = "c1")).length = 1) := by
  refine ⟨?_, buildBundles_students env tcs, ?_⟩
  · rw [sync_teacher_path env db tok ui up tcs hfail hex hui hup ht hlen,
      pureTeacherTx_snd, pureBundles_snd]
    exact ⟨_, rfl⟩
  · exact ⟨{ id := 0, name := "Owner", email := none },
      [{ id := "c1", name := "Math", sectionName := none, studentCount := 2 }],
      by rfl, by rfl, by rfl⟩

/-- Closed instance: the teacher-path fixture reports studentCount 2 for its
single course while persisting a single enrollment row. -/
theorem sync_teacher_studentCount_witness :
    (∃ u, syncClassroomFromCode (envTeacher wTokens1) dbEmpty =
      ((pureTeacherTx wOwnerProfile wTokens1
          (buildBundles (envTeacher wTokens1) [wCourse]) dbEmpty).1,
        .ok (.teacher u ((buildBundles (envTeacher wTokens1) [wCourse]).map
          (fun b =>
            { id := b.cid, name := b.cname, sectionName := b.course.sectionName,
              studentCount := b.students.length }))))) ∧
    (∀ b ∈ buildBundles (envTeacher wTokens1) [wCourse],
      b.students = (envTeacher wTokens1).studentsOf b.cid) ∧
    (∃ u sums, (syncClassroomFromCode (envTeacher wTokens1) dbEmpty).2 =
        .ok (.teacher u sums) ∧
      sums.map (fun s => s.studentCount) = [2] ∧
      ((syncClassroomFromCode (envTeacher wTokens1) dbEmpty).1.students.filter
          (fun r => r.course_id = "c1")).length = 1) :=
  sync_teacher_studentCount (envTeacher wTokens1) dbEmpty wTokens1 wUserinfo
    wOwnerProfile [wCourse] rfl rfl rfl (by rfl) (by rfl) (by decide)

end HighView
